import Mathlib

/-!
# Helmsman post-processing core: `include/utils/ops.h`, `include/utils/augment.h`

Shallow embedding of the letterbox transform, of the geometric mapping between network
input and original image, and of the detection decoder with Non-Maximum Suppression.

Conventions of the embedding

* C++ `int` is `Int`. In `clip_boxes` the `int` subtraction is wrapped to 32 bits with
  `wrapInt32`. The row offsets of `non_max_suppression` (`class_names_num + 4`,
  `data_width - rest_start_pos`, pointer steps) and the box areas inside OpenCV are
  computed in unbounded integers: signed overflow there is undefined in C++ and needs
  rows or boxes of about 2^31 elements.
* A finite C++ `float` or `double` value is the rational number it denotes (`ℚ`). Every
  `float` operation of the source is the exact operation followed by `f32`, the rounding
  to the nearest IEEE 754 binary32 number (ties to even, subnormal numbers included), and
  every `double` operation is followed by `f64`. The operand types follow the usual
  arithmetic conversions of C++: an `int` operand of a `float` operation is first
  converted with `f32`, a `float` operand of a `double` operation is widened without
  rounding, an `int` converts to `double` without rounding. Each operation rounds on its
  own (no fused multiply-add, no excess precision). Comparisons, `min` and `max` are
  exact; halving and doubling a float are exact operations that the rounding leaves
  unchanged.
* Overflow of a `float` operation to an infinity is not represented: `f32` has no largest
  exponent. The box and padding arithmetic stays below 2^64 for `int` image dimensions; in
  the row decoder a sum beyond the `float` range is converted to `INT_MIN` by `cvRound`
  like the infinity it stands for.
* NaN and the infinities are represented where the specification ranges over arbitrary
  floats, in the coordinate vector of `scale_coords` (`FloatValue`).
* The tensors, boxes, paddings and thresholds that the theorems quantify over range over
  all rationals, the floats among them; a theorem that needs a value to be a float says so
  (`f32 c = c`).
* Functions that can run into an invalid read or a failed library assertion return
  `Except Fault _`.
* `cv::Rect`, `cv::minMaxLoc`, `cv::dnn::NMSBoxes`, `cvRound` are OpenCV library routines
  called by the source; they are embedded after the OpenCV implementation (`types.hpp`,
  `nms.inl.hpp`, `fast_math.hpp`).
* Images are represented by what the geometry depends on: `letterbox` by the sizes of its
  images, `scale_image` by a matrix of elements whose interpolation under `cv::resize` is
  a parameter.
* Divisions by a zero image dimension (infinite or NaN in C++) are outside the embedding;
  the theorems about `letterbox`, `scale_boxes`, `scale_coords` and `scale_image` take
  positive dimensions.
-/

namespace Helmsman

/-! ## Data model -/

/-- The type `cv::Size`: integer width and height. -/
structure Size where
  width : Int
  height : Int
deriving DecidableEq

/-- The type `cv::Rect` (`cv::Rect_<int>`). -/
structure Rect where
  x : Int
  y : Int
  width : Int
  height : Int
deriving DecidableEq

/-- The type `cv::Rect_<float>`, with rational fields. -/
structure Rect2f where
  x : ℚ
  y : ℚ
  width : ℚ
  height : ℚ
deriving DecidableEq

/-- Ways in which the C++ code leaves its defined behaviour. -/
inductive Fault where
  /-- a read outside a buffer or outside a `std::vector` -/
  | outOfRange
  /-- an iterator range whose end lies before its start -/
  | badRange
  /-- a failed `CV_Assert` inside OpenCV -/
  | assertFailed
deriving DecidableEq

deriving instance DecidableEq for Except

/-- The part of `cv::Mat` that `non_max_suppression` uses: `output0.rows` and the flat
float buffer `output0.data`. -/
structure Mat where
  rows : Nat
  data : List ℚ
deriving DecidableEq

/-- Two's-complement wrap of an integer to the range of a 32-bit `int`. -/
def wrapInt32 (z : Int) : Int :=
  (z + 2147483648) % 4294967296 - 2147483648

/-! ## Floating-point arithmetic -/

/-- Rounding to the nearest integer, halfway cases to the even neighbour: the default
rounding mode of IEEE 754, the function `rint`. -/
def rint (v : ℚ) : Int :=
  let f := Int.floor v
  let d := v - (f : ℚ)
  if d < 1 / 2 then f
  else if 1 / 2 < d then f + 1
  else if f % 2 = 0 then f else f + 1

/-- Binary logarithm of a natural number `n ≥ 1`, rounded down, by repeated halving; the
first argument bounds the number of halvings. -/
def natLog2 : Nat → Nat → Nat
  | 0, _ => 0
  | fuel + 1, n => if n < 2 then 0 else natLog2 fuel (n / 2) + 1

/-- Binary exponent of a positive rational `q`: the integer `e` with `2^e ≤ q < 2^(e+1)`;
`0` when `q ≤ 0`. -/
def ilog2 (q : ℚ) : Int :=
  if q ≤ 0 then 0
  else
    let a : Int := (natLog2 q.num.toNat q.num.toNat : Nat)
    let b : Int := (natLog2 q.den q.den : Nat)
    if (2 : ℚ) ^ (a - b) ≤ q then a - b else a - b - 1

/-- Exponent of the unit in the last place at the rational `q`, for the binary format with
`p` significant bits and least normal exponent `emin`. -/
def qexp (p : Nat) (emin : Int) (q : ℚ) : Int :=
  max (ilog2 |q|) emin - ((p : Int) - 1)

/-- Rounding of a rational to the nearest number of the binary format with `p` significant
bits and least normal exponent `emin` (subnormal numbers included), ties to even. -/
def roundBinary (p : Nat) (emin : Int) (q : ℚ) : ℚ :=
  (rint (q / (2 : ℚ) ^ qexp p emin q) : ℚ) * (2 : ℚ) ^ qexp p emin q

/-- Rounding to `float` (IEEE 754 binary32): the result of a `float` operation is `f32` of
the exact result. -/
def f32 (q : ℚ) : ℚ := roundBinary 24 (-126) q

/-- Rounding to `double` (IEEE 754 binary64). -/
def f64 (q : ℚ) : ℚ := roundBinary 53 (-1022) q

/-- The literal `0.1f`. -/
def lit01 : ℚ := f32 (1 / 10)

/-- The function `std::round`: nearest integer, halfway cases away from zero. -/
def stdRound (q : ℚ) : Int :=
  if 0 ≤ q then Int.floor (q + 1 / 2) else Int.ceil (q - 1 / 2)

/-- The conversion `static_cast<int>` of a float: truncation toward zero. -/
def truncInt (q : ℚ) : Int :=
  if 0 ≤ q then Int.floor q else Int.ceil q

/-- The function `std::fmod`: `x - y * trunc(x / y)`, computed without rounding. -/
def fmod (x y : ℚ) : ℚ := x - y * (truncInt (x / y) : ℚ)

/-- A value of type `float` stored in the coordinate vector of `scale_coords`: NaN, an
infinity or a finite number. -/
inductive FloatValue where
  | nan
  | negInf
  | posInf
  | finite (q : ℚ)
deriving DecidableEq

/-- The comparison `a < b` of two floats; it is false when an operand is NaN. -/
def FloatValue.lt : FloatValue → FloatValue → Bool
  | .nan, _ => false
  | _, .nan => false
  | .negInf, .negInf => false
  | .negInf, _ => true
  | _, .negInf => false
  | .posInf, _ => false
  | .finite _, .posInf => true
  | .finite a, .finite b => decide (a < b)

/-- The function `std::max(a, b)`, which is `(a < b) ? b : a`. -/
def FloatValue.stdMax (a b : FloatValue) : FloatValue := if a.lt b then b else a

/-- The function `std::min(a, b)`, which is `(b < a) ? b : a`. -/
def FloatValue.stdMin (a b : FloatValue) : FloatValue := if b.lt a then b else a

/-- Conversion of a finite `double` to `float`: the nearest float, an infinity beyond the
largest finite float. -/
def FloatValue.ofDouble (q : ℚ) : FloatValue :=
  if (2 : ℚ) ^ 128 ≤ f32 q then .posInf
  else if f32 q ≤ -(2 : ℚ) ^ 128 then .negInf
  else .finite (f32 q)

/-! ## clip_boxes (ops.h:11-24) -/

/-- Integer overload, ops.h:11-16. -/
def clip_boxes (box : Rect) (shape : Size) : Rect :=
  let x := max 0 (min box.x shape.width)
  let y := max 0 (min box.y shape.height)
  let w := max 0 (min box.width (wrapInt32 (shape.width - x)))
  let h := max 0 (min box.height (wrapInt32 (shape.height - y)))
  { x := x, y := y, width := w, height := h }

/-- Floating-point overload, ops.h:19-24. In `shape.width - box.x` the `int` is converted to
`float` and the difference is a `float` subtraction. -/
def clip_boxes_float (box : Rect2f) (shape : Size) : Rect2f :=
  let x := max 0 (min box.x (f32 (shape.width : ℚ)))
  let y := max 0 (min box.y (f32 (shape.height : ℚ)))
  let w := max 0 (min box.width (f32 (f32 (shape.width : ℚ) - x)))
  let h := max 0 (min box.height (f32 (f32 (shape.height : ℚ) - y)))
  { x := x, y := y, width := w, height := h }

/-! ## OpenCV routines used by non_max_suppression -/

/-- The rounding `cvRound(float)` behind `saturate_cast<int>(float)`: nearest integer, ties
to even; a result outside the range of `int` is `INT_MIN` (the conversion instruction
`cvtss2si` of x86-64 that OpenCV uses there). -/
def cvRound (v : ℚ) : Int :=
  if -2147483648 ≤ rint v ∧ rint v ≤ 2147483647 then rint v else -2147483648

/-- Conversion `cv::Rect_<float>` to `cv::Rect`, field by field through `cvRound`. -/
def Rect2f.toRect (r : Rect2f) : Rect :=
  { x := cvRound r.x, y := cvRound r.y, width := cvRound r.width, height := cvRound r.height }

/-- The method `Rect::area`. -/
def Rect.area (r : Rect) : Int := r.width * r.height

/-- Intersection `a & b` of two rectangles; the empty intersection is `Rect()`. -/
def Rect.inter (a b : Rect) : Rect :=
  let x1 := max a.x b.x
  let y1 := max a.y b.y
  let w := min (a.x + a.width) (b.x + b.width) - x1
  let h := min (a.y + a.height) (b.y + b.height) - y1
  if w ≤ 0 ∨ h ≤ 0 then { x := 0, y := 0, width := 0, height := 0 }
  else { x := x1, y := y1, width := w, height := h }


/-- Intersection over union of two rectangles as a rational number, the measure named in
the specification: area of the intersection over area of the union (a quotient by zero
counts as zero). -/
def iou (a b : Rect) : ℚ :=
  ((a.inter b).area : ℚ) / (((a.area + b.area : Int) : ℚ) - ((a.inter b).area : ℚ))

/-- The Jaccard distance `1 - IoU` of OpenCV, computed in `double`: an `int` converts to
`double` without rounding and the difference `Aa + Ab - Aab` of two such integers is exact,
the quotient and the difference from `1.0` round. Two rectangles of total area `≤ 0` are at
distance `0`. -/
def jaccardDistance (a b : Rect) : ℚ :=
  if a.area + b.area ≤ 0 then 0
  else f64 (1 - f64 (((a.inter b).area : ℚ) /
    (((a.area + b.area : Int) : ℚ) - ((a.inter b).area : ℚ))))

/-- The overlap measure `rectOverlap` that `NMSBoxes` compares with the threshold:
`1.f - static_cast<float>(jaccardDistance(a, b))`. -/
def rectOverlap (a b : Rect) : ℚ := f32 (1 - f32 (jaccardDistance a b))

/-- Running maximum with the position of its first occurrence. -/
def maxLocFrom : List ℚ → Nat → ℚ × Nat → ℚ × Nat
  | [], _, best => best
  | v :: vs, i, best => if best.1 < v then maxLocFrom vs (i + 1) (v, i) else maxLocFrom vs (i + 1) best

/-- The call `cv::minMaxLoc(scores, nullptr, &max_conf, nullptr, &class_id)` on a
one-row matrix: the maximum and the column of its first occurrence. An empty score
matrix is outside the modelled domain. -/
def minMaxLoc : List ℚ → Except Fault (ℚ × Int)
  | [] => .error .assertFailed
  | v :: vs => .ok ((maxLocFrom vs 1 (v, 0)).1, ((maxLocFrom vs 1 (v, 0)).2 : Int))

/-- The helper `GetMaxScoreIndex`: pairs (score, index) with score above the threshold,
stably sorted by descending score. -/
def GetMaxScoreIndex (scores : List ℚ) (threshold : ℚ) : List (ℚ × Nat) :=
  ((scores.zip (List.range scores.length)).filter (fun p => threshold < p.1)).insertionSort
    (fun a b => a.1 ≥ b.1)

/-- A zero rectangle, the value of `Rect()`. -/
def Rect.zero : Rect := { x := 0, y := 0, width := 0, height := 0 }

/-- Inner loop of `NMSFast_`: the candidate is kept when its overlap with every index kept
so far is at most the threshold. -/
def nmsKeep (bboxes : List Rect) (nms_threshold : ℚ) (indices : List Nat) (idx : Nat) : Bool :=
  indices.all (fun kept =>
    decide (rectOverlap (bboxes.getD idx Rect.zero) (bboxes.getD kept Rect.zero) ≤ nms_threshold))

/-- Outer loop of `NMSFast_` (with `eta = 1`, `top_k = 0`): walk the sorted candidates,
appending those kept. -/
def nmsLoop (bboxes : List Rect) (nms_threshold : ℚ) : List (ℚ × Nat) → List Nat → List Nat
  | [], indices => indices
  | p :: ps, indices =>
    if nmsKeep bboxes nms_threshold indices p.2 then
      nmsLoop bboxes nms_threshold ps (indices ++ [p.2])
    else nmsLoop bboxes nms_threshold ps indices

/-- The routine `cv::dnn::NMSBoxes(bboxes, scores, score_threshold, nms_threshold, indices)`. -/
def NMSBoxes (bboxes : List Rect) (scores : List ℚ) (score_threshold nms_threshold : ℚ) :
    Except Fault (List Nat) :=
  if bboxes.length = scores.length ∧ 0 ≤ score_threshold ∧ 0 ≤ nms_threshold then
    .ok (nmsLoop bboxes nms_threshold (GetMaxScoreIndex scores score_threshold) [])
  else .error .assertFailed

/-! ## non_max_suppression (ops.h:74-121) -/

/-- A read `p[0]` through a float pointer at offset `p` of the buffer. -/
def readAt (data : List ℚ) (p : Int) : Except Fault ℚ :=
  if 0 ≤ p then
    match data[p.toNat]? with
    | some v => .ok v
    | none => .error .outOfRange
  else .error .outOfRange

/-- Construction `std::vector<float>(first, last)` from two pointers into the buffer. -/
def readRange (data : List ℚ) (first last : Int) : Except Fault (List ℚ) :=
  if last < first then .error .badRange
  else if first = last then .ok []
  else if 0 ≤ first ∧ last ≤ (data.length : Int) then
    .ok ((data.drop first.toNat).take (last - first).toNat)
  else .error .outOfRange

/-- The four vectors filled by the decoding loop (ops.h:76-79). -/
structure Cands where
  class_ids : List Int
  confidences : List ℚ
  boxes : List Rect
  rest : List (List ℚ)
deriving DecidableEq

/-- The returned tuple (ops.h:120): boxes, confidences, class ids, extras. -/
structure Dets where
  boxes : List Rect
  confidences : List ℚ
  class_ids : List Int
  rest : List (List ℚ)
deriving DecidableEq


/-- Lines ops.h:95-98: the `cv::Rect_<float>` built from the head `cx, cy, w, h` of a row,
in `float` arithmetic. -/
def candidateBox (cx cy out_w out_h : ℚ) : Rect2f :=
  let out_left := max (f32 (f32 (cx - f32 (1 / 2 * out_w)) + 1 / 2)) 0
  let out_top := max (f32 (f32 (cy - f32 (1 / 2 * out_h)) + 1 / 2)) 0
  { x := out_left, y := out_top, width := f32 (out_w + 1 / 2), height := f32 (out_h + 1 / 2) }

/-- Body of the row loop, ops.h:87-104, for the row starting at offset `p`. The
`cv::Rect_<float>` is converted to `cv::Rect` by `boxes.push_back`. -/
def decodeRow (data : List ℚ) (class_names_num data_width : Int) (conf_threshold : ℚ)
    (p : Int) (st : Cands) : Except Fault Cands :=
  let rest_start_pos := class_names_num + 4
  let rest_features := data_width - rest_start_pos
  match readRange data (p + 4) (p + 4 + class_names_num) with
  | .error e => .error e
  | .ok scores =>
    match minMaxLoc scores with
    | .error e => .error e
    | .ok mm =>
      if conf_threshold < mm.1 then
        match readRange data (p + 4 + class_names_num) (p + data_width) with
        | .error e => .error e
        | .ok _ =>
          match readAt data (p + 2), readAt data (p + 3), readAt data p, readAt data (p + 1) with
          | .ok out_w, .ok out_h, .ok cx, .ok cy =>
            let bbox : Rect2f := candidateBox cx cy out_w out_h
            let st1 : Cands :=
              { class_ids := st.class_ids ++ [mm.2]
                confidences := st.confidences ++ [mm.1]
                boxes := st.boxes ++ [bbox.toRect]
                rest := st.rest }
            if 0 < rest_features then
              match readRange data (p + rest_start_pos) (p + data_width) with
              | .error e => .error e
              | .ok rest_data => .ok { st1 with rest := st1.rest ++ [rest_data] }
            else .ok st1
          | _, _, _, _ => .error .outOfRange
      else .ok st

/-- The row loop, ops.h:86-106: `n` rows remain, the row pointer is at offset `p`. -/
def decodeLoop (data : List ℚ) (class_names_num data_width : Int) (conf_threshold : ℚ) :
    Nat → Int → Cands → Except Fault Cands
  | 0, _, st => .ok st
  | n + 1, p, st =>
    match decodeRow data class_names_num data_width conf_threshold p st with
    | .error e => .error e
    | .ok st1 => decodeLoop data class_names_num data_width conf_threshold n (p + data_width) st1

/-- The empty candidate vectors of ops.h:76-79. -/
def Cands.empty : Cands := { class_ids := [], confidences := [], boxes := [], rest := [] }

/-- The empty result vectors of ops.h:110-113. -/
def Dets.empty : Dets := { boxes := [], confidences := [], class_ids := [], rest := [] }

/-- Decoding stage, ops.h:76-106. -/
def decode (output0 : Mat) (class_names_num data_width : Int) (conf_threshold : ℚ) :
    Except Fault Cands :=
  decodeLoop output0.data class_names_num data_width conf_threshold output0.rows 0 Cands.empty

/-- The gathering loop, ops.h:114-119; `operator[]` outside a vector is a fault. -/
def gatherLoop (c : Cands) : List Nat → Dets → Except Fault Dets
  | [], out => .ok out
  | idx :: idxs, out =>
    match c.class_ids[idx]?, c.confidences[idx]?, c.boxes[idx]?, c.rest[idx]? with
    | some cid, some cf, some b, some r =>
      gatherLoop c idxs
        { boxes := out.boxes ++ [b], confidences := out.confidences ++ [cf]
          class_ids := out.class_ids ++ [cid], rest := out.rest ++ [r] }
    | _, _, _, _ => .error .outOfRange

/-- The NMS stage, ops.h:108-120, on the candidate vectors. The parameter `score_threshold`
of `NMSBoxes` is a `float`: the `double conf_threshold` is narrowed at the call. -/
def nmsStage (c : Cands) (conf_threshold iou_threshold : ℚ) : Except Fault Dets :=
  match NMSBoxes c.boxes c.confidences (f32 conf_threshold) iou_threshold with
  | .error e => .error e
  | .ok nms_result => gatherLoop c nms_result Dets.empty

/-- The function `non_max_suppression`, ops.h:74-121. -/
def non_max_suppression (output0 : Mat) (class_names_num data_width : Int)
    (conf_threshold iou_threshold : ℚ) : Except Fault Dets :=
  match decode output0 class_names_num data_width conf_threshold with
  | .error e => .error e
  | .ok c => nmsStage c conf_threshold iou_threshold

/-! ## letterbox (augment.h:7-37) -/

/-- The local variables of `letterbox` that decide the geometry of its output: the scale
`r`, the size of the resized image and the four border widths. -/
structure LetterboxParams where
  r : ℚ
  newUnpadW : Int
  newUnpadH : Int
  top : Int
  bottom : Int
  left : Int
  right : Int
deriving DecidableEq

/-- Lines augment.h:29-35: halve `dw`, `dh` and split them into the four borders. -/
def letterboxBorders (r : ℚ) (newUnpadW newUnpadH : Int) (dw dh : ℚ) : LetterboxParams :=
  let dw2 := f32 (dw / 2)
  let dh2 := f32 (dh / 2)
  { r := r, newUnpadW := newUnpadW, newUnpadH := newUnpadH
    top := stdRound (f32 (dh2 - lit01)), bottom := stdRound (f32 (dh2 + lit01))
    left := stdRound (f32 (dw2 - lit01)), right := stdRound (f32 (dw2 + lit01)) }

/-- Lines augment.h:11-14: the scale `r`. The quotients are `float` divisions of the
converted `int` operands. -/
def letterboxScale (shape newShape : Size) (scaleUp : Bool) : ℚ :=
  let r := min (f32 (f32 (newShape.height : ℚ) / f32 (shape.height : ℚ)))
    (f32 (f32 (newShape.width : ℚ) / f32 (shape.width : ℚ)))
  if scaleUp then r else min r 1

/-- Lines augment.h:10-35 of `letterbox`: `shape` is `image.size()`. The products are
`float` operations on the converted `int` operands; `std::fmod(dw, stride)` is computed in
`double` and stored in the `float` variable. -/
def letterboxParams (shape newShape : Size) (auto_ scaleFill scaleUp : Bool) (stride : Int) :
    LetterboxParams :=
  let r := letterboxScale shape newShape scaleUp
  let newUnpadW := stdRound (f32 (f32 (shape.width : ℚ) * r))
  let newUnpadH := stdRound (f32 (f32 (shape.height : ℚ) * r))
  let dw : ℚ := f32 ((newShape.width - newUnpadW : Int) : ℚ)
  let dh : ℚ := f32 ((newShape.height - newUnpadH : Int) : ℚ)
  if auto_ then
    letterboxBorders r newUnpadW newUnpadH (f32 (fmod dw (stride : ℚ))) (f32 (fmod dh (stride : ℚ)))
  else if scaleFill then
    letterboxBorders (f32 (f32 (newShape.width : ℚ) / f32 (shape.width : ℚ)))
      newShape.width newShape.height 0 0
  else letterboxBorders r newUnpadW newUnpadH dw dh

/-- The function `letterbox`, with images represented by their sizes: the result is the
size of `outImage`. `cv::resize` asserts a non-empty source and destination size,
`cv::copyMakeBorder` asserts non-negative borders. -/
def letterbox (image newShape : Size) (auto_ scaleFill scaleUp : Bool) (stride : Int) :
    Except Fault Size :=
  let p := letterboxParams image newShape auto_ scaleFill scaleUp stride
  if image.width ≤ 0 ∨ image.height ≤ 0 ∨ p.newUnpadW ≤ 0 ∨ p.newUnpadH ≤ 0 then
    .error .assertFailed
  else if p.top < 0 ∨ p.bottom < 0 ∨ p.left < 0 ∨ p.right < 0 then .error .assertFailed
  else .ok { width := p.newUnpadW + p.left + p.right, height := p.newUnpadH + p.top + p.bottom }

/-! ## scale_boxes (ops.h:27-52) -/

/-- The type `cv::Point2f`. -/
structure Point2f where
  x : ℚ
  y : ℚ
deriving DecidableEq

/-- The type `std::pair<float, cv::Point2f>` of the `ratio_pad` arguments. -/
structure RatioPad where
  first : ℚ
  second : Point2f
deriving DecidableEq

/-- The default argument `{-1.0f, cv::Point2f(-1.0f, -1.0f)}`. -/
def RatioPad.sentinel : RatioPad := { first := -1, second := { x := -1, y := -1 } }

/-- The locals `gain`, `pad_x`, `pad_y`. -/
structure GainPad where
  gain : ℚ
  pad_x : ℚ
  pad_y : ℚ
deriving DecidableEq

/-- Lines ops.h:30-40: the gain and padding that `scale_boxes` uses. -/
def scale_boxes_params (img1_shape img0_shape : Size) (ratio_pad : RatioPad) : GainPad :=
  if ratio_pad.first < 0 then
    let gain := min (f32 (f32 (img1_shape.height : ℚ) / f32 (img0_shape.height : ℚ)))
      (f32 (f32 (img1_shape.width : ℚ) / f32 (img0_shape.width : ℚ)))
    { gain := gain
      pad_x := (stdRound (f32 (f32 (f32 (f32 (img1_shape.width : ℚ) -
        f32 (f32 (img0_shape.width : ℚ) * gain)) / 2) - lit01)) : ℚ)
      pad_y := (stdRound (f32 (f32 (f32 (f32 (img1_shape.height : ℚ) -
        f32 (f32 (img0_shape.height : ℚ) * gain)) / 2) - lit01)) : ℚ) }
  else { gain := ratio_pad.first, pad_x := ratio_pad.second.x, pad_y := ratio_pad.second.y }

/-- The function `scale_boxes`, ops.h:27-52. -/
def scale_boxes (img1_shape : Size) (box : Rect2f) (img0_shape : Size) (ratio_pad : RatioPad)
    (padding : Bool) : Rect2f :=
  let gp := scale_boxes_params img1_shape img0_shape ratio_pad
  let x := if padding then f32 (box.x - gp.pad_x) else box.x
  let y := if padding then f32 (box.y - gp.pad_y) else box.y
  clip_boxes_float
    { x := f32 (x / gp.gain), y := f32 (y / gp.gain), width := f32 (box.width / gp.gain),
      height := f32 (box.height / gp.gain) } img0_shape

/-- The forward letterbox mapping named in the specification (multiply by the scale, add the
padding), in `float` arithmetic: the image in the letterboxed picture of a box of the
source picture. It belongs to the specification of the round trip, not to the source. -/
def letterbox_forward (p : LetterboxParams) (box : Rect2f) : Rect2f :=
  { x := f32 (f32 (box.x * p.r) + (p.left : ℚ)), y := f32 (f32 (box.y * p.r) + (p.top : ℚ)),
    width := f32 (box.width * p.r), height := f32 (box.height * p.r) }

/-! ## scale_coords (ops.h:55-71) -/

/-- The assignment `v[i] = f(v[i])`; an index outside the vector is a fault. -/
def updAt (v : List FloatValue) (i : Nat) (f : FloatValue → FloatValue) :
    Except Fault (List FloatValue) :=
  match v[i]? with
  | some a => .ok (v.set i (f a))
  | none => .error .outOfRange

/-- The loop `for (i = 0; i < v.size(); i += 3) { v[i] = f(v[i]); v[i+1] = g(v[i+1]); }`
from index `i` on. The first argument bounds the number of iterations; `v.size()`
iterations always reach the exit of the loop. -/
def coordsLoop (f g : FloatValue → FloatValue) :
    Nat → Nat → List FloatValue → Except Fault (List FloatValue)
  | 0, _, v => .ok v
  | fuel + 1, i, v =>
    if i < v.length then
      match updAt v i f with
      | .error e => .error e
      | .ok v1 =>
        match updAt v1 (i + 1) g with
        | .error e => .error e
        | .ok v2 => coordsLoop f g fuel (i + 3) v2
    else .ok v

/-- The indices that `coordsLoop` reads and writes, in order of access: `i` and `i + 1`
for every `i` taken by the loop header `for (; i < n; i += 3)` on a vector of size `n`.
The first argument bounds the number of iterations, as in `coordsLoop`. -/
def accessedFrom : Nat → Nat → Nat → List Nat
  | 0, _, _ => []
  | fuel + 1, i, n => if i < n then i :: (i + 1) :: accessedFrom fuel (i + 3) n else []

/-- Lines ops.h:57-60: the gain and padding that `scale_coords` uses, computed in `double`. -/
def scale_coords_params (img1_shape img0_shape : Size) : GainPad :=
  let gain := min (f64 ((img1_shape.width : ℚ) / (img0_shape.width : ℚ)))
    (f64 ((img1_shape.height : ℚ) / (img0_shape.height : ℚ)))
  { gain := gain
    pad_x := f64 (f64 ((img1_shape.width : ℚ) - f64 ((img0_shape.width : ℚ) * gain)) / 2)
    pad_y := f64 (f64 ((img1_shape.height : ℚ) - f64 ((img0_shape.height : ℚ) * gain)) / 2) }

/-- The right-hand side `(scaledCoords[i] - pad) / gain` of ops.h:62-63, stored back into a
`float`: the element is widened to `double`, the two operations are `double` operations, the
store narrows the result. NaN stays NaN; an infinity keeps its sign (`gain` is positive for
images with positive dimensions). -/
def scaleCoord (pad gain : ℚ) : FloatValue → FloatValue
  | .nan => .nan
  | .negInf => .negInf
  | .posInf => .posInf
  | .finite q => FloatValue.ofDouble (f64 (f64 (q - pad) / gain))

/-- The right-hand side `std::min(std::max(v, 0.0f), static_cast<float>(dim - 1))` of
ops.h:67-68. -/
def clampCoord (dim : Int) (v : FloatValue) : FloatValue :=
  FloatValue.stdMin (FloatValue.stdMax v (.finite 0)) (.finite (f32 ((dim - 1 : Int) : ℚ)))

/-- The function `scale_coords`, ops.h:55-71; the result is the vector `scaledCoords`. -/
def scale_coords (img1_shape : Size) (coords : List FloatValue) (img0_shape : Size) :
    Except Fault (List FloatValue) :=
  let gp := scale_coords_params img1_shape img0_shape
  match coordsLoop (scaleCoord gp.pad_x gp.gain) (scaleCoord gp.pad_y gp.gain)
      coords.length 0 coords with
  | .error e => .error e
  | .ok scaled =>
    coordsLoop (clampCoord img0_shape.width) (clampCoord img0_shape.height) scaled.length 0 scaled

/-- What one pass of `coordsLoop` computes on a vector made of whole `(x, y, confidence)`
triples, as a recursion over the triples; used to state the loop invariant. -/
def mapTriples (f g : FloatValue → FloatValue) : List FloatValue → List FloatValue
  | x :: y :: c :: rest => f x :: g y :: c :: mapTriples f g rest
  | [] => []
  | [x] => [x]
  | [x, y] => [x, y]

/-! ## scale_image (augment.h:39-62) -/

/-- The part of a single-channel `cv::Mat` that `scale_image` uses: `rows`, `cols` and
the elements in row-major order. -/
structure Mask where
  rows : Int
  cols : Int
  data : List ℚ
deriving DecidableEq

/-- The method `Mat::size`: `Size(cols, rows)`. -/
def Mask.size (m : Mask) : Size := { width := m.cols, height := m.rows }

/-- The sub-matrix `m(roi)`; OpenCV asserts that the rectangle lies inside the matrix. -/
def Mask.roi (m : Mask) (roi : Rect) : Except Fault Mask :=
  if 0 ≤ roi.x ∧ 0 ≤ roi.width ∧ roi.x + roi.width ≤ m.cols ∧
      0 ≤ roi.y ∧ 0 ≤ roi.height ∧ roi.y + roi.height ≤ m.rows then
    .ok { rows := roi.height, cols := roi.width
          data := (List.range roi.height.toNat).flatMap (fun i =>
            (m.data.drop ((roi.y.toNat + i) * m.cols.toNat + roi.x.toNat)).take roi.width.toNat) }
  else .error .assertFailed

/-- The call `cv::resize(src, dst, dsize)`: OpenCV asserts a non-empty source and a
non-empty destination size; the interpolated elements are supplied by `interp`. -/
def cvResize (interp : Mask → Size → List ℚ) (src : Mask) (dsize : Size) : Except Fault Mask :=
  if src.rows ≤ 0 ∨ src.cols ≤ 0 ∨ dsize.width ≤ 0 ∨ dsize.height ≤ 0 then .error .assertFailed
  else .ok { rows := dsize.height, cols := dsize.width, data := interp src dsize }

/-- Lines augment.h:44-54: the gain and padding that `scale_image` uses. -/
def scale_image_params (resized_mask : Mask) (im0_shape : Size) (ratio_pad : RatioPad) : GainPad :=
  if ratio_pad.first < 0 then
    let gain := min (f32 (f32 (resized_mask.rows : ℚ) / f32 (im0_shape.height : ℚ)))
      (f32 (f32 (resized_mask.cols : ℚ) / f32 (im0_shape.width : ℚ)))
    { gain := gain
      pad_x := f32 (f32 (f32 (resized_mask.cols : ℚ) - f32 (f32 (im0_shape.width : ℚ) * gain)) / 2)
      pad_y := f32 (f32 (f32 (resized_mask.rows : ℚ) - f32 (f32 (im0_shape.height : ℚ) * gain)) / 2) }
  else { gain := ratio_pad.first, pad_x := ratio_pad.second.x, pad_y := ratio_pad.second.y }

/-- Lines augment.h:55-57: the crop rectangle `clipped_rect`. -/
def clipped_rect (resized_mask : Mask) (im0_shape : Size) (ratio_pad : RatioPad) : Rect :=
  let gp := scale_image_params resized_mask im0_shape ratio_pad
  { x := truncInt gp.pad_x, y := truncInt gp.pad_y
    width := resized_mask.cols - truncInt (f32 (gp.pad_x * 2))
    height := resized_mask.rows - truncInt (f32 (gp.pad_y * 2)) }

/-- The function `scale_image`, augment.h:39-62; `clone()` returns an equal matrix. -/
def scale_image (interp : Mask → Size → List ℚ) (resized_mask : Mask) (im0_shape : Size)
    (ratio_pad : RatioPad) : Except Fault Mask :=
  if resized_mask.size = im0_shape then .ok resized_mask
  else
    match resized_mask.roi (clipped_rect resized_mask im0_shape ratio_pad) with
    | .error e => .error e
    | .ok clipped_mask => cvResize interp clipped_mask im0_shape

/-! ## The binary exponent -/

theorem natLog2_spec : ∀ (fuel n : Nat), 1 ≤ n → n ≤ fuel →
    2 ^ natLog2 fuel n ≤ n ∧ n < 2 ^ (natLog2 fuel n + 1) := by
  intro fuel
  induction fuel with
  | zero =>
    intro n h1 h2
    omega
  | succ fuel ih =>
    intro n h1 h2
    unfold natLog2
    by_cases hn : n < 2
    · rw [if_pos hn]
      have : n = 1 := by omega
      subst this
      norm_num
    · rw [if_neg hn]
      obtain ⟨i1, i2⟩ := ih (n / 2) (by omega) (by omega)
      have hdiv := Nat.div_add_mod n 2
      have hmod := Nat.mod_lt n (by norm_num : 2 > 0)
      constructor
      · rw [pow_succ]
        omega
      · rw [pow_succ]
        omega

theorem ilog2_bounds (q : ℚ) (hq : 0 < q) :
    (2 : ℚ) ^ ilog2 q ≤ q ∧ q < (2 : ℚ) ^ (ilog2 q + 1) := by
  have hnum : 0 < q.num := Rat.num_pos.mpr hq
  have hn1 : 1 ≤ q.num.toNat := by omega
  have hd1 : 1 ≤ q.den := q.den_pos
  obtain ⟨a1, a2⟩ := natLog2_spec q.num.toNat q.num.toNat hn1 (le_refl _)
  obtain ⟨b1, b2⟩ := natLog2_spec q.den q.den hd1 (le_refl _)
  have hqeq : q = (q.num.toNat : ℚ) / (q.den : ℚ) := by
    have h := (Rat.num_div_den q).symm
    have hc : ((q.num.toNat : Nat) : ℚ) = (q.num : ℚ) := by
      have : ((q.num.toNat : Nat) : Int) = q.num := Int.toNat_of_nonneg (le_of_lt hnum)
      exact_mod_cast this
    rw [hc]
    exact h
  have hdpos : (0 : ℚ) < (q.den : ℚ) := by exact_mod_cast q.den_pos
  have A1 : (2 : ℚ) ^ (natLog2 q.num.toNat q.num.toNat) ≤ (q.num.toNat : ℚ) := by exact_mod_cast a1
  have A2 : (q.num.toNat : ℚ) < (2 : ℚ) ^ (natLog2 q.num.toNat q.num.toNat + 1) := by
    exact_mod_cast a2
  have B1 : (2 : ℚ) ^ (natLog2 q.den q.den) ≤ (q.den : ℚ) := by exact_mod_cast b1
  have B2 : (q.den : ℚ) < (2 : ℚ) ^ (natLog2 q.den q.den + 1) := by exact_mod_cast b2
  generalize ha : natLog2 q.num.toNat q.num.toNat = a at A1 A2
  generalize hb : natLog2 q.den q.den = b at B1 B2
  have h2 : (2 : ℚ) ≠ 0 := by norm_num
  have hpa : (0 : ℚ) < (2 : ℚ) ^ a := by positivity
  have hpb : (0 : ℚ) < (2 : ℚ) ^ b := by positivity
  -- 2^(a-b-1) < q < 2^(a-b+1)
  have lo : (2 : ℚ) ^ ((a : Int) - (b : Int) - 1) ≤ q := by
    rw [hqeq, le_div_iff₀ hdpos]
    have e : (2 : ℚ) ^ ((a : Int) - (b : Int) - 1) * (2 : ℚ) ^ (b + 1) = (2 : ℚ) ^ a := by
      rw [← zpow_natCast (2 : ℚ) (b + 1), ← zpow_add₀ h2, ← zpow_natCast (2 : ℚ) a]
      congr 1
      push_cast
      ring
    have hpos : (0 : ℚ) < (2 : ℚ) ^ ((a : Int) - (b : Int) - 1) := by positivity
    calc (2 : ℚ) ^ ((a : Int) - (b : Int) - 1) * (q.den : ℚ)
        ≤ (2 : ℚ) ^ ((a : Int) - (b : Int) - 1) * (2 : ℚ) ^ (b + 1) :=
          mul_le_mul_of_nonneg_left (le_of_lt B2) (le_of_lt hpos)
      _ = (2 : ℚ) ^ a := e
      _ ≤ _ := A1
  have hi : q < (2 : ℚ) ^ ((a : Int) - (b : Int) + 1) := by
    rw [hqeq, div_lt_iff₀ hdpos]
    have e : (2 : ℚ) ^ ((a : Int) - (b : Int) + 1) * (2 : ℚ) ^ b = (2 : ℚ) ^ (a + 1) := by
      rw [← zpow_natCast (2 : ℚ) b, ← zpow_add₀ h2, ← zpow_natCast (2 : ℚ) (a + 1)]
      congr 1
      push_cast
      ring
    have hpos : (0 : ℚ) < (2 : ℚ) ^ ((a : Int) - (b : Int) + 1) := by positivity
    calc (q.num.toNat : ℚ) < (2 : ℚ) ^ (a + 1) := A2
      _ = (2 : ℚ) ^ ((a : Int) - (b : Int) + 1) * (2 : ℚ) ^ b := e.symm
      _ ≤ _ := mul_le_mul_of_nonneg_left B1 (le_of_lt hpos)
  unfold ilog2
  rw [if_neg (not_le.mpr hq)]
  simp only [ha, hb]
  split_ifs with hc
  · exact ⟨hc, hi⟩
  · push_neg at hc
    refine ⟨lo, ?_⟩
    have : (a : Int) - (b : Int) - 1 + 1 = (a : Int) - (b : Int) := by ring
    rw [this]
    exact hc

theorem ilog2_eq_log (q : ℚ) : ilog2 q = Int.log 2 q := by
  rcases le_or_lt q 0 with hq | hq
  · rw [Int.log_of_right_le_zero 2 hq]
    unfold ilog2
    rw [if_pos hq]
  · obtain ⟨h1, h2⟩ := ilog2_bounds q hq
    apply le_antisymm
    · exact (Int.zpow_le_iff_le_log (b := 2) (by norm_num) hq).mp (by simpa using h1)
    · have := (Int.lt_zpow_iff_log_lt (b := 2) (by norm_num) (x := ilog2 q + 1) hq).mp
        (by simpa using h2)
      omega

theorem qexp_def (p : Nat) (emin : Int) (q : ℚ) :
    qexp p emin q = max (Int.log 2 |q|) emin - ((p : Int) - 1) := by
  rw [qexp, ilog2_eq_log]

/-! ## Rounding to a binary format -/

theorem rint_cases (v : ℚ) : rint v = Int.floor v ∨ rint v = Int.floor v + 1 := by
  unfold rint
  simp only []
  split_ifs <;> simp

theorem rint_intCast (n : Int) : rint (n : ℚ) = n := by
  unfold rint
  simp

theorem abs_rint_sub_le (v : ℚ) : |((rint v : Int) : ℚ) - v| ≤ 1 / 2 := by
  have h1 := Int.floor_le v
  have h2 := Int.lt_floor_add_one v
  unfold rint
  simp only []
  rw [abs_le]
  split_ifs with ha hb hc
  · constructor <;> linarith
  · push_cast; constructor <;> linarith
  · have : v - (⌊v⌋ : ℚ) = 1 / 2 := le_antisymm (not_lt.mp hb) (not_lt.mp ha)
    constructor <;> linarith
  · have : v - (⌊v⌋ : ℚ) = 1 / 2 := le_antisymm (not_lt.mp hb) (not_lt.mp ha)
    push_cast; constructor <;> linarith

theorem rint_mono {a b : ℚ} (h : a ≤ b) : rint a ≤ rint b := by
  have hf : ⌊a⌋ ≤ ⌊b⌋ := Int.floor_mono h
  rcases lt_or_eq_of_le hf with hlt | heq
  · rcases rint_cases a with ha | ha <;> rcases rint_cases b with hb | hb <;> omega
  · unfold rint
    simp only []
    rw [heq]
    have hd : a - (⌊b⌋ : ℚ) ≤ b - (⌊b⌋ : ℚ) := by linarith
    split_ifs <;> first | omega | (exfalso; linarith)

theorem rint_neg (v : ℚ) : rint (-v) = -rint v := by
  by_cases hv : (⌊v⌋ : ℚ) = v
  · rw [← hv, ← Int.cast_neg, rint_intCast, rint_intCast]
  · have h1 := Int.floor_le v
    have h2 := Int.lt_floor_add_one v
    have h3 : (⌊v⌋ : ℚ) < v := lt_of_le_of_ne h1 hv
    have hfl : ⌊-v⌋ = -⌊v⌋ - 1 := by
      rw [Int.floor_eq_iff]
      push_cast
      constructor <;> linarith
    unfold rint
    simp only []
    rw [hfl]
    push_cast
    split_ifs <;> first | omega | (exfalso; linarith)

theorem rint_le_of_le_int {v : ℚ} {n : Int} (h : v ≤ (n : ℚ)) : rint v ≤ n := by
  have := rint_mono h
  rwa [rint_intCast] at this

theorem int_le_rint {v : ℚ} {n : Int} (h : (n : ℚ) ≤ v) : n ≤ rint v := by
  have := rint_mono h
  rwa [rint_intCast] at this

theorem two_zpow_pos (e : Int) : (0 : ℚ) < (2 : ℚ) ^ e := zpow_pos (by norm_num) e

theorem abs_lt_zpow_log_succ (q : ℚ) : |q| < (2 : ℚ) ^ (Int.log 2 |q| + 1) := by
  have h := Int.lt_zpow_succ_log_self (b := 2) (by norm_num) (|q|)
  simpa using h

theorem zpow_log_le_abs (q : ℚ) (hq : q ≠ 0) : (2 : ℚ) ^ (Int.log 2 |q|) ≤ |q| := by
  have h := Int.zpow_log_le_self (b := 2) (r := |q|) (by norm_num) (abs_pos.mpr hq)
  simpa using h

theorem log_lt_of_abs_lt (q : ℚ) (hq : q ≠ 0) (k : Int) (h : |q| < (2 : ℚ) ^ k) :
    Int.log 2 |q| < k := by
  have h2 := (Int.lt_zpow_iff_log_lt (b := 2) (by norm_num) (x := k) (abs_pos.mpr hq)).mp
    (by simpa using h)
  exact h2

theorem le_log_of_zpow_le (q : ℚ) (hq : q ≠ 0) (k : Int) (h : (2 : ℚ) ^ k ≤ |q|) :
    k ≤ Int.log 2 |q| := by
  have h2 := (Int.zpow_le_iff_le_log (b := 2) (by norm_num) (x := k) (abs_pos.mpr hq)).mp
    (by simpa using h)
  exact h2

theorem qexp_ge (p : Nat) (emin : Int) (q : ℚ) : emin - ((p : Int) - 1) ≤ qexp p emin q := by
  simp only [qexp_def]
  have := le_max_right (Int.log 2 |q|) emin
  omega

theorem abs_lt_zpow_qexp (p : Nat) (emin : Int) (q : ℚ) :
    |q| < (2 : ℚ) ^ (qexp p emin q + (p : Int)) := by
  refine lt_of_lt_of_le (abs_lt_zpow_log_succ q) ?_
  apply zpow_le_zpow_right₀ (by norm_num)
  simp only [qexp_def]
  have := le_max_left (Int.log 2 |q|) emin
  omega

theorem qexp_le_of_abs_lt (p : Nat) (emin : Int) (q : ℚ) (hq : q ≠ 0) (k : Int)
    (h : |q| < (2 : ℚ) ^ k) (hk : emin < k) : qexp p emin q ≤ k - (p : Int) := by
  have := log_lt_of_abs_lt q hq k h
  simp only [qexp_def]
  have := max_le (a := Int.log 2 |q|) (b := emin) (c := k - 1) (by omega) (by omega)
  omega

theorem qexp_neg (p : Nat) (emin : Int) (q : ℚ) : qexp p emin (-q) = qexp p emin q := by
  simp only [qexp_def]
  rw [abs_neg]

theorem roundBinary_neg (p : Nat) (emin : Int) (q : ℚ) :
    roundBinary p emin (-q) = -roundBinary p emin q := by
  unfold roundBinary
  rw [qexp_neg, neg_div, rint_neg]
  push_cast
  ring

theorem roundBinary_zero (p : Nat) (emin : Int) : roundBinary p emin 0 = 0 := by
  unfold roundBinary
  simp [rint_intCast, rint]

/-- A rational that is an integer multiple of its own unit in the last place is fixed. -/
theorem roundBinary_of_multiple (p : Nat) (emin : Int) (q : ℚ) (n : Int)
    (h : q = (n : ℚ) * (2 : ℚ) ^ qexp p emin q) : roundBinary p emin q = q := by
  have hg := two_zpow_pos (qexp p emin q)
  unfold roundBinary
  have : q / (2 : ℚ) ^ qexp p emin q = (n : ℚ) := by
    rw [div_eq_iff (ne_of_gt hg)]
    exact h
  rw [this, rint_intCast]
  exact h.symm

theorem multiple_of_qexp_le (p : Nat) (emin : Int) (q : ℚ) (m e : Int)
    (hq : q = (m : ℚ) * (2 : ℚ) ^ e) (he : qexp p emin q ≤ e) :
    ∃ n : Int, q = (n : ℚ) * (2 : ℚ) ^ qexp p emin q := by
  refine ⟨m * 2 ^ (e - qexp p emin q).toNat, ?_⟩
  have h2 : ((2 : ℚ) ^ (e - qexp p emin q).toNat) = (2 : ℚ) ^ (e - qexp p emin q) := by
    rw [← zpow_natCast]
    congr 1
    omega
  push_cast
  rw [h2, mul_assoc, ← zpow_add₀ (by norm_num : (2 : ℚ) ≠ 0)]
  rw [hq]
  congr 2
  omega

theorem roundBinary_of_abs_lt (p : Nat) (emin : Int) (q : ℚ) (m e : Int)
    (hq : q = (m : ℚ) * (2 : ℚ) ^ e) (hlt : |q| < (2 : ℚ) ^ (e + (p : Int)))
    (he : emin - ((p : Int) - 1) ≤ e) : roundBinary p emin q = q := by
  by_cases h0 : q = 0
  · rw [h0, roundBinary_zero]
  · have h1 := qexp_le_of_abs_lt p emin q h0 (e + (p : Int)) hlt (by omega)
    obtain ⟨n, hn⟩ := multiple_of_qexp_le p emin q m e hq (by omega)
    exact roundBinary_of_multiple p emin q n hn

/-- Numbers `m * 2^e` with `|m| ≤ 2^p` and `e` not below the exponent of the subnormals are
numbers of the format. -/
theorem roundBinary_of_int_mul (p : Nat) (emin : Int) (hp : 1 ≤ p) (m e : Int)
    (hm : |m| ≤ 2 ^ p) (he : emin - ((p : Int) - 1) ≤ e) :
    roundBinary p emin ((m : ℚ) * (2 : ℚ) ^ e) = (m : ℚ) * (2 : ℚ) ^ e := by
  have h2e := two_zpow_pos e
  have habs : |(m : ℚ) * (2 : ℚ) ^ e| = (|m| : Int) * (2 : ℚ) ^ e := by
    rw [abs_mul, abs_of_pos h2e, Int.cast_abs]
  rcases lt_or_eq_of_le hm with hlt | heq
  · apply roundBinary_of_abs_lt p emin _ m e rfl _ he
    rw [habs, zpow_add₀ (by norm_num : (2 : ℚ) ≠ 0), mul_comm ((2 : ℚ) ^ e)]
    apply mul_lt_mul_of_pos_right _ h2e
    rw [zpow_natCast]
    exact_mod_cast hlt
  · -- |m| = 2^p: write the number as (m / 2) * 2^(e+1)
    have hpow : (2 : Int) ^ p = 2 * 2 ^ (p - 1) := by
      rw [← pow_succ']
      congr 1
      omega
    obtain ⟨m2, hm2⟩ : ∃ m2 : Int, m = 2 * m2 := by
      rcases abs_cases m with ⟨h, _⟩ | ⟨h, _⟩
      · exact ⟨2 ^ (p - 1), by omega⟩
      · exact ⟨-2 ^ (p - 1), by omega⟩
    have hq : (m : ℚ) * (2 : ℚ) ^ e = (m2 : ℚ) * (2 : ℚ) ^ (e + 1) := by
      rw [hm2, zpow_add₀ (by norm_num : (2 : ℚ) ≠ 0)]
      push_cast
      ring
    apply roundBinary_of_abs_lt p emin _ m2 (e + 1) hq _ (by omega)
    rw [habs, heq, zpow_add₀ (by norm_num : (2 : ℚ) ≠ 0), zpow_add₀ (by norm_num : (2 : ℚ) ≠ 0),
      zpow_natCast]
    push_cast
    have h3 : (0 : ℚ) < 2 ^ p := by positivity
    nlinarith [mul_pos h3 h2e]

theorem abs_rint_le_of_abs_lt (v : ℚ) (N : Int) (h : |v| < (N : ℚ)) : |rint v| ≤ N := by
  rw [abs_lt] at h
  rw [abs_le]
  constructor
  · have : ((-N : Int) : ℚ) ≤ v := by push_cast; linarith
    exact int_le_rint this
  · exact rint_le_of_le_int (le_of_lt h.2)

theorem roundBinary_idem (p : Nat) (emin : Int) (hp : 1 ≤ p) (q : ℚ) :
    roundBinary p emin (roundBinary p emin q) = roundBinary p emin q := by
  have hg := two_zpow_pos (qexp p emin q)
  have hlt := abs_lt_zpow_qexp p emin q
  have hm : |rint (q / (2 : ℚ) ^ qexp p emin q)| ≤ 2 ^ p := by
    apply abs_rint_le_of_abs_lt
    rw [abs_div, abs_of_pos hg, div_lt_iff₀ hg]
    rw [zpow_add₀ (by norm_num : (2 : ℚ) ≠ 0), zpow_natCast] at hlt
    push_cast
    linarith
  have := roundBinary_of_int_mul p emin hp (rint (q / (2 : ℚ) ^ qexp p emin q)) (qexp p emin q) hm
    (qexp_ge p emin q)
  unfold roundBinary at this ⊢
  exact this

theorem roundBinary_le_of_le_multiple (p : Nat) (emin : Int) (q : ℚ) (n : Int)
    (h : q ≤ (n : ℚ) * (2 : ℚ) ^ qexp p emin q) :
    roundBinary p emin q ≤ (n : ℚ) * (2 : ℚ) ^ qexp p emin q := by
  have hg := two_zpow_pos (qexp p emin q)
  unfold roundBinary
  apply mul_le_mul_of_nonneg_right _ (le_of_lt hg)
  have : q / (2 : ℚ) ^ qexp p emin q ≤ (n : ℚ) := by
    rw [div_le_iff₀ hg]
    exact h
  exact_mod_cast rint_le_of_le_int this

theorem multiple_le_roundBinary (p : Nat) (emin : Int) (q : ℚ) (n : Int)
    (h : (n : ℚ) * (2 : ℚ) ^ qexp p emin q ≤ q) :
    (n : ℚ) * (2 : ℚ) ^ qexp p emin q ≤ roundBinary p emin q := by
  have hg := two_zpow_pos (qexp p emin q)
  unfold roundBinary
  apply mul_le_mul_of_nonneg_right _ (le_of_lt hg)
  have : (n : ℚ) ≤ q / (2 : ℚ) ^ qexp p emin q := by
    rw [le_div_iff₀ hg]
    exact h
  exact_mod_cast int_le_rint this

theorem roundBinary_nonneg (p : Nat) (emin : Int) (q : ℚ) (h : 0 ≤ q) :
    0 ≤ roundBinary p emin q := by
  have := multiple_le_roundBinary p emin q 0 (by simpa using h)
  simpa using this

theorem zpow_eq_multiple (a b : Int) (h : b ≤ a) :
    ∃ n : Int, (2 : ℚ) ^ a = (n : ℚ) * (2 : ℚ) ^ b := by
  refine ⟨2 ^ (a - b).toNat, ?_⟩
  push_cast
  rw [← zpow_natCast, ← zpow_add₀ (by norm_num : (2 : ℚ) ≠ 0)]
  congr 1
  omega

theorem roundBinary_mono_nonneg (p : Nat) (emin : Int) (hp : 1 ≤ p) (x y : ℚ) (hx : 0 ≤ x)
    (hxy : x ≤ y) : roundBinary p emin x ≤ roundBinary p emin y := by
  rcases eq_or_lt_of_le hx with h0 | hpos
  · rw [← h0, roundBinary_zero]
    exact roundBinary_nonneg p emin y (le_trans hx hxy)
  · have hy : 0 < y := lt_of_lt_of_le hpos hxy
    have hlog : Int.log 2 |x| ≤ Int.log 2 |y| := by
      rw [abs_of_pos hpos, abs_of_pos hy]
      exact Int.log_mono_right hpos hxy
    have hq : qexp p emin x ≤ qexp p emin y := by
      simp only [qexp_def]
      have := max_le_max hlog (le_refl emin)
      omega
    rcases eq_or_lt_of_le hq with heq | hlt
    · unfold roundBinary
      rw [heq]
      have hg := two_zpow_pos (qexp p emin y)
      apply mul_le_mul_of_nonneg_right _ (le_of_lt hg)
      have : x / (2 : ℚ) ^ qexp p emin y ≤ y / (2 : ℚ) ^ qexp p emin y :=
        div_le_div_of_nonneg_right hxy (le_of_lt hg)
      exact_mod_cast rint_mono this
    · -- a power of two separates x and y
      have hLy : emin < Int.log 2 |y| ∧ Int.log 2 |x| < Int.log 2 |y| := by
        rw [qexp_def, qexp_def] at hlt
        have h1 := le_max_left (Int.log 2 |x|) emin
        have h2 := le_max_right (Int.log 2 |x|) emin
        rcases max_cases (Int.log 2 |y|) emin with ⟨h, _⟩ | ⟨h, _⟩ <;> omega
      have hey : qexp p emin y = Int.log 2 |y| - ((p : Int) - 1) := by
        simp only [qexp_def]
        rw [max_eq_left (le_of_lt hLy.1)]
      have hex : qexp p emin x ≤ Int.log 2 |y| := by
        have := qexp_ge p emin x
        omega
      have hPy : (2 : ℚ) ^ (Int.log 2 |y|) ≤ y :=
        le_trans (zpow_log_le_abs y (ne_of_gt hy)) (le_of_eq (abs_of_pos hy))
      have hxP : x ≤ (2 : ℚ) ^ (Int.log 2 |y|) := by
        refine le_trans (le_abs_self x) (le_trans (le_of_lt (abs_lt_zpow_log_succ x)) ?_)
        apply zpow_le_zpow_right₀ (by norm_num)
        have := hLy.2
        omega
      obtain ⟨n1, hn1⟩ := zpow_eq_multiple (Int.log 2 |y|) (qexp p emin x) hex
      obtain ⟨n2, hn2⟩ := zpow_eq_multiple (Int.log 2 |y|) (qexp p emin y) (by omega)
      have h1 := roundBinary_le_of_le_multiple p emin x n1 (by rw [← hn1]; exact hxP)
      have h2 := multiple_le_roundBinary p emin y n2 (by rw [← hn2]; exact hPy)
      rw [← hn1] at h1
      rw [← hn2] at h2
      exact le_trans h1 h2

theorem roundBinary_nonpos (p : Nat) (emin : Int) (q : ℚ) (h : q ≤ 0) :
    roundBinary p emin q ≤ 0 := by
  have := roundBinary_le_of_le_multiple p emin q 0 (by simpa using h)
  simpa using this

/-- Rounding is monotone. -/
theorem roundBinary_mono (p : Nat) (emin : Int) (hp : 1 ≤ p) (x y : ℚ) (hxy : x ≤ y) :
    roundBinary p emin x ≤ roundBinary p emin y := by
  rcases le_or_lt 0 x with hx | hx
  · exact roundBinary_mono_nonneg p emin hp x y hx hxy
  · rcases le_or_lt y 0 with hy | hy
    · have := roundBinary_mono_nonneg p emin hp (-y) (-x) (by linarith) (by linarith)
      rw [roundBinary_neg, roundBinary_neg] at this
      linarith
    · exact le_trans (roundBinary_nonpos p emin x (le_of_lt hx))
        (roundBinary_nonneg p emin y (le_of_lt hy))

/-- The rounding error is at most half a unit in the last place. -/
theorem roundBinary_error (p : Nat) (emin : Int) (q : ℚ) :
    |roundBinary p emin q - q| ≤ (2 : ℚ) ^ qexp p emin q / 2 := by
  have hg := two_zpow_pos (qexp p emin q)
  have h := abs_rint_sub_le (q / (2 : ℚ) ^ qexp p emin q)
  unfold roundBinary
  have e : ((rint (q / (2 : ℚ) ^ qexp p emin q) : Int) : ℚ) * (2 : ℚ) ^ qexp p emin q - q =
      (((rint (q / (2 : ℚ) ^ qexp p emin q) : Int) : ℚ) - q / (2 : ℚ) ^ qexp p emin q) *
        (2 : ℚ) ^ qexp p emin q := by
    field_simp
  rw [e, abs_mul, abs_of_pos hg]
  calc _ ≤ 1 / 2 * (2 : ℚ) ^ qexp p emin q := mul_le_mul_of_nonneg_right h (le_of_lt hg)
    _ = _ := by ring

/-- Absolute error bound from the magnitude: below `2^k` the error is at most `2^(k-p-1)`. -/
theorem roundBinary_error_of_lt (p : Nat) (emin : Int) (q : ℚ) (k : Int)
    (h : |q| < (2 : ℚ) ^ k) (hk : emin < k) :
    |roundBinary p emin q - q| ≤ (2 : ℚ) ^ (k - (p : Int) - 1) := by
  by_cases h0 : q = 0
  · rw [h0, roundBinary_zero]
    simp
    exact le_of_lt (two_zpow_pos _)
  · have h1 := qexp_le_of_abs_lt p emin q h0 k h hk
    refine le_trans (roundBinary_error p emin q) ?_
    rw [div_le_iff₀ (by norm_num : (0 : ℚ) < 2)]
    have : (2 : ℚ) ^ (k - (p : Int) - 1) * 2 = (2 : ℚ) ^ (k - (p : Int)) := by
      rw [show k - (p : Int) = (k - (p : Int) - 1) + 1 by ring,
        zpow_add₀ (by norm_num : (2 : ℚ) ≠ 0)]
      simp
    rw [this]
    exact zpow_le_zpow_right₀ (by norm_num) h1

/-- Relative error bound for numbers in the normal range. -/
theorem roundBinary_error_rel (p : Nat) (emin : Int) (q : ℚ) (h : (2 : ℚ) ^ emin ≤ |q|) :
    |roundBinary p emin q - q| ≤ |q| * (2 : ℚ) ^ (-(p : Int)) := by
  have h0 : q ≠ 0 := by
    intro h0
    rw [h0, abs_zero] at h
    exact absurd h (not_le.mpr (two_zpow_pos emin))
  have hL := le_log_of_zpow_le q h0 emin h
  have hq : qexp p emin q = Int.log 2 |q| - ((p : Int) - 1) := by
    simp only [qexp_def]
    rw [max_eq_left hL]
  refine le_trans (roundBinary_error p emin q) ?_
  rw [hq]
  have h2 := zpow_log_le_abs q h0
  have : (2 : ℚ) ^ (Int.log 2 |q| - ((p : Int) - 1)) / 2 =
      (2 : ℚ) ^ (Int.log 2 |q|) * (2 : ℚ) ^ (-(p : Int)) := by
    rw [← zpow_add₀ (by norm_num : (2 : ℚ) ≠ 0),
      show Int.log 2 |q| - ((p : Int) - 1) = (Int.log 2 |q| + -(p : Int)) + 1 by ring,
      zpow_add₀ (by norm_num : (2 : ℚ) ≠ 0) (Int.log 2 |q| + -(p : Int)) 1]
    simp
  rw [this]
  exact mul_le_mul_of_nonneg_right h2 (le_of_lt (two_zpow_pos _))

/-- Error bound valid for every rational: relative in the normal range, absolute below. -/
theorem roundBinary_error_abs (p : Nat) (emin : Int) (q : ℚ) :
    |roundBinary p emin q - q| ≤ |q| * (2 : ℚ) ^ (-(p : Int)) + (2 : ℚ) ^ (emin - (p : Int)) := by
  rcases le_or_lt ((2 : ℚ) ^ emin) |q| with h | h
  · have := roundBinary_error_rel p emin q h
    have := two_zpow_pos (emin - (p : Int))
    linarith
  · have h1 := roundBinary_error_of_lt p emin q (emin + 1) (by
      refine lt_trans h ?_
      exact zpow_lt_zpow_right₀ (by norm_num) (by omega)) (by omega)
    have e : emin + 1 - (p : Int) - 1 = emin - (p : Int) := by ring
    rw [e] at h1
    have : 0 ≤ |q| * (2 : ℚ) ^ (-(p : Int)) :=
      mul_nonneg (abs_nonneg q) (le_of_lt (two_zpow_pos _))
    linarith

/-- A number of the format bounds the rounding from above when it bounds the argument. -/
theorem roundBinary_le_of_le (p : Nat) (emin : Int) (hp : 1 ≤ p) (x c : ℚ)
    (hc : roundBinary p emin c = c) (h : x ≤ c) : roundBinary p emin x ≤ c := by
  have := roundBinary_mono p emin hp x c h
  rwa [hc] at this

theorem le_roundBinary_of_le (p : Nat) (emin : Int) (hp : 1 ≤ p) (x c : ℚ)
    (hc : roundBinary p emin c = c) (h : c ≤ x) : c ≤ roundBinary p emin x := by
  have := roundBinary_mono p emin hp c x h
  rwa [hc] at this

/-! ### The formats `float` and `double` -/

theorem f32_mono {x y : ℚ} (h : x ≤ y) : f32 x ≤ f32 y :=
  roundBinary_mono 24 (-126) (by norm_num) x y h

theorem f64_mono {x y : ℚ} (h : x ≤ y) : f64 x ≤ f64 y :=
  roundBinary_mono 53 (-1022) (by norm_num) x y h

theorem f32_zero : f32 0 = 0 := roundBinary_zero 24 (-126)

theorem f64_zero : f64 0 = 0 := roundBinary_zero 53 (-1022)

theorem f32_neg (q : ℚ) : f32 (-q) = -f32 q := roundBinary_neg 24 (-126) q

theorem f64_neg (q : ℚ) : f64 (-q) = -f64 q := roundBinary_neg 53 (-1022) q

theorem f32_nonneg {q : ℚ} (h : 0 ≤ q) : 0 ≤ f32 q := roundBinary_nonneg 24 (-126) q h

theorem f64_nonneg {q : ℚ} (h : 0 ≤ q) : 0 ≤ f64 q := roundBinary_nonneg 53 (-1022) q h

theorem f32_idem (q : ℚ) : f32 (f32 q) = f32 q := roundBinary_idem 24 (-126) (by norm_num) q

theorem f64_idem (q : ℚ) : f64 (f64 q) = f64 q := roundBinary_idem 53 (-1022) (by norm_num) q

/-- Dyadic rationals `m * 2^e` with `|m| ≤ 2^24` and `e ≥ -149` are floats. -/
theorem f32_int_mul_zpow (m e : Int) (hm : |m| ≤ 2 ^ 24) (he : -149 ≤ e) :
    f32 ((m : ℚ) * (2 : ℚ) ^ e) = (m : ℚ) * (2 : ℚ) ^ e :=
  roundBinary_of_int_mul 24 (-126) (by norm_num) m e hm (by push_cast; omega)

theorem f64_int_mul_zpow (m e : Int) (hm : |m| ≤ 2 ^ 53) (he : -1074 ≤ e) :
    f64 ((m : ℚ) * (2 : ℚ) ^ e) = (m : ℚ) * (2 : ℚ) ^ e :=
  roundBinary_of_int_mul 53 (-1022) (by norm_num) m e hm (by push_cast; omega)

/-- Integers of absolute value at most `2^24` are floats. -/
theorem f32_intCast (n : Int) (h : |n| ≤ 16777216) : f32 (n : ℚ) = (n : ℚ) := by
  have := f32_int_mul_zpow n 0 (by norm_num; exact h) (by norm_num)
  simpa using this

/-- Integers of absolute value at most `2^53` are doubles. -/
theorem f64_intCast (n : Int) (h : |n| ≤ 9007199254740992) : f64 (n : ℚ) = (n : ℚ) := by
  have := f64_int_mul_zpow n 0 (by norm_num; exact h) (by norm_num)
  simpa using this

theorem f32_one : f32 1 = 1 := by
  have := f32_intCast 1 (by norm_num)
  simpa using this

theorem f64_one : f64 1 = 1 := by
  have := f64_intCast 1 (by norm_num)
  simpa using this

/-- Quarters of integers up to `2^22` in absolute value are floats. -/
theorem f32_quarters (m : Int) (hm : |m| ≤ 16777216) : f32 ((m : ℚ) / 4) = (m : ℚ) / 4 := by
  have := f32_int_mul_zpow m (-2) (by norm_num; exact hm) (by norm_num)
  have e : (m : ℚ) * (2 : ℚ) ^ (-2 : Int) = (m : ℚ) / 4 := by
    rw [zpow_neg]; norm_num; ring
  rwa [e] at this

theorem f32_halves (m : Int) (hm : |m| ≤ 16777216) : f32 ((m : ℚ) / 2) = (m : ℚ) / 2 := by
  have := f32_int_mul_zpow m (-1) (by norm_num; exact hm) (by norm_num)
  have e : (m : ℚ) * (2 : ℚ) ^ (-1 : Int) = (m : ℚ) / 2 := by
    rw [zpow_neg]; norm_num; ring
  rwa [e] at this

theorem f32_le_of_le {x c : ℚ} (hc : f32 c = c) (h : x ≤ c) : f32 x ≤ c :=
  roundBinary_le_of_le 24 (-126) (by norm_num) x c hc h

theorem le_f32_of_le {x c : ℚ} (hc : f32 c = c) (h : c ≤ x) : c ≤ f32 x :=
  le_roundBinary_of_le 24 (-126) (by norm_num) x c hc h

theorem f64_le_of_le {x c : ℚ} (hc : f64 c = c) (h : x ≤ c) : f64 x ≤ c :=
  roundBinary_le_of_le 53 (-1022) (by norm_num) x c hc h

theorem le_f64_of_le {x c : ℚ} (hc : f64 c = c) (h : c ≤ x) : c ≤ f64 x :=
  le_roundBinary_of_le 53 (-1022) (by norm_num) x c hc h

/-- Relative error of a `float` operation whose exact result is bounded by `B`. -/
theorem f32_error_le (z B : ℚ) (hz : |z| ≤ B) (hB : (2 : ℚ) ^ (-126 : Int) ≤ B) :
    |f32 z - z| ≤ B * (2 : ℚ) ^ (-24 : Int) := by
  have hpos : (0 : ℚ) < (2 : ℚ) ^ (-24 : Int) := two_zpow_pos _
  rcases le_or_lt ((2 : ℚ) ^ (-126 : Int)) |z| with h | h
  · have := roundBinary_error_rel 24 (-126) z h
    refine le_trans this ?_
    exact mul_le_mul_of_nonneg_right hz (le_of_lt hpos)
  · have h1 := roundBinary_error_of_lt 24 (-126) z (-126) h
    have h2 := roundBinary_error_of_lt 24 (-126) z (-125)
      (lt_trans h (zpow_lt_zpow_right₀ (by norm_num) (by norm_num))) (by norm_num)
    have e : ((-125 : Int) - ((24 : Nat) : Int) - 1) = -150 := by norm_num
    rw [e] at h2
    refine le_trans h2 ?_
    have : (2 : ℚ) ^ (-150 : Int) = (2 : ℚ) ^ (-126 : Int) * (2 : ℚ) ^ (-24 : Int) := by
      rw [← zpow_add₀ (by norm_num : (2 : ℚ) ≠ 0)]
      norm_num
    rw [this]
    exact mul_le_mul_of_nonneg_right hB (le_of_lt hpos)

theorem f64_error_le (z B : ℚ) (hz : |z| ≤ B) (hB : (2 : ℚ) ^ (-1022 : Int) ≤ B) :
    |f64 z - z| ≤ B * (2 : ℚ) ^ (-53 : Int) := by
  have hpos : (0 : ℚ) < (2 : ℚ) ^ (-53 : Int) := two_zpow_pos _
  rcases le_or_lt ((2 : ℚ) ^ (-1022 : Int)) |z| with h | h
  · have := roundBinary_error_rel 53 (-1022) z h
    refine le_trans this ?_
    exact mul_le_mul_of_nonneg_right hz (le_of_lt hpos)
  · have h2 := roundBinary_error_of_lt 53 (-1022) z (-1021)
      (lt_trans h (zpow_lt_zpow_right₀ (by norm_num) (by norm_num))) (by norm_num)
    have e : ((-1021 : Int) - ((53 : Nat) : Int) - 1) = -1075 := by norm_num
    rw [e] at h2
    refine le_trans h2 ?_
    have : (2 : ℚ) ^ (-1075 : Int) = (2 : ℚ) ^ (-1022 : Int) * (2 : ℚ) ^ (-53 : Int) := by
      rw [← zpow_add₀ (by norm_num : (2 : ℚ) ≠ 0)]
      norm_num
    rw [this]
    exact mul_le_mul_of_nonneg_right hB (le_of_lt hpos)

/-- Absolute error of a `float` operation whose exact result is below `2^k`. -/
theorem f32_error_of_lt (z : ℚ) (k : Int) (h : |z| < (2 : ℚ) ^ k) (hk : -126 < k) :
    |f32 z - z| ≤ (2 : ℚ) ^ (k - 25) := by
  have := roundBinary_error_of_lt 24 (-126) z k h hk
  have e : k - ((24 : Nat) : Int) - 1 = k - 25 := by push_cast; ring
  rwa [e] at this

theorem lit01_eq : lit01 = 13421773 / 134217728 := by decide!

/-! ## Clipping -/

theorem wrapInt32_of_range (z : Int) (h0 : 0 ≤ z) (h1 : z < 2147483648) : wrapInt32 z = z := by
  unfold wrapInt32
  omega

/-- One axis of the floating-point overload: the clipped corner lies in `[0, W]`, the
clipped extent is non-negative and at most the float difference `W - x`, so corner plus
extent exceeds `W` by at most the rounding error `W * 2^-24` of that difference. -/
theorem clip_axis_float (bx bw : ℚ) (W : Int) (hW : 0 ≤ W) (hWr : W ≤ 16777216) :
    0 ≤ max 0 (min bx (f32 (W : ℚ))) ∧ max 0 (min bx (f32 (W : ℚ))) ≤ (W : ℚ) ∧
    0 ≤ max 0 (min bw (f32 (f32 (W : ℚ) - max 0 (min bx (f32 (W : ℚ)))))) ∧
    max 0 (min bw (f32 (f32 (W : ℚ) - max 0 (min bx (f32 (W : ℚ))))))
      ≤ f32 ((W : ℚ) - max 0 (min bx (f32 (W : ℚ)))) ∧
    max 0 (min bx (f32 (W : ℚ))) + max 0 (min bw (f32 (f32 (W : ℚ) - max 0 (min bx (f32 (W : ℚ))))))
      ≤ (W : ℚ) + (W : ℚ) * (2 : ℚ) ^ (-24 : Int) := by
  have hfW : f32 (W : ℚ) = (W : ℚ) := f32_intCast W (by rw [abs_of_nonneg hW]; exact hWr)
  rw [hfW]
  have hWq : (0 : ℚ) ≤ (W : ℚ) := by exact_mod_cast hW
  have hx0 : 0 ≤ max 0 (min bx (W : ℚ)) := le_max_left _ _
  have hx1 : max 0 (min bx (W : ℚ)) ≤ (W : ℚ) := max_le hWq (min_le_right _ _)
  generalize max 0 (min bx (W : ℚ)) = x at hx0 hx1
  have hz0 : 0 ≤ f32 ((W : ℚ) - x) := f32_nonneg (by linarith)
  have hw1 : max 0 (min bw (f32 ((W : ℚ) - x))) ≤ f32 ((W : ℚ) - x) :=
    max_le hz0 (min_le_right _ _)
  refine ⟨hx0, hx1, le_max_left _ _, hw1, ?_⟩
  rcases eq_or_lt_of_le hW with h0 | hpos
  · have hW0 : (W : ℚ) = 0 := by exact_mod_cast h0.symm
    have hx : x = 0 := le_antisymm (by linarith) hx0
    rw [hW0, hx, sub_zero, f32_zero] at hw1 ⊢
    linarith
  · have hW1 : (1 : ℚ) ≤ (W : ℚ) := by exact_mod_cast hpos
    have herr := f32_error_le ((W : ℚ) - x) (W : ℚ)
      (by rw [abs_of_nonneg (by linarith)]; linarith)
      (le_trans (by rw [zpow_neg]; exact inv_le_one_of_one_le₀ (one_le_zpow₀ (by norm_num) (by norm_num))) hW1)
    rw [abs_le] at herr
    linarith [herr.2]

/-- C1 (amended): for any box and any shape with non-negative width and height, the
integer overload of clip_boxes (32-bit shape) returns a box with 0 ≤ x ≤ shape.width,
0 ≤ y ≤ shape.height, non-negative width and height, x + width ≤ shape.width and
y + height ≤ shape.height. The floating-point overload (shape up to 2^24, so that the
shape converts to float exactly) returns 0 ≤ x ≤ shape.width, 0 ≤ y ≤ shape.height,
non-negative width and height, width at most the float difference shape.width - x and
height at most the float difference shape.height - y; x + width can exceed shape.width,
by at most the rounding error shape.width * 2^-24 of that difference (likewise
y + height). -/
theorem clip_boxes_contained (box : Rect) (fbox : Rect2f) (shape : Size)
    (hw : 0 ≤ shape.width) (hh : 0 ≤ shape.height) :
    (shape.width < 2147483648 → shape.height < 2147483648 →
      0 ≤ (clip_boxes box shape).x ∧ (clip_boxes box shape).x ≤ shape.width ∧
      0 ≤ (clip_boxes box shape).y ∧ (clip_boxes box shape).y ≤ shape.height ∧
      0 ≤ (clip_boxes box shape).width ∧ 0 ≤ (clip_boxes box shape).height ∧
      (clip_boxes box shape).x + (clip_boxes box shape).width ≤ shape.width ∧
      (clip_boxes box shape).y + (clip_boxes box shape).height ≤ shape.height) ∧
    (shape.width ≤ 16777216 → shape.height ≤ 16777216 →
      0 ≤ (clip_boxes_float fbox shape).x ∧ (clip_boxes_float fbox shape).x ≤ (shape.width : ℚ) ∧
      0 ≤ (clip_boxes_float fbox shape).y ∧ (clip_boxes_float fbox shape).y ≤ (shape.height : ℚ) ∧
      0 ≤ (clip_boxes_float fbox shape).width ∧ 0 ≤ (clip_boxes_float fbox shape).height ∧
      (clip_boxes_float fbox shape).width
        ≤ f32 ((shape.width : ℚ) - (clip_boxes_float fbox shape).x) ∧
      (clip_boxes_float fbox shape).height
        ≤ f32 ((shape.height : ℚ) - (clip_boxes_float fbox shape).y) ∧
      (clip_boxes_float fbox shape).x + (clip_boxes_float fbox shape).width
        ≤ (shape.width : ℚ) + (shape.width : ℚ) * (2 : ℚ) ^ (-24 : Int) ∧
      (clip_boxes_float fbox shape).y + (clip_boxes_float fbox shape).height
        ≤ (shape.height : ℚ) + (shape.height : ℚ) * (2 : ℚ) ^ (-24 : Int)) := by
  constructor
  · intro hwr hhr
    have hx0 : 0 ≤ max 0 (min box.x shape.width) := le_max_left _ _
    have hx1 : max 0 (min box.x shape.width) ≤ shape.width := max_le hw (min_le_right _ _)
    have hy0 : 0 ≤ max 0 (min box.y shape.height) := le_max_left _ _
    have hy1 : max 0 (min box.y shape.height) ≤ shape.height := max_le hh (min_le_right _ _)
    have hwx : wrapInt32 (shape.width - max 0 (min box.x shape.width))
        = shape.width - max 0 (min box.x shape.width) :=
      wrapInt32_of_range _ (by omega) (by omega)
    have hwy : wrapInt32 (shape.height - max 0 (min box.y shape.height))
        = shape.height - max 0 (min box.y shape.height) :=
      wrapInt32_of_range _ (by omega) (by omega)
    refine ⟨hx0, hx1, hy0, hy1, le_max_left _ _, le_max_left _ _, ?_, ?_⟩
    · show max 0 (min box.x shape.width)
        + max 0 (min box.width (wrapInt32 (shape.width - max 0 (min box.x shape.width))))
        ≤ shape.width
      rw [hwx]
      have h1 : max 0 (min box.width (shape.width - max 0 (min box.x shape.width)))
          ≤ shape.width - max 0 (min box.x shape.width) :=
        max_le (by omega) (min_le_right _ _)
      omega
    · show max 0 (min box.y shape.height)
        + max 0 (min box.height (wrapInt32 (shape.height - max 0 (min box.y shape.height))))
        ≤ shape.height
      rw [hwy]
      have h1 : max 0 (min box.height (shape.height - max 0 (min box.y shape.height)))
          ≤ shape.height - max 0 (min box.y shape.height) :=
        max_le (by omega) (min_le_right _ _)
      omega
  · intro hwr hhr
    obtain ⟨a1, a2, a3, a4, a5⟩ := clip_axis_float fbox.x fbox.width shape.width hw hwr
    obtain ⟨b1, b2, b3, b4, b5⟩ := clip_axis_float fbox.y fbox.height shape.height hh hhr
    exact ⟨a1, a2, b1, b2, a3, b3, a4, b4, a5, b5⟩

theorem clip_boxes_contained_witness :
    (0 ≤ (clip_boxes ⟨-5, 700, 900, -3⟩ ⟨640, 480⟩).x ∧
      (clip_boxes ⟨-5, 700, 900, -3⟩ ⟨640, 480⟩).x ≤ (640 : Int) ∧
      0 ≤ (clip_boxes ⟨-5, 700, 900, -3⟩ ⟨640, 480⟩).y ∧
      (clip_boxes ⟨-5, 700, 900, -3⟩ ⟨640, 480⟩).y ≤ (480 : Int) ∧
      0 ≤ (clip_boxes ⟨-5, 700, 900, -3⟩ ⟨640, 480⟩).width ∧
      0 ≤ (clip_boxes ⟨-5, 700, 900, -3⟩ ⟨640, 480⟩).height ∧
      (clip_boxes ⟨-5, 700, 900, -3⟩ ⟨640, 480⟩).x
        + (clip_boxes ⟨-5, 700, 900, -3⟩ ⟨640, 480⟩).width ≤ (640 : Int) ∧
      (clip_boxes ⟨-5, 700, 900, -3⟩ ⟨640, 480⟩).y
        + (clip_boxes ⟨-5, 700, 900, -3⟩ ⟨640, 480⟩).height ≤ (480 : Int)) ∧
    (0 ≤ (clip_boxes_float ⟨-11 / 2, 1401 / 2, 900, -3⟩ ⟨640, 480⟩).x ∧
      (clip_boxes_float ⟨-11 / 2, 1401 / 2, 900, -3⟩ ⟨640, 480⟩).x ≤ (((640 : Int)) : ℚ) ∧
      0 ≤ (clip_boxes_float ⟨-11 / 2, 1401 / 2, 900, -3⟩ ⟨640, 480⟩).y ∧
      (clip_boxes_float ⟨-11 / 2, 1401 / 2, 900, -3⟩ ⟨640, 480⟩).y ≤ (((480 : Int)) : ℚ) ∧
      0 ≤ (clip_boxes_float ⟨-11 / 2, 1401 / 2, 900, -3⟩ ⟨640, 480⟩).width ∧
      0 ≤ (clip_boxes_float ⟨-11 / 2, 1401 / 2, 900, -3⟩ ⟨640, 480⟩).height ∧
      (clip_boxes_float ⟨-11 / 2, 1401 / 2, 900, -3⟩ ⟨640, 480⟩).width
        ≤ f32 ((((640 : Int)) : ℚ) - (clip_boxes_float ⟨-11 / 2, 1401 / 2, 900, -3⟩ ⟨640, 480⟩).x) ∧
      (clip_boxes_float ⟨-11 / 2, 1401 / 2, 900, -3⟩ ⟨640, 480⟩).height
        ≤ f32 ((((480 : Int)) : ℚ) - (clip_boxes_float ⟨-11 / 2, 1401 / 2, 900, -3⟩ ⟨640, 480⟩).y) ∧
      (clip_boxes_float ⟨-11 / 2, 1401 / 2, 900, -3⟩ ⟨640, 480⟩).x
        + (clip_boxes_float ⟨-11 / 2, 1401 / 2, 900, -3⟩ ⟨640, 480⟩).width
        ≤ (((640 : Int)) : ℚ) + (((640 : Int)) : ℚ) * (2 : ℚ) ^ (-24 : Int) ∧
      (clip_boxes_float ⟨-11 / 2, 1401 / 2, 900, -3⟩ ⟨640, 480⟩).y
        + (clip_boxes_float ⟨-11 / 2, 1401 / 2, 900, -3⟩ ⟨640, 480⟩).height
        ≤ (((480 : Int)) : ℚ) + (((480 : Int)) : ℚ) * (2 : ℚ) ^ (-24 : Int)) :=
  ⟨(clip_boxes_contained ⟨-5, 700, 900, -3⟩ ⟨-11 / 2, 1401 / 2, 900, -3⟩ ⟨640, 480⟩
      (by decide) (by decide)).1 (by decide) (by decide),
   (clip_boxes_contained ⟨-5, 700, 900, -3⟩ ⟨-11 / 2, 1401 / 2, 900, -3⟩ ⟨640, 480⟩
      (by decide) (by decide)).2 (by decide) (by decide)⟩

/-- C1 as stated fails for the floating-point overload. The box (0.1f, 0.2f, 639.95f,
479.9f) clipped to 640 x 480 keeps x = 0.1f and gets width = float(640 - 0.1f) =
639.9000244140625, so x + width = 640.0000244... exceeds 640. And a shape above 2^24 need
not convert to float exactly: for width 16777219 the bound of x is float(16777219) =
16777220, so a box far to the right is clipped to x = 16777220 > shape.width. -/
theorem clip_boxes_float_exceeds_shape :
    (clip_boxes_float ⟨f32 (1 / 10), f32 (2 / 10), f32 (63995 / 100), f32 (4799 / 10)⟩
        ⟨640, 480⟩
      = ⟨13421773 / 134217728, 13421773 / 67108864, 5242061 / 8192, 7861043 / 16384⟩ ∧
      (640 : ℚ) < 13421773 / 134217728 + 5242061 / 8192) ∧
    ((clip_boxes_float ⟨33554432, 0, 1, 1⟩ ⟨16777219, 1⟩).x = 16777220 ∧
      ((16777219 : Int) : ℚ) < (clip_boxes_float ⟨33554432, 0, 1, 1⟩ ⟨16777219, 1⟩).x) := by
  refine ⟨⟨by decide!, by norm_num⟩, ⟨by decide!, by decide!⟩⟩

/-! ## The decoding loop -/

theorem maxLocFrom_spec (vs : List ℚ) : ∀ (pre : List ℚ) (best : ℚ × Nat),
    pre[best.2]? = some best.1 → (∀ s ∈ pre, s ≤ best.1) →
    (∀ j s, j < best.2 → pre[j]? = some s → s < best.1) →
    (pre ++ vs)[(maxLocFrom vs pre.length best).2]? = some (maxLocFrom vs pre.length best).1 ∧
    (∀ s ∈ pre ++ vs, s ≤ (maxLocFrom vs pre.length best).1) ∧
    (∀ j s, j < (maxLocFrom vs pre.length best).2 → (pre ++ vs)[j]? = some s →
      s < (maxLocFrom vs pre.length best).1) := by
  induction vs with
  | nil =>
    intro pre best h1 h2 h3
    simpa [maxLocFrom] using ⟨h1, h2, h3⟩
  | cons v vs ih =>
    intro pre best h1 h2 h3
    have hlen : (pre ++ [v]).length = pre.length + 1 := by simp
    have happ : pre ++ v :: vs = (pre ++ [v]) ++ vs := by simp
    have hb : best.2 < pre.length := by
      by_contra hcon
      have : pre[best.2]? = none := List.getElem?_eq_none (by omega)
      rw [this] at h1
      cases h1
    unfold maxLocFrom
    by_cases hv : best.1 < v
    · rw [if_pos hv, happ, ← hlen]
      apply ih (pre ++ [v]) (v, pre.length)
      · simp
      · intro s hs
        rcases List.mem_append.mp hs with hs | hs
        · exact le_trans (h2 s hs) (le_of_lt hv)
        · simp at hs
          simp [hs]
      · intro j s hj hjs
        simp only at hj
        rw [List.getElem?_append_left hj] at hjs
        exact lt_of_le_of_lt (h2 s (List.getElem?_mem hjs)) hv
    · rw [if_neg hv, happ, ← hlen]
      apply ih (pre ++ [v]) best
      · rw [List.getElem?_append_left hb]
        exact h1
      · intro s hs
        rcases List.mem_append.mp hs with hs | hs
        · exact h2 s hs
        · simp at hs
          rw [hs]
          exact not_lt.mp hv
      · intro j s hj hjs
        rw [List.getElem?_append_left (lt_trans hj hb)] at hjs
        exact h3 j s hj hjs

/-- What `minMaxLoc` returns: the maximum of the scores and the first column holding it. -/
theorem minMaxLoc_spec (scores : List ℚ) (m : ℚ) (k : Int) (h : minMaxLoc scores = .ok (m, k)) :
    ∃ n : Nat, k = (n : Int) ∧ scores[n]? = some m ∧ (∀ s ∈ scores, s ≤ m) ∧
      (∀ j s, j < n → scores[j]? = some s → s < m) := by
  cases scores with
  | nil => simp [minMaxLoc] at h
  | cons v vs =>
    simp only [minMaxLoc, Except.ok.injEq, Prod.mk.injEq] at h
    obtain ⟨hm, hk⟩ := h
    have := maxLocFrom_spec vs [v] (v, 0) (by simp) (by simp) (by simp)
    simp only [List.length_singleton, List.singleton_append] at this
    refine ⟨(maxLocFrom vs 1 (v, 0)).2, hk.symm, ?_, ?_, ?_⟩
    · rw [← hm]; exact this.1
    · rw [← hm]; exact this.2.1
    · rw [← hm]; exact this.2.2

theorem minMaxLoc_ok_of_ne_nil (scores : List ℚ) (h : scores ≠ []) :
    ∃ m k, minMaxLoc scores = .ok (m, k) := by
  cases scores with
  | nil => exact absurd rfl h
  | cons v vs => exact ⟨_, _, rfl⟩

theorem readRange_length (data : List ℚ) (a b : Int) (l : List ℚ)
    (h : readRange data a b = .ok l) : (l.length : Int) = b - a := by
  unfold readRange at h
  split_ifs at h with h1 h2 h3
  · simp only [Except.ok.injEq] at h
    subst h
    simp [h2]
  · simp only [Except.ok.injEq] at h
    subst h
    simp only [List.length_take, List.length_drop]
    omega

theorem readRange_ok_of_bounds (data : List ℚ) (a b : Int) (h0 : 0 ≤ a) (hab : a ≤ b)
    (hb : b ≤ (data.length : Int)) : ∃ l, readRange data a b = .ok l := by
  unfold readRange
  split_ifs with h1 h2 h3
  · omega
  · exact ⟨_, rfl⟩
  · exact ⟨_, rfl⟩
  · exact absurd ⟨h0, hb⟩ h3

theorem readAt_ok_of_bounds (data : List ℚ) (p : Int) (h0 : 0 ≤ p) (hp : p < (data.length : Int)) :
    ∃ v, readAt data p = .ok v := by
  unfold readAt
  rw [if_pos h0]
  have hlt : p.toNat < data.length := by omega
  rw [List.getElem?_eq_getElem hlt]
  exact ⟨_, rfl⟩

/-- Inversion of one loop body: either the row is dropped, or one candidate is pushed. -/
theorem decodeRow_ok_inv (data : List ℚ) (cn dw : Int) (conf : ℚ) (p : Int) (st st1 : Cands)
    (h : decodeRow data cn dw conf p st = .ok st1) :
    ∃ scores m k, readRange data (p + 4) (p + 4 + cn) = .ok scores ∧
      minMaxLoc scores = .ok (m, k) ∧
      ((¬ conf < m ∧ st1 = st) ∨
       (conf < m ∧ 4 + cn ≤ dw ∧ ∃ w h cx cy, readAt data (p + 2) = .ok w ∧
          readAt data (p + 3) = .ok h ∧ readAt data p = .ok cx ∧ readAt data (p + 1) = .ok cy ∧
          st1.class_ids = st.class_ids ++ [k] ∧ st1.confidences = st.confidences ++ [m] ∧
          st1.boxes = st.boxes ++ [(candidateBox cx cy w h).toRect] ∧
          ((4 + cn < dw ∧ ∃ r, readRange data (p + (cn + 4)) (p + dw) = .ok r ∧
              st1.rest = st.rest ++ [r]) ∨
           (dw = 4 + cn ∧ st1.rest = st.rest)))) := by
  unfold decodeRow at h
  simp only at h
  split at h
  · cases h
  · rename_i scores hs
    split at h
    · cases h
    · rename_i mm hm
      refine ⟨scores, mm.1, mm.2, hs, hm, ?_⟩
      by_cases hc : conf < mm.1
      · right
        rw [if_pos hc] at h
        split at h
        · cases h
        · rename_i md hmd
          have hle : 4 + cn ≤ dw := by
            have := readRange_length _ _ _ _ hmd
            have hnn : (0 : Int) ≤ (md.length : Int) := Int.natCast_nonneg _
            omega
          split at h
          · rename_i w hh cx cy hw hhh hcx hcy
            refine ⟨hc, hle, w, hh, cx, cy, hw, hhh, hcx, hcy, ?_⟩
            by_cases hr : 0 < dw - (cn + 4)
            · rw [if_pos hr] at h
              split at h
              · cases h
              · rename_i r hrr
                simp only [Except.ok.injEq] at h
                subst h
                exact ⟨rfl, rfl, rfl, Or.inl ⟨by omega, r, hrr, rfl⟩⟩
            · rw [if_neg hr] at h
              simp only [Except.ok.injEq] at h
              subst h
              exact ⟨rfl, rfl, rfl, Or.inr ⟨by omega, rfl⟩⟩
          · cases h
      · left
        rw [if_neg hc] at h
        simp only [Except.ok.injEq] at h
        exact ⟨hc, h.symm⟩

theorem decodeRow_drop (data : List ℚ) (cn dw : Int) (conf : ℚ) (p : Int) (st : Cands)
    (scores : List ℚ) (m : ℚ) (k : Int)
    (hs : readRange data (p + 4) (p + 4 + cn) = .ok scores) (hm : minMaxLoc scores = .ok (m, k))
    (hc : ¬ conf < m) : decodeRow data cn dw conf p st = .ok st := by
  unfold decodeRow
  simp only [hs, hm, if_neg hc]

theorem readRange_eq_of_lt (data : List ℚ) (a b : Int) (h0 : 0 ≤ a) (hab : a < b)
    (hb : b ≤ (data.length : Int)) :
    readRange data a b = .ok ((data.drop a.toNat).take (b - a).toNat) := by
  unfold readRange
  rw [if_neg (by omega), if_neg (by omega), if_pos ⟨h0, hb⟩]

theorem decodeRow_push (data : List ℚ) (cn dw : Int) (conf : ℚ) (p : Int) (st : Cands)
    (scores : List ℚ) (m : ℚ) (k : Int)
    (hs : readRange data (p + 4) (p + 4 + cn) = .ok scores) (hm : minMaxLoc scores = .ok (m, k))
    (hc : conf < m) (hdw : 4 + cn ≤ dw) (hp : 0 ≤ p) (hlen : p + dw ≤ (data.length : Int)) :
    ∃ w h cx cy, readAt data (p + 2) = .ok w ∧ readAt data (p + 3) = .ok h ∧
      readAt data p = .ok cx ∧ readAt data (p + 1) = .ok cy ∧
      decodeRow data cn dw conf p st = .ok
        { class_ids := st.class_ids ++ [k]
          confidences := st.confidences ++ [m]
          boxes := st.boxes ++ [(candidateBox cx cy w h).toRect]
          rest := if 4 + cn < dw then
              st.rest ++ [(data.drop (p + (cn + 4)).toNat).take (dw - (cn + 4)).toNat]
            else st.rest } := by
  have hcn : 0 ≤ cn := by
    have := readRange_length _ _ _ _ hs
    have hnn : (0 : Int) ≤ (scores.length : Int) := Int.natCast_nonneg _
    omega
  obtain ⟨w, hw⟩ := readAt_ok_of_bounds data (p + 2) (by omega) (by omega)
  obtain ⟨h, hh⟩ := readAt_ok_of_bounds data (p + 3) (by omega) (by omega)
  obtain ⟨cx, hcx⟩ := readAt_ok_of_bounds data p (by omega) (by omega)
  obtain ⟨cy, hcy⟩ := readAt_ok_of_bounds data (p + 1) (by omega) (by omega)
  obtain ⟨md, hmd⟩ := readRange_ok_of_bounds data (p + 4 + cn) (p + dw) (by omega) (by omega) hlen
  refine ⟨w, h, cx, cy, hw, hh, hcx, hcy, ?_⟩
  unfold decodeRow
  simp only [hs, hm, if_pos hc, hmd, hw, hh, hcx, hcy]
  by_cases hr : 4 + cn < dw
  · have hr2 : 0 < dw - (cn + 4) := by omega
    rw [if_pos hr2, if_pos hr, readRange_eq_of_lt data _ _ (by omega) (by omega) hlen]
    have : p + dw - (p + (cn + 4)) = dw - (cn + 4) := by ring
    simp only [this]
  · have hr2 : ¬ 0 < dw - (cn + 4) := by omega
    rw [if_neg hr2, if_neg hr]

theorem decodeRow_inv (data : List ℚ) (cn dw : Int) (conf : ℚ) (p : Int) (st st1 : Cands)
    (h : decodeRow data cn dw conf p st = .ok st1)
    (hI : st.class_ids.length = st.confidences.length ∧ st.boxes.length = st.confidences.length ∧
      (4 + cn < dw → st.rest.length = st.confidences.length) ∧ (∀ c ∈ st.confidences, conf < c)) :
    st1.class_ids.length = st1.confidences.length ∧ st1.boxes.length = st1.confidences.length ∧
      (4 + cn < dw → st1.rest.length = st1.confidences.length) ∧
      (∀ c ∈ st1.confidences, conf < c) := by
  obtain ⟨scores, m, k, -, -, hcase⟩ := decodeRow_ok_inv data cn dw conf p st st1 h
  rcases hcase with ⟨-, rfl⟩ | ⟨hc, -, w, hh, cx, cy, -, -, -, -, h1, h2, h3, h4⟩
  · exact hI
  · obtain ⟨i1, i2, i3, i4⟩ := hI
    refine ⟨by simp [h1, h2, i1], by simp [h2, h3, i2], ?_, ?_⟩
    · intro hlt
      rcases h4 with ⟨-, r, -, hr⟩ | ⟨heq, -⟩
      · simp [hr, h2, i3 hlt]
      · omega
    · intro c hcm
      rw [h2] at hcm
      rcases List.mem_append.mp hcm with hcm | hcm
      · exact i4 c hcm
      · simp at hcm
        rw [hcm]
        exact hc

theorem decodeLoop_inv (data : List ℚ) (cn dw : Int) (conf : ℚ) :
    ∀ (n : Nat) (p : Int) (st st1 : Cands),
    decodeLoop data cn dw conf n p st = .ok st1 →
    (st.class_ids.length = st.confidences.length ∧ st.boxes.length = st.confidences.length ∧
      (4 + cn < dw → st.rest.length = st.confidences.length) ∧ (∀ c ∈ st.confidences, conf < c)) →
    st1.class_ids.length = st1.confidences.length ∧ st1.boxes.length = st1.confidences.length ∧
      (4 + cn < dw → st1.rest.length = st1.confidences.length) ∧
      (∀ c ∈ st1.confidences, conf < c) := by
  intro n
  induction n with
  | zero =>
    intro p st st1 h hI
    simp only [decodeLoop, Except.ok.injEq] at h
    subst h
    exact hI
  | succ n ih =>
    intro p st st1 h hI
    simp only [decodeLoop] at h
    split at h
    · cases h
    · rename_i st2 hrow
      exact ih _ _ _ h (decodeRow_inv data cn dw conf p st st2 hrow hI)

theorem decode_inv (output0 : Mat) (cn dw : Int) (conf : ℚ) (c : Cands)
    (h : decode output0 cn dw conf = .ok c) :
    c.class_ids.length = c.confidences.length ∧ c.boxes.length = c.confidences.length ∧
      (4 + cn < dw → c.rest.length = c.confidences.length) ∧ (∀ x ∈ c.confidences, conf < x) := by
  apply decodeLoop_inv output0.data cn dw conf output0.rows 0 Cands.empty c h
  simp [Cands.empty]

/-- With a declared row width below `4 + class_names_num` no row can be pushed. -/
theorem decodeLoop_short (data : List ℚ) (cn dw : Int) (conf : ℚ) (hdw : dw < 4 + cn) :
    ∀ (n : Nat) (p : Int) (st st1 : Cands),
    decodeLoop data cn dw conf n p st = .ok st1 → st1 = st := by
  intro n
  induction n with
  | zero =>
    intro p st st1 h
    simp only [decodeLoop, Except.ok.injEq] at h
    exact h.symm
  | succ n ih =>
    intro p st st1 h
    simp only [decodeLoop] at h
    split at h
    · cases h
    · rename_i st2 hrow
      obtain ⟨scores, m, k, -, -, hcase⟩ := decodeRow_ok_inv data cn dw conf p st st2 hrow
      rcases hcase with ⟨-, rfl⟩ | ⟨-, hle, -⟩
      · exact ih _ _ _ h
      · omega

/-! ## The gathering loop -/

theorem getD_of_getElem? {α : Type} (l : List α) (i : Nat) (d v : α) (h : l[i]? = some v) :
    l.getD i d = v := by
  rw [List.getD_eq_getElem?_getD, h]
  rfl

theorem getElem?_of_lt_getD {α : Type} (l : List α) (i : Nat) (d : α) (h : i < l.length) :
    l[i]? = some (l.getD i d) := by
  rw [List.getD_eq_getElem?_getD, List.getElem?_eq_getElem h]
  rfl

theorem gatherLoop_of_inrange (c : Cands) : ∀ (idxs : List Nat) (out : Dets),
    (∀ i ∈ idxs, i < c.class_ids.length ∧ i < c.confidences.length ∧ i < c.boxes.length ∧
      i < c.rest.length) →
    gatherLoop c idxs out = .ok
      { boxes := out.boxes ++ idxs.map (fun i => c.boxes.getD i Rect.zero)
        confidences := out.confidences ++ idxs.map (fun i => c.confidences.getD i 0)
        class_ids := out.class_ids ++ idxs.map (fun i => c.class_ids.getD i 0)
        rest := out.rest ++ idxs.map (fun i => c.rest.getD i []) } := by
  intro idxs
  induction idxs with
  | nil =>
    intro out _
    simp [gatherLoop]
  | cons idx idxs ih =>
    intro out h
    obtain ⟨h1, h2, h3, h4⟩ := h idx (List.mem_cons_self _ _)
    unfold gatherLoop
    simp only [getElem?_of_lt_getD c.class_ids idx 0 h1, getElem?_of_lt_getD c.confidences idx 0 h2,
      getElem?_of_lt_getD c.boxes idx Rect.zero h3, getElem?_of_lt_getD c.rest idx [] h4]
    rw [ih _ (fun i hi => h i (List.mem_cons_of_mem _ hi))]
    simp

theorem gatherLoop_inrange_of_ok (c : Cands) : ∀ (idxs : List Nat) (out o : Dets),
    gatherLoop c idxs out = .ok o →
    ∀ i ∈ idxs, i < c.class_ids.length ∧ i < c.confidences.length ∧ i < c.boxes.length ∧
      i < c.rest.length := by
  intro idxs
  induction idxs with
  | nil =>
    intro out o _ i hi
    cases hi
  | cons idx idxs ih =>
    intro out o h i hi
    unfold gatherLoop at h
    split at h
    · rename_i cid cf b r h1 h2 h3 h4
      rcases List.mem_cons.mp hi with rfl | hi
      · exact ⟨(List.getElem?_eq_some.mp h1).1, (List.getElem?_eq_some.mp h2).1,
          (List.getElem?_eq_some.mp h3).1, (List.getElem?_eq_some.mp h4).1⟩
      · exact ih _ _ h i hi
    · cases h

/-- Whenever the gathering loop returns, its result is the chosen candidates in order. -/
theorem gatherLoop_ok_eq (c : Cands) (idxs : List Nat) (o : Dets)
    (h : gatherLoop c idxs Dets.empty = .ok o) :
    o = { boxes := idxs.map (fun i => c.boxes.getD i Rect.zero)
          confidences := idxs.map (fun i => c.confidences.getD i 0)
          class_ids := idxs.map (fun i => c.class_ids.getD i 0)
          rest := idxs.map (fun i => c.rest.getD i []) } := by
  have h2 := gatherLoop_of_inrange c idxs Dets.empty (gatherLoop_inrange_of_ok c idxs _ o h)
  rw [h] at h2
  simp only [Dets.empty, List.nil_append, Except.ok.injEq] at h2
  exact h2

/-! ## Overlap measure -/

theorem jaccardDistance_eq (a b : Rect) :
    jaccardDistance a b = if a.area + b.area ≤ 0 then 0 else f64 (1 - f64 (iou a b)) := rfl

/-- Two rectangles of total area at most zero overlap with measure 1. -/
theorem rectOverlap_of_area_le (a b : Rect) (h : a.area + b.area ≤ 0) : rectOverlap a b = 1 := by
  unfold rectOverlap
  rw [jaccardDistance_eq, if_pos h, f32_zero, sub_zero, f32_one]

/-- Two copies of one rectangle overlap with measure exactly 1. -/
theorem rectOverlap_self (a : Rect) (hw : 0 < a.width) (hh : 0 < a.height) :
    rectOverlap a a = 1 := by
  have hinter : a.inter a = a := by
    unfold Rect.inter
    simp only [max_self, min_self, add_sub_cancel_left]
    rw [if_neg (by omega)]
  have hpos : 0 < a.area := mul_pos hw hh
  have hiou : iou a a = 1 := by
    unfold iou
    rw [hinter]
    have hq : ((a.area : Int) : ℚ) ≠ 0 := by
      have : (0 : ℚ) < ((a.area : Int) : ℚ) := by exact_mod_cast hpos
      exact ne_of_gt this
    push_cast
    field_simp
  unfold rectOverlap
  rw [jaccardDistance_eq, if_neg (by omega), hiou, f64_one, sub_self, f64_zero, f32_zero, sub_zero,
    f32_one]

/-! ## Sorted score list -/

theorem mem_zip_range (scores : List ℚ) (p : ℚ × Nat)
    (h : p ∈ scores.zip (List.range scores.length)) :
    p.2 < scores.length ∧ scores[p.2]? = some p.1 := by
  obtain ⟨i, hi⟩ := List.mem_iff_getElem?.mp h
  obtain ⟨h1, h2⟩ := List.getElem?_zip_eq_some.mp hi
  have hlt : i < scores.length := (List.getElem?_eq_some.mp h1).1
  rw [List.getElem?_range hlt] at h2
  have : i = p.2 := by simpa using h2
  subst this
  exact ⟨hlt, h1⟩

theorem GetMaxScoreIndex_mem (scores : List ℚ) (threshold : ℚ) (p : ℚ × Nat)
    (h : p ∈ GetMaxScoreIndex scores threshold) :
    p.2 < scores.length ∧ scores[p.2]? = some p.1 ∧ threshold < p.1 := by
  unfold GetMaxScoreIndex at h
  rw [List.mem_insertionSort, List.mem_filter] at h
  obtain ⟨h1, h2⟩ := h
  obtain ⟨h3, h4⟩ := mem_zip_range scores p h1
  exact ⟨h3, h4, by simpa using h2⟩

theorem GetMaxScoreIndex_nodup (scores : List ℚ) (threshold : ℚ) :
    ((GetMaxScoreIndex scores threshold).map Prod.snd).Nodup := by
  unfold GetMaxScoreIndex
  have hperm := List.perm_insertionSort (fun a b : ℚ × Nat => a.1 ≥ b.1)
    ((scores.zip (List.range scores.length)).filter (fun p => threshold < p.1))
  rw [(hperm.map Prod.snd).nodup_iff]
  have hsub : List.Sublist
      (((scores.zip (List.range scores.length)).filter (fun p => threshold < p.1)).map Prod.snd)
      ((scores.zip (List.range scores.length)).map Prod.snd) :=
    (List.filter_sublist _).map _
  rw [List.map_snd_zip _ _ (by simp)] at hsub
  exact hsub.nodup (List.nodup_range _)

theorem GetMaxScoreIndex_sorted (scores : List ℚ) (threshold : ℚ) :
    ((GetMaxScoreIndex scores threshold).map Prod.fst).Pairwise (fun a b => a ≥ b) := by
  unfold GetMaxScoreIndex
  rw [List.pairwise_map]
  haveI : IsTotal (ℚ × Nat) (fun a b => a.1 ≥ b.1) := ⟨fun a b => le_total b.1 a.1⟩
  haveI : IsTrans (ℚ × Nat) (fun a b => a.1 ≥ b.1) := ⟨fun a b c h1 h2 => le_trans h2 h1⟩
  exact List.sorted_insertionSort (fun a b : ℚ × Nat => a.1 ≥ b.1) _

theorem GetMaxScoreIndex_length (scores : List ℚ) (threshold : ℚ) :
    (GetMaxScoreIndex scores threshold).length ≤ scores.length := by
  unfold GetMaxScoreIndex
  rw [List.length_insertionSort]
  refine le_trans (List.length_filter_le _ _) ?_
  simp

/-- On scores that are already in descending order and all above the threshold, the
sorted list is the input order. -/
theorem GetMaxScoreIndex_of_sorted (scores : List ℚ) (threshold : ℚ)
    (hs : scores.Pairwise (fun a b => a ≥ b)) (hall : ∀ s ∈ scores, threshold < s) :
    GetMaxScoreIndex scores threshold = scores.zip (List.range scores.length) := by
  unfold GetMaxScoreIndex
  have hf : (scores.zip (List.range scores.length)).filter (fun p => threshold < p.1)
      = scores.zip (List.range scores.length) := by
    rw [List.filter_eq_self]
    intro p hp
    have := mem_zip_range scores p hp
    simpa using hall p.1 (List.getElem?_mem this.2)
  rw [hf]
  apply List.Sorted.insertionSort_eq
  have hm : (scores.zip (List.range scores.length)).map Prod.fst = scores :=
    List.map_fst_zip _ _ (by simp)
  have : ((scores.zip (List.range scores.length)).map Prod.fst).Pairwise (fun a b => a ≥ b) := by
    rw [hm]; exact hs
  rw [List.pairwise_map] at this
  exact this

/-! ## The greedy loop -/

theorem nmsLoop_sublist (bboxes : List Rect) (t : ℚ) : ∀ (ps : List (ℚ × Nat)) (acc : List Nat),
    ∃ l, nmsLoop bboxes t ps acc = acc ++ l ∧ l.Sublist (ps.map Prod.snd) := by
  intro ps
  induction ps with
  | nil =>
    intro acc
    exact ⟨[], by simp [nmsLoop], List.Sublist.refl _⟩
  | cons p ps ih =>
    intro acc
    unfold nmsLoop
    split_ifs with hk
    · obtain ⟨l, hl, hsub⟩ := ih (acc ++ [p.2])
      refine ⟨p.2 :: l, by simp [hl], ?_⟩
      simpa using hsub.cons₂ p.2
    · obtain ⟨l, hl, hsub⟩ := ih acc
      exact ⟨l, hl, by simpa using hsub.cons p.2⟩

/-- Indices kept by the greedy loop are pairwise within the threshold: each kept index
overlaps every earlier kept index by at most the threshold. -/
theorem nmsLoop_pairwise (bboxes : List Rect) (t : ℚ) : ∀ (ps : List (ℚ × Nat)) (acc : List Nat),
    acc.Pairwise (fun i j =>
      rectOverlap (bboxes.getD j Rect.zero) (bboxes.getD i Rect.zero) ≤ t) →
    (nmsLoop bboxes t ps acc).Pairwise (fun i j =>
      rectOverlap (bboxes.getD j Rect.zero) (bboxes.getD i Rect.zero) ≤ t) := by
  intro ps
  induction ps with
  | nil =>
    intro acc h
    simpa [nmsLoop] using h
  | cons p ps ih =>
    intro acc h
    unfold nmsLoop
    split_ifs with hk
    · apply ih
      rw [List.pairwise_append]
      refine ⟨h, List.pairwise_singleton _ _, ?_⟩
      intro i hi j hj
      simp only [List.mem_singleton] at hj
      subst hj
      unfold nmsKeep at hk
      rw [List.all_eq_true] at hk
      simpa using hk i hi
    · exact ih acc h

/-- When all candidates are pairwise within the threshold, the greedy loop keeps all. -/
theorem nmsLoop_keep_all (bboxes : List Rect) (t : ℚ) : ∀ (ps : List (ℚ × Nat)) (acc : List Nat),
    (acc ++ ps.map Prod.snd).Pairwise (fun i j =>
      rectOverlap (bboxes.getD j Rect.zero) (bboxes.getD i Rect.zero) ≤ t) →
    nmsLoop bboxes t ps acc = acc ++ ps.map Prod.snd := by
  intro ps
  induction ps with
  | nil =>
    intro acc _
    simp [nmsLoop]
  | cons p ps ih =>
    intro acc h
    have hk : nmsKeep bboxes t acc p.2 = true := by
      unfold nmsKeep
      rw [List.all_eq_true]
      intro i hi
      rw [List.pairwise_append] at h
      have := h.2.2 i hi p.2 (by simp)
      simpa using this
    unfold nmsLoop
    rw [if_pos hk, ih (acc ++ [p.2]) (by simpa using h)]
    simp

/-! ## The NMS stage -/

theorem NMSBoxes_ok_inv (bboxes : List Rect) (scores : List ℚ) (conf iou : ℚ) (idxs : List Nat)
    (h : NMSBoxes bboxes scores conf iou = .ok idxs) :
    bboxes.length = scores.length ∧ 0 ≤ conf ∧ 0 ≤ iou ∧
      idxs = nmsLoop bboxes iou (GetMaxScoreIndex scores conf) [] := by
  unfold NMSBoxes at h
  split_ifs at h with hc
  simp only [Except.ok.injEq] at h
  exact ⟨hc.1, hc.2.1, hc.2.2, h.symm⟩

theorem NMSBoxes_eq (bboxes : List Rect) (scores : List ℚ) (conf iou : ℚ)
    (hl : bboxes.length = scores.length) (hc : 0 ≤ conf) (hi : 0 ≤ iou) :
    NMSBoxes bboxes scores conf iou
      = .ok (nmsLoop bboxes iou (GetMaxScoreIndex scores conf) []) := by
  unfold NMSBoxes
  rw [if_pos ⟨hl, hc, hi⟩]

theorem nmsStage_ok_inv (c : Cands) (conf iou : ℚ) (out : Dets)
    (h : nmsStage c conf iou = .ok out) :
    ∃ idxs, NMSBoxes c.boxes c.confidences (f32 conf) iou = .ok idxs ∧
      (∀ i ∈ idxs, i < c.class_ids.length ∧ i < c.confidences.length ∧ i < c.boxes.length ∧
        i < c.rest.length) ∧
      out = { boxes := idxs.map (fun i => c.boxes.getD i Rect.zero)
              confidences := idxs.map (fun i => c.confidences.getD i 0)
              class_ids := idxs.map (fun i => c.class_ids.getD i 0)
              rest := idxs.map (fun i => c.rest.getD i []) } := by
  unfold nmsStage at h
  split at h
  · cases h
  · rename_i idxs hn
    exact ⟨idxs, hn, gatherLoop_inrange_of_ok c idxs _ out h, gatherLoop_ok_eq c idxs out h⟩

theorem non_max_suppression_ok_inv (output0 : Mat) (cn dw : Int) (conf iou : ℚ) (out : Dets)
    (h : non_max_suppression output0 cn dw conf iou = .ok out) :
    ∃ c, decode output0 cn dw conf = .ok c ∧ nmsStage c conf iou = .ok out := by
  unfold non_max_suppression at h
  split at h
  · cases h
  · rename_i c hc
    exact ⟨c, hc, h⟩

theorem getD_mem_of_lt {α : Type} (l : List α) (i : Nat) (d : α) (h : i < l.length) :
    l.getD i d ∈ l :=
  List.getElem?_mem (getElem?_of_lt_getD l i d h)

/-- C3 (amended): for a row whose maximum class score exceeds conf_threshold the loop body
records class_id = first index of the maximum score, confidence = that maximum, and the
box Rect(max(cx - 0.5 * w + 0.5, 0), max(cy - 0.5 * h + 0.5, 0), w + 0.5, h + 0.5) evaluated
in float arithmetic (every product, difference and sum rounded to float) and then converted
to the integer cv::Rect by cvRound, field by field. For the row [100, 100, 50, 50, 0.1f,
0.9f, 0.05f] with 3 classes and conf_threshold 0.3 the recorded candidate has class_id 1,
confidence 0.9f and box Rect(76, 76, 50, 50); with one trailing extra channel that candidate
is the one returned detection. -/
theorem candidate_fields :
    (∀ (data : List ℚ) (cn dw : Int) (conf : ℚ) (p : Int) (st : Cands) (scores : List ℚ),
      readRange data (p + 4) (p + 4 + cn) = .ok scores → (∃ s ∈ scores, conf < s) →
      4 + cn ≤ dw → 0 ≤ p → p + dw ≤ (data.length : Int) →
      ∃ (k : Nat) (m cx cy w h : ℚ) (extra : List (List ℚ)),
        readAt data p = .ok cx ∧ readAt data (p + 1) = .ok cy ∧
        readAt data (p + 2) = .ok w ∧ readAt data (p + 3) = .ok h ∧
        scores[k]? = some m ∧ (∀ s ∈ scores, s ≤ m) ∧
        (∀ j s, j < k → scores[j]? = some s → s < m) ∧
        decodeRow data cn dw conf p st = .ok
          { class_ids := st.class_ids ++ [(k : Int)]
            confidences := st.confidences ++ [m]
            boxes := st.boxes ++
              [{ x := cvRound (max (f32 (f32 (cx - f32 (1 / 2 * w)) + 1 / 2)) 0),
                 y := cvRound (max (f32 (f32 (cy - f32 (1 / 2 * h)) + 1 / 2)) 0),
                 width := cvRound (f32 (w + 1 / 2)), height := cvRound (f32 (h + 1 / 2)) }]
            rest := st.rest ++ extra }) ∧
    decode ⟨1, [100, 100, 50, 50, f32 (1 / 10), f32 (9 / 10), f32 (1 / 20)]⟩ 3 7 (3 / 10)
      = .ok ⟨[1], [f32 (9 / 10)], [⟨76, 76, 50, 50⟩], []⟩ ∧
    non_max_suppression ⟨1, [100, 100, 50, 50, f32 (1 / 10), f32 (9 / 10), f32 (1 / 20), 7]⟩
        3 8 (3 / 10) (f32 (1 / 2))
      = .ok ⟨[⟨76, 76, 50, 50⟩], [f32 (9 / 10)], [1], [[7]]⟩ := by
  refine ⟨?_, by decide!, by decide!⟩
  intro data cn dw conf p st scores hs hgt hdw hp hlen
  obtain ⟨s, hsm, hlt⟩ := hgt
  obtain ⟨m, k, hm⟩ := minMaxLoc_ok_of_ne_nil scores (List.ne_nil_of_mem hsm)
  obtain ⟨n, hk, hn, hmax, hfirst⟩ := minMaxLoc_spec scores m k hm
  have hc : conf < m := lt_of_lt_of_le hlt (hmax s hsm)
  obtain ⟨w, h, cx, cy, hw, hh, hcx, hcy, hrow⟩ :=
    decodeRow_push data cn dw conf p st scores m k hs hm hc hdw hp hlen
  rw [hk] at hrow
  by_cases hr : 4 + cn < dw
  · refine ⟨n, m, cx, cy, w, h,
      [(data.drop (p + (cn + 4)).toNat).take (dw - (cn + 4)).toNat],
      hcx, hcy, hw, hh, hn, hmax, hfirst, ?_⟩
    rw [hrow, if_pos hr]
    rfl
  · refine ⟨n, m, cx, cy, w, h, [], hcx, hcy, hw, hh, hn, hmax, hfirst, ?_⟩
    rw [hrow, if_neg hr, List.append_nil]
    rfl

theorem candidate_fields_witness :
    ∃ (k : Nat) (m cx cy w h : ℚ) (extra : List (List ℚ)),
        readAt [100, 100, 50, 50, f32 (1 / 10), f32 (9 / 10), f32 (1 / 20), 7] 0 = .ok cx ∧
        readAt [100, 100, 50, 50, f32 (1 / 10), f32 (9 / 10), f32 (1 / 20), 7] (0 + 1) = .ok cy ∧
        readAt [100, 100, 50, 50, f32 (1 / 10), f32 (9 / 10), f32 (1 / 20), 7] (0 + 2) = .ok w ∧
        readAt [100, 100, 50, 50, f32 (1 / 10), f32 (9 / 10), f32 (1 / 20), 7] (0 + 3) = .ok h ∧
        [f32 (1 / 10), f32 (9 / 10), f32 (1 / 20)][k]? = some m ∧
        (∀ s ∈ [f32 (1 / 10), f32 (9 / 10), f32 (1 / 20)], s ≤ m) ∧
        (∀ j s, j < k → [f32 (1 / 10), f32 (9 / 10), f32 (1 / 20)][j]? = some s → s < m) ∧
        decodeRow [100, 100, 50, 50, f32 (1 / 10), f32 (9 / 10), f32 (1 / 20), 7] 3 8 (3 / 10) 0
            Cands.empty = .ok
          { class_ids := Cands.empty.class_ids ++ [(k : Int)]
            confidences := Cands.empty.confidences ++ [m]
            boxes := Cands.empty.boxes ++
              [{ x := cvRound (max (f32 (f32 (cx - f32 (1 / 2 * w)) + 1 / 2)) 0),
                 y := cvRound (max (f32 (f32 (cy - f32 (1 / 2 * h)) + 1 / 2)) 0),
                 width := cvRound (f32 (w + 1 / 2)), height := cvRound (f32 (h + 1 / 2)) }]
            rest := Cands.empty.rest ++ extra } :=
  candidate_fields.1 [100, 100, 50, 50, f32 (1 / 10), f32 (9 / 10), f32 (1 / 20), 7] 3 8 (3 / 10) 0
    Cands.empty [f32 (1 / 10), f32 (9 / 10), f32 (1 / 20)] (by decide!)
    ⟨f32 (9 / 10), by decide!, by decide!⟩ (by decide) (by decide) (by decide)

/-- C3 as stated fails. For the row [100, 100, 50, 50, 0.1f, 0.9f, 0.05f] (3 classes,
conf_threshold 0.3) the recorded box is an integer rectangle, so its fields are not
75.5, 75.5, 50.5, 50.5. And the integer box is not the rounding of the real-number
expression either: for the row with cx = 15336889/32768 and w = 8850291/32768 the float
difference cx - 0.5 * w rounds up to 333, the sum is 333.5 and the recorded x is 334, while
max(cx - w/2 + 0.5, 0) = 333.49998... rounds to 333. -/
theorem candidate_box_is_integer_rect :
    (¬ ∃ (c : Cands) (b : Rect),
      decode ⟨1, [100, 100, 50, 50, f32 (1 / 10), f32 (9 / 10), f32 (1 / 20)]⟩ 3 7 (3 / 10)
        = .ok c ∧
      c.boxes = [b] ∧ (b.x : ℚ) = 151 / 2 ∧ (b.y : ℚ) = 151 / 2 ∧
      (b.width : ℚ) = 101 / 2 ∧ (b.height : ℚ) = 101 / 2) ∧
    decode ⟨1, [15336889 / 32768, 100, 8850291 / 32768, 50, f32 (1 / 10), f32 (9 / 10),
        f32 (1 / 20)]⟩ 3 7 (3 / 10)
      = .ok ⟨[1], [f32 (9 / 10)], [⟨334, 76, 271, 50⟩], []⟩ ∧
    rint (max ((15336889 / 32768 : ℚ) - (8850291 / 32768 : ℚ) / 2 + 1 / 2) 0) = 333 := by
  refine ⟨?_, by decide!, by decide!⟩
  rintro ⟨c, b, hc, hb, hx, -, -, -⟩
  have hd : decode ⟨1, [100, 100, 50, 50, f32 (1 / 10), f32 (9 / 10), f32 (1 / 20)]⟩ 3 7 (3 / 10)
      = .ok ⟨[1], [f32 (9 / 10)], [⟨76, 76, 50, 50⟩], []⟩ := by decide!
  rw [hd] at hc
  simp only [Except.ok.injEq] at hc
  subst hc
  simp only [List.cons.injEq, and_true] at hb
  subst hb
  norm_num at hx

/-- When the declared row width equals `4 + class_names_num` the loop never pushes to
`rest`. -/
theorem decodeLoop_rest_nil (data : List ℚ) (cn : Int) (conf : ℚ) :
    ∀ (n : Nat) (p : Int) (st st1 : Cands),
    decodeLoop data cn (4 + cn) conf n p st = .ok st1 → st.rest = [] → st1.rest = [] := by
  intro n
  induction n with
  | zero =>
    intro p st st1 h hr
    simp only [decodeLoop, Except.ok.injEq] at h
    subst h
    exact hr
  | succ n ih =>
    intro p st st1 h hr
    simp only [decodeLoop] at h
    split at h
    · cases h
    · rename_i st2 hrow
      apply ih _ _ _ h
      obtain ⟨scores, m, k, -, -, hcase⟩ := decodeRow_ok_inv data cn (4 + cn) conf p st st2 hrow
      rcases hcase with ⟨-, rfl⟩ | ⟨-, -, w, hh, cx, cy, -, -, -, -, -, -, -, h4⟩
      · exact hr
      · rcases h4 with ⟨hlt, -⟩ | ⟨-, h5⟩
        · omega
        · rw [h5, hr]

theorem nmsLoop_cons_nil (bboxes : List Rect) (t : ℚ) (p : ℚ × Nat) (ps : List (ℚ × Nat)) :
    ∃ l, nmsLoop bboxes t (p :: ps) [] = p.2 :: l := by
  have hk : nmsKeep bboxes t [] p.2 = true := by simp [nmsKeep]
  obtain ⟨l, hl, -⟩ := nmsLoop_sublist bboxes t ps ([] ++ [p.2])
  refine ⟨l, ?_⟩
  rw [nmsLoop, if_pos hk, hl]
  rfl

theorem GetMaxScoreIndex_ne_nil (scores : List ℚ) (threshold : ℚ)
    (hex : ∃ s ∈ scores, threshold < s) : GetMaxScoreIndex scores threshold ≠ [] := by
  obtain ⟨x, hx, hlt⟩ := hex
  obtain ⟨i, hi, hix⟩ := List.getElem_of_mem hx
  have hmem : (x, i) ∈ (scores.zip (List.range scores.length)).filter (fun p => threshold < p.1) := by
    rw [List.mem_filter]
    refine ⟨?_, by simpa using hlt⟩
    have h1 : (scores.zip (List.range scores.length))[i]? = some (x, i) := by
      rw [List.getElem?_zip_eq_some]
      refine ⟨by rw [List.getElem?_eq_getElem hi, hix], ?_⟩
      rw [List.getElem?_range hi]
    exact List.getElem?_mem h1
  intro h
  unfold GetMaxScoreIndex at h
  have hp := (List.perm_insertionSort (fun a b : ℚ × Nat => a.1 ≥ b.1)
    ((scores.zip (List.range scores.length)).filter (fun p => threshold < p.1))).symm.subset hmem
  rw [h] at hp
  simp at hp

/-- C4: evaluation of the code where the claim fails. With data_width = 4 +
class_names_num the loop never fills `rest`, and the gathering loop reads `rest[idx]` for
the first survivor outside the (empty) vector: whenever at least one candidate passes the
confidence filter of the NMS step (the threshold narrowed to float) the call faults instead
of returning one empty extra per survivor. The second part is the row [100, 100, 50, 50,
0.1, 0.9, 0.05] with 3 classes, data_width 7. -/
theorem extras_out_of_range_without_extra_channels :
    (∀ (output0 : Mat) (cn : Int) (conf iou : ℚ) (c : Cands),
      decode output0 cn (4 + cn) conf = .ok c → (∃ x ∈ c.confidences, f32 conf < x) →
      0 ≤ conf → 0 ≤ iou →
      non_max_suppression output0 cn (4 + cn) conf iou = .error .outOfRange) ∧
    non_max_suppression ⟨1, [100, 100, 50, 50, 1 / 10, 9 / 10, 1 / 20]⟩ 3 7 (3 / 10) (1 / 2)
      = .error .outOfRange := by
  refine ⟨?_, by decide!⟩
  intro output0 cn conf iou c hc hne h0 h1
  obtain ⟨i1, i2, -, i4⟩ := decode_inv output0 cn (4 + cn) conf c hc
  have hrest : c.rest = [] :=
    decodeLoop_rest_nil output0.data cn conf output0.rows 0 Cands.empty c hc rfl
  unfold non_max_suppression
  rw [hc]
  simp only
  unfold nmsStage
  rw [NMSBoxes_eq c.boxes c.confidences (f32 conf) iou i2 (f32_nonneg h0) h1]
  simp only
  obtain ⟨p, ps, hps⟩ := List.exists_cons_of_ne_nil
    (GetMaxScoreIndex_ne_nil c.confidences (f32 conf) hne)
  obtain ⟨l, hl⟩ := nmsLoop_cons_nil c.boxes iou p ps
  rw [hps, hl]
  unfold gatherLoop
  simp [hrest]

theorem extras_out_of_range_without_extra_channels_witness :
    non_max_suppression ⟨2, [10, 10, 4, 4, 1 / 10, 9 / 10, 30, 30, 6, 6, 8 / 10, 1 / 10]⟩ 2 (4 + 2)
      (1 / 4) (1 / 2) = .error .outOfRange :=
  extras_out_of_range_without_extra_channels.1
    ⟨2, [10, 10, 4, 4, 1 / 10, 9 / 10, 30, 30, 6, 6, 8 / 10, 1 / 10]⟩ 2 (1 / 4) (1 / 2)
    ⟨[1, 0], [9 / 10, 8 / 10], [⟨8, 8, 4, 4⟩, ⟨28, 28, 6, 6⟩], []⟩
    (by decide!) ⟨9 / 10, by decide!, by decide!⟩ (by decide!) (by decide!)

/-- The narrowing of `conf_threshold` at the call of `NMSBoxes`: a row whose maximum score
is the float next above the double threshold 0.3 passes the comparison of the row loop
(in double) and is recorded, but it does not pass the score filter of `NMSBoxes`, whose
threshold is `(float)0.3`, the score itself; nothing survives and nothing is read from
`rest`. -/
theorem narrowed_threshold_filters_boundary_score :
    decode ⟨1, [100, 100, 50, 50, f32 (1 / 10), f32 (3 / 10), f32 (1 / 20)]⟩ 3 7 (f64 (3 / 10))
      = .ok ⟨[1], [f32 (3 / 10)], [⟨76, 76, 50, 50⟩], []⟩ ∧
    f64 (3 / 10) < f32 (3 / 10) ∧ f32 (f64 (3 / 10)) = f32 (3 / 10) ∧
    non_max_suppression ⟨1, [100, 100, 50, 50, f32 (1 / 10), f32 (3 / 10), f32 (1 / 20)]⟩ 3 7
      (f64 (3 / 10)) (f32 (1 / 2)) = .ok ⟨[], [], [], []⟩ := by
  refine ⟨by decide!, by decide!, by decide!, by decide!⟩

/-- Rows whose score window is readable and holds no score above the threshold are all
dropped by the loop, whatever the declared row width. -/
theorem decodeLoop_all_dropped (data : List ℚ) (cn dw : Int) (conf : ℚ) (hcn : 1 ≤ cn)
    (hdw : 0 ≤ dw) : ∀ (n : Nat) (p : Int) (st : Cands), 0 ≤ p →
    (∀ r : Nat, r < n → p + (r : Int) * dw + 4 + cn ≤ (data.length : Int) ∧
      ∀ s ∈ (data.drop (p + (r : Int) * dw + 4).toNat).take cn.toNat, s ≤ conf) →
    decodeLoop data cn dw conf n p st = .ok st := by
  intro n
  induction n with
  | zero =>
    intro p st _ _
    rfl
  | succ n ih =>
    intro p st hp hrows
    obtain ⟨hb, hle⟩ := hrows 0 (Nat.succ_pos n)
    simp only [Nat.cast_zero, zero_mul, add_zero] at hb hle
    have hs := readRange_eq_of_lt data (p + 4) (p + 4 + cn) (by omega) (by omega) hb
    have e : p + 4 + cn - (p + 4) = cn := by ring
    rw [e] at hs
    have hne : (data.drop (p + 4).toNat).take cn.toNat ≠ [] := by
      intro h0
      have := readRange_length _ _ _ _ hs
      rw [h0] at this
      simp at this
      omega
    obtain ⟨m, k, hm⟩ := minMaxLoc_ok_of_ne_nil _ hne
    obtain ⟨j, -, hj, -, -⟩ := minMaxLoc_spec _ m k hm
    have hmle : m ≤ conf := hle m (List.getElem?_mem hj)
    have hrow := decodeRow_drop data cn dw conf p st _ m k hs hm (not_lt.mpr hmle)
    simp only [decodeLoop, hrow]
    apply ih (p + dw) st (by omega)
    intro r hr
    have h2 := hrows (r + 1) (Nat.succ_lt_succ hr)
    have e2 : p + ((r + 1 : Nat) : Int) * dw = p + dw + (r : Int) * dw := by
      push_cast
      ring
    rw [e2] at h2
    exact h2

theorem nmsStage_empty (conf iou : ℚ) (hc : 0 ≤ conf) (hi : 0 ≤ iou) :
    nmsStage Cands.empty conf iou = .ok Dets.empty := by
  unfold nmsStage
  rw [NMSBoxes_eq _ _ (f32 conf) iou rfl (f32_nonneg hc) hi]
  rfl

/-- C5 (amended): non_max_suppression does not validate data_width at entry. With
data_width < 4 + class_names_num a call never returns a detection (its result is the empty
detection set or a fault), and it returns the empty detection set without any error when
every row's score window is readable and holds no score above conf_threshold. -/
theorem short_row_width_not_validated (output0 : Mat) (cn dw : Int) (conf iou : ℚ)
    (hshort : dw < 4 + cn) :
    (non_max_suppression output0 cn dw conf iou = .ok Dets.empty ∨
      ∃ e, non_max_suppression output0 cn dw conf iou = .error e) ∧
    (1 ≤ cn → 0 ≤ dw → 0 ≤ conf → 0 ≤ iou →
      (∀ r : Nat, r < output0.rows →
        (r : Int) * dw + 4 + cn ≤ (output0.data.length : Int) ∧
        ∀ s ∈ (output0.data.drop ((r : Int) * dw + 4).toNat).take cn.toNat, s ≤ conf) →
      non_max_suppression output0 cn dw conf iou = .ok Dets.empty) := by
  constructor
  · unfold non_max_suppression
    cases hd : decode output0 cn dw conf with
    | error e => exact Or.inr ⟨e, rfl⟩
    | ok c =>
      simp only
      have hce : c = Cands.empty :=
        decodeLoop_short output0.data cn dw conf hshort output0.rows 0 Cands.empty c hd
      subst hce
      unfold nmsStage NMSBoxes
      split_ifs with hth
      · exact Or.inl rfl
      · exact Or.inr ⟨_, rfl⟩
  · intro hcn hdw hc hi hrows
    have hd : decode output0 cn dw conf = .ok Cands.empty := by
      unfold decode
      apply decodeLoop_all_dropped output0.data cn dw conf hcn hdw output0.rows 0 Cands.empty
        (le_refl 0)
      intro r hr
      simpa using hrows r hr
    unfold non_max_suppression
    rw [hd]
    exact nmsStage_empty conf iou hc hi

theorem short_row_width_not_validated_witness :
    (non_max_suppression ⟨2, [0, 0, 0, 0, 1 / 10, 2 / 10, 1 / 10, 0, 0, 3 / 10, 1 / 5, 0]⟩
        3 5 (3 / 10) (1 / 2) = .ok Dets.empty ∨
      ∃ e, non_max_suppression ⟨2, [0, 0, 0, 0, 1 / 10, 2 / 10, 1 / 10, 0, 0, 3 / 10, 1 / 5, 0]⟩
        3 5 (3 / 10) (1 / 2) = .error e) ∧
    non_max_suppression ⟨2, [0, 0, 0, 0, 1 / 10, 2 / 10, 1 / 10, 0, 0, 3 / 10, 1 / 5, 0]⟩
        3 5 (3 / 10) (1 / 2) = .ok Dets.empty :=
  ⟨(short_row_width_not_validated
      ⟨2, [0, 0, 0, 0, 1 / 10, 2 / 10, 1 / 10, 0, 0, 3 / 10, 1 / 5, 0]⟩ 3 5 (3 / 10) (1 / 2)
      (by decide)).1,
   (short_row_width_not_validated
      ⟨2, [0, 0, 0, 0, 1 / 10, 2 / 10, 1 / 10, 0, 0, 3 / 10, 1 / 5, 0]⟩ 3 5 (3 / 10) (1 / 2)
      (by decide)).2 (by decide) (by decide) (by decide!) (by decide!) (by decide!)⟩

/-- C5 as stated fails: a call with data_width = 5 < 4 + 3 on a 1 x 7 tensor whose scores
stay at or below conf_threshold returns normally, with no error. -/
theorem short_row_width_returns_without_error :
    non_max_suppression ⟨1, [0, 0, 0, 0, 1 / 10, 2 / 10, 1 / 10]⟩ 3 5 (3 / 10) (1 / 2)
      = .ok Dets.empty ∧
    ¬ ∃ e, non_max_suppression ⟨1, [0, 0, 0, 0, 1 / 10, 2 / 10, 1 / 10]⟩ 3 5 (3 / 10) (1 / 2)
      = .error e := by
  have h : non_max_suppression ⟨1, [0, 0, 0, 0, 1 / 10, 2 / 10, 1 / 10]⟩ 3 5 (3 / 10) (1 / 2)
      = .ok Dets.empty := by decide!
  refine ⟨h, ?_⟩
  rintro ⟨e, he⟩
  rw [h] at he
  cases he

theorem nmsLoop_length_mono_short (bboxes : List Rect) (t1 t2 : ℚ) (ht : t1 ≤ t2)
    (ps : List (ℚ × Nat)) (hlen : ps.length ≤ 3) :
    (nmsLoop bboxes t1 ps []).length ≤ (nmsLoop bboxes t2 ps []).length := by
  have mono : ∀ i j : Nat,
      decide (rectOverlap (bboxes.getD i Rect.zero) (bboxes.getD j Rect.zero) ≤ t1) = true →
      decide (rectOverlap (bboxes.getD i Rect.zero) (bboxes.getD j Rect.zero) ≤ t2) = true := by
    intro i j h
    rw [decide_eq_true_eq] at h ⊢
    exact le_trans h ht
  rcases ps with _ | ⟨p, _ | ⟨q, _ | ⟨r, _ | ⟨s, rest⟩⟩⟩⟩
  · simp [nmsLoop]
  · simp [nmsLoop, nmsKeep]
  · have m1 := mono q.2 p.2
    simp only [nmsLoop, nmsKeep, List.all_cons, List.all_nil, List.nil_append, List.cons_append,
      Bool.and_true, if_true]
    generalize decide (rectOverlap (bboxes.getD q.2 Rect.zero) (bboxes.getD p.2 Rect.zero) ≤ t1)
      = x1 at m1 ⊢
    generalize decide (rectOverlap (bboxes.getD q.2 Rect.zero) (bboxes.getD p.2 Rect.zero) ≤ t2)
      = x2 at m1 ⊢
    cases x1 <;> cases x2 <;> simp_all [nmsLoop]
  · have m1 := mono q.2 p.2
    have m2 := mono r.2 p.2
    have m3 := mono r.2 q.2
    simp only [nmsLoop, nmsKeep, List.all_cons, List.all_nil, List.nil_append, List.cons_append,
      Bool.and_true, if_true]
    generalize decide (rectOverlap (bboxes.getD q.2 Rect.zero) (bboxes.getD p.2 Rect.zero) ≤ t1)
      = x1 at m1 ⊢
    generalize decide (rectOverlap (bboxes.getD q.2 Rect.zero) (bboxes.getD p.2 Rect.zero) ≤ t2)
      = x2 at m1 ⊢
    generalize decide (rectOverlap (bboxes.getD r.2 Rect.zero) (bboxes.getD p.2 Rect.zero) ≤ t1)
      = y1 at m2 ⊢
    generalize decide (rectOverlap (bboxes.getD r.2 Rect.zero) (bboxes.getD p.2 Rect.zero) ≤ t2)
      = y2 at m2 ⊢
    generalize decide (rectOverlap (bboxes.getD r.2 Rect.zero) (bboxes.getD q.2 Rect.zero) ≤ t1)
      = z1 at m3 ⊢
    generalize decide (rectOverlap (bboxes.getD r.2 Rect.zero) (bboxes.getD q.2 Rect.zero) ≤ t2)
      = z2 at m3 ⊢
    cases x1 <;> cases x2 <;> cases y1 <;> cases y2 <;> cases z1 <;> cases z2 <;>
      simp_all [nmsLoop, nmsKeep]
  · simp at hlen

/-- C7 (amended): for candidate sets of at most three boxes, greedy NMS is monotone in
the IoU threshold: with 0 ≤ t1 ≤ t2 both runs return and the run at t2 keeps at least as
many detections as the run at t1. -/
theorem nms_monotone_up_to_three (bboxes : List Rect) (scores : List ℚ) (conf t1 t2 : ℚ)
    (hl : bboxes.length = scores.length) (h3 : scores.length ≤ 3) (hconf : 0 ≤ conf)
    (h1 : 0 ≤ t1) (h12 : t1 ≤ t2) :
    ∃ r1 r2, NMSBoxes bboxes scores conf t1 = .ok r1 ∧ NMSBoxes bboxes scores conf t2 = .ok r2 ∧
      r1.length ≤ r2.length := by
  refine ⟨_, _, NMSBoxes_eq bboxes scores conf t1 hl hconf h1,
    NMSBoxes_eq bboxes scores conf t2 hl hconf (le_trans h1 h12), ?_⟩
  exact nmsLoop_length_mono_short bboxes t1 t2 h12 _
    (le_trans (GetMaxScoreIndex_length scores conf) h3)

theorem nms_monotone_up_to_three_witness :
    ∃ r1 r2,
      NMSBoxes [⟨3, 5, 10, 10⟩, ⟨3, 0, 10, 10⟩, ⟨0, 0, 10, 10⟩] [9 / 10, 8 / 10, 7 / 10] (1 / 4)
        (3 / 10) = .ok r1 ∧
      NMSBoxes [⟨3, 5, 10, 10⟩, ⟨3, 0, 10, 10⟩, ⟨0, 0, 10, 10⟩] [9 / 10, 8 / 10, 7 / 10] (1 / 4)
        (1 / 2) = .ok r2 ∧
      r1.length ≤ r2.length :=
  nms_monotone_up_to_three [⟨3, 5, 10, 10⟩, ⟨3, 0, 10, 10⟩, ⟨0, 0, 10, 10⟩]
    [9 / 10, 8 / 10, 7 / 10] (1 / 4) (3 / 10) (1 / 2) (by decide) (by decide) (by decide!)
    (by decide!) (by decide!)

/-- C7 as stated fails: four boxes A, B, C, D with confidences 0.9, 0.8, 0.7, 0.6, where B
overlaps A by 1/3 and overlaps C and D by 7/13 each. At iou_threshold 0.3 the survivors
are A, C, D (three); at iou_threshold 0.5 they are A, B (two). -/
theorem nms_not_monotone_four_boxes :
    NMSBoxes [⟨3, 5, 10, 10⟩, ⟨3, 0, 10, 10⟩, ⟨0, 0, 10, 10⟩, ⟨6, 0, 10, 10⟩]
      [9 / 10, 8 / 10, 7 / 10, 6 / 10] (1 / 4) (3 / 10) = .ok [0, 2, 3] ∧
    NMSBoxes [⟨3, 5, 10, 10⟩, ⟨3, 0, 10, 10⟩, ⟨0, 0, 10, 10⟩, ⟨6, 0, 10, 10⟩]
      [9 / 10, 8 / 10, 7 / 10, 6 / 10] (1 / 4) (1 / 2) = .ok [0, 1] ∧
    ¬ ([0, 2, 3] : List Nat).length ≤ ([0, 1] : List Nat).length := by
  refine ⟨by decide!, by decide!, by decide⟩

theorem map_getD_range {α : Type} (l : List α) (d : α) :
    (List.range l.length).map (fun i => l.getD i d) = l := by
  apply List.ext_getElem
  · simp
  · intro n h1 h2
    simp only [List.getElem_map, List.getElem_range]
    exact List.getD_eq_getElem l d h2

/-- Facts about a returned index list: it is a sublist of the sorted candidate indices
and its members are pairwise within the threshold. -/
theorem NMSBoxes_ok_facts (bboxes : List Rect) (scores : List ℚ) (conf iou : ℚ)
    (idxs : List Nat) (h : NMSBoxes bboxes scores conf iou = .ok idxs) :
    List.Sublist idxs ((GetMaxScoreIndex scores conf).map Prod.snd) ∧
    idxs.Pairwise (fun i j =>
      rectOverlap (bboxes.getD j Rect.zero) (bboxes.getD i Rect.zero) ≤ iou) := by
  obtain ⟨-, -, -, rfl⟩ := NMSBoxes_ok_inv bboxes scores conf iou idxs h
  obtain ⟨l, hl, hsub⟩ := nmsLoop_sublist bboxes iou (GetMaxScoreIndex scores conf) []
  constructor
  · rw [hl]
    simpa using hsub
  · exact nmsLoop_pairwise bboxes iou _ [] List.Pairwise.nil

theorem GetMaxScoreIndex_map_getD (scores : List ℚ) (conf : ℚ) :
    ((GetMaxScoreIndex scores conf).map Prod.snd).map (fun i => scores.getD i 0)
      = (GetMaxScoreIndex scores conf).map Prod.fst := by
  rw [List.map_map]
  apply List.map_congr_left
  intro p hp
  exact getD_of_getElem? scores p.2 0 p.1 (GetMaxScoreIndex_mem scores conf p hp).2.1

/-- Confidences of a returned index list, in order: descending, all above the threshold. -/
theorem NMSBoxes_confidences (bboxes : List Rect) (scores : List ℚ) (conf iou : ℚ)
    (idxs : List Nat) (h : NMSBoxes bboxes scores conf iou = .ok idxs) :
    (idxs.map (fun i => scores.getD i 0)).Pairwise (fun a b => a ≥ b) ∧
    ∀ x ∈ idxs.map (fun i => scores.getD i 0), conf < x := by
  obtain ⟨hsub, -⟩ := NMSBoxes_ok_facts bboxes scores conf iou idxs h
  have hsub2 := hsub.map (fun i => scores.getD i 0)
  rw [GetMaxScoreIndex_map_getD] at hsub2
  refine ⟨List.Pairwise.sublist hsub2 (GetMaxScoreIndex_sorted scores conf), ?_⟩
  intro x hx
  have hx2 := hsub2.subset hx
  simp only [List.mem_map] at hx2
  obtain ⟨p, hp, rfl⟩ := hx2
  exact (GetMaxScoreIndex_mem scores conf p hp).2.2

/-- C8: NMS is idempotent and deterministic. If the NMS stage returns `out` on a
candidate set, then running the NMS stage with the same thresholds on the survivors
returns exactly `out` again (same detections, same order); and any two runs on the same
candidate set give the same result. -/
theorem nms_idempotent (c : Cands) (conf iou : ℚ) (out : Dets)
    (h : nmsStage c conf iou = .ok out) :
    nmsStage ⟨out.class_ids, out.confidences, out.boxes, out.rest⟩ conf iou = .ok out ∧
    (∀ r1 r2, nmsStage c conf iou = r1 → nmsStage c conf iou = r2 → r1 = r2) := by
  refine ⟨?_, fun r1 r2 h1 h2 => h1.symm.trans h2⟩
  obtain ⟨idxs, hN, hr, rfl⟩ := nmsStage_ok_inv c conf iou out h
  obtain ⟨-, hconf, hiou, -⟩ := NMSBoxes_ok_inv _ _ _ _ _ hN
  obtain ⟨-, hpw⟩ := NMSBoxes_ok_facts _ _ _ _ _ hN
  obtain ⟨hsorted, habove⟩ := NMSBoxes_confidences _ _ _ _ _ hN
  simp only
  unfold nmsStage
  simp only
  rw [NMSBoxes_eq _ _ (f32 conf) iou (by simp) hconf hiou,
    GetMaxScoreIndex_of_sorted _ (f32 conf) hsorted habove]
  have hsnd : ((idxs.map (fun i => c.confidences.getD i 0)).zip
      (List.range (idxs.map (fun i => c.confidences.getD i 0)).length)).map Prod.snd
      = List.range idxs.length := by
    rw [List.map_snd_zip _ _ (by simp)]
    simp
  have hkeep := nmsLoop_keep_all (idxs.map (fun i => c.boxes.getD i Rect.zero)) iou
    ((idxs.map (fun i => c.confidences.getD i 0)).zip
      (List.range (idxs.map (fun i => c.confidences.getD i 0)).length)) []
  rw [hsnd, List.nil_append] at hkeep
  have hpw2 : (List.range idxs.length).Pairwise (fun i j =>
      rectOverlap ((idxs.map (fun i => c.boxes.getD i Rect.zero)).getD j Rect.zero)
        ((idxs.map (fun i => c.boxes.getD i Rect.zero)).getD i Rect.zero) ≤ iou) := by
    rw [List.pairwise_iff_getElem]
    intro i j hi hj hij
    simp only [List.length_range] at hi hj
    simp only [List.getElem_range]
    rw [List.getD_eq_getElem _ _ (by simpa using hj), List.getD_eq_getElem _ _ (by simpa using hi)]
    simp only [List.getElem_map]
    exact (List.pairwise_iff_getElem.mp hpw) i j hi hj hij
  rw [hkeep hpw2]
  simp only
  rw [gatherLoop_of_inrange _ (List.range idxs.length) Dets.empty (by
    intro i hi
    simpa using hi)]
  have e1 := map_getD_range (idxs.map (fun i => c.boxes.getD i Rect.zero)) Rect.zero
  have e2 := map_getD_range (idxs.map (fun i => c.confidences.getD i 0)) 0
  have e3 := map_getD_range (idxs.map (fun i => c.class_ids.getD i 0)) 0
  have e4 := map_getD_range (idxs.map (fun i => c.rest.getD i [])) []
  simp only [List.length_map] at e1 e2 e3 e4
  simp only [Dets.empty, List.nil_append, e1, e2, e3, e4]

theorem nms_idempotent_witness :
    nmsStage ⟨[1, 0], [9 / 10, 7 / 10], [⟨3, 5, 10, 10⟩, ⟨0, 0, 10, 10⟩], [[5], [7]]⟩
        (1 / 4) (3 / 10)
      = .ok ⟨[⟨3, 5, 10, 10⟩, ⟨0, 0, 10, 10⟩], [9 / 10, 7 / 10], [1, 0], [[5], [7]]⟩ ∧
    (∀ r1 r2,
      nmsStage ⟨[0, 1, 0], [7 / 10, 9 / 10, 8 / 10],
        [⟨0, 0, 10, 10⟩, ⟨3, 5, 10, 10⟩, ⟨3, 0, 10, 10⟩], [[7], [5], [6]]⟩ (1 / 4) (3 / 10) = r1 →
      nmsStage ⟨[0, 1, 0], [7 / 10, 9 / 10, 8 / 10],
        [⟨0, 0, 10, 10⟩, ⟨3, 5, 10, 10⟩, ⟨3, 0, 10, 10⟩], [[7], [5], [6]]⟩ (1 / 4) (3 / 10) = r2 →
      r1 = r2) :=
  nms_idempotent
    ⟨[0, 1, 0], [7 / 10, 9 / 10, 8 / 10], [⟨0, 0, 10, 10⟩, ⟨3, 5, 10, 10⟩, ⟨3, 0, 10, 10⟩],
      [[7], [5], [6]]⟩
    (1 / 4) (3 / 10) ⟨[⟨3, 5, 10, 10⟩, ⟨0, 0, 10, 10⟩], [9 / 10, 7 / 10], [1, 0], [[5], [7]]⟩
    (by decide!)

/-- On a buffer holding `n` further rows of the declared width, with at least one class
and a row width of at least `4 + class_names_num`, the row loop runs to completion. -/
theorem decodeLoop_returns (data : List ℚ) (cn dw : Int) (conf : ℚ) (hcn : 1 ≤ cn)
    (hdw : 4 + cn ≤ dw) : ∀ (n : Nat) (p : Int) (st : Cands), 0 ≤ p →
    p + (n : Int) * dw ≤ (data.length : Int) →
    ∃ st1, decodeLoop data cn dw conf n p st = .ok st1 := by
  intro n
  induction n with
  | zero =>
    intro p st _ _
    exact ⟨st, rfl⟩
  | succ n ih =>
    intro p st hp hlen
    have hnn : (0 : Int) ≤ (n : Int) * dw := mul_nonneg (Int.natCast_nonneg n) (by omega)
    have e : ((n + 1 : Nat) : Int) * dw = (n : Int) * dw + dw := by
      push_cast
      ring
    rw [e] at hlen
    have hs := readRange_eq_of_lt data (p + 4) (p + 4 + cn) (by omega) (by omega) (by omega)
    have hne : (data.drop (p + 4).toNat).take (p + 4 + cn - (p + 4)).toNat ≠ [] := by
      intro h0
      have := readRange_length _ _ _ _ hs
      rw [h0] at this
      simp at this
      omega
    obtain ⟨m, k, hm⟩ := minMaxLoc_ok_of_ne_nil _ hne
    have hrow : ∃ st2, decodeRow data cn dw conf p st = .ok st2 := by
      by_cases hc : conf < m
      · obtain ⟨w, h, cx, cy, -, -, -, -, hr⟩ :=
          decodeRow_push data cn dw conf p st _ m k hs hm hc hdw hp (by omega)
        exact ⟨_, hr⟩
      · exact ⟨st, decodeRow_drop data cn dw conf p st _ m k hs hm hc⟩
    obtain ⟨st2, hst2⟩ := hrow
    simp only [decodeLoop, hst2]
    exact ih (p + dw) st2 (by omega) (by omega)

/-- On candidate vectors of equal lengths and with non-negative thresholds the NMS stage
returns. -/
theorem nmsStage_returns (c : Cands) (conf iou : ℚ) (hconf : 0 ≤ conf) (hiou : 0 ≤ iou)
    (h1 : c.class_ids.length = c.confidences.length) (h2 : c.boxes.length = c.confidences.length)
    (h3 : c.rest.length = c.confidences.length) :
    ∃ out, nmsStage c conf iou = .ok out := by
  unfold nmsStage
  rw [NMSBoxes_eq _ _ (f32 conf) iou h2 (f32_nonneg hconf) hiou]
  simp only
  refine ⟨_, gatherLoop_of_inrange c _ Dets.empty ?_⟩
  intro i hi
  obtain ⟨hsub, -⟩ := NMSBoxes_ok_facts _ _ _ _ _
    (NMSBoxes_eq c.boxes c.confidences (f32 conf) iou h2 (f32_nonneg hconf) hiou)
  have hi2 := hsub.subset hi
  simp only [List.mem_map] at hi2
  obtain ⟨p, hp, rfl⟩ := hi2
  have := (GetMaxScoreIndex_mem c.confidences (f32 conf) p hp).1
  omega

/-- C9: on a tensor of `rows` rows of width data_width > 4 + class_names_num (at least
one class, non-negative thresholds) non_max_suppression returns; and whenever it returns,
the returned confidences are in non-increasing order, and the four returned sequences are
the boxes, confidences, class ids and extras of one list of candidate indices, taken in
the same order, each index occurring once and naming a candidate that passed the
confidence filter. -/
theorem non_max_suppression_ordered_aligned (output0 : Mat) (cn dw : Int) (conf iou : ℚ) :
    (1 ≤ cn → 4 + cn < dw → (output0.rows : Int) * dw ≤ (output0.data.length : Int) →
      0 ≤ conf → 0 ≤ iou → ∃ out, non_max_suppression output0 cn dw conf iou = .ok out) ∧
    (∀ out, non_max_suppression output0 cn dw conf iou = .ok out →
      out.confidences.Pairwise (fun a b => a ≥ b) ∧
      ∃ (c : Cands) (idxs : List Nat), decode output0 cn dw conf = .ok c ∧ idxs.Nodup ∧
        (∀ i ∈ idxs, i < c.boxes.length ∧ i < c.confidences.length ∧ i < c.class_ids.length ∧
          i < c.rest.length ∧ conf < c.confidences.getD i 0) ∧
        out.boxes = idxs.map (fun i => c.boxes.getD i Rect.zero) ∧
        out.confidences = idxs.map (fun i => c.confidences.getD i 0) ∧
        out.class_ids = idxs.map (fun i => c.class_ids.getD i 0) ∧
        out.rest = idxs.map (fun i => c.rest.getD i [])) := by
  constructor
  · intro hcn hdw hlen hconf hiou
    obtain ⟨c, hc⟩ := decodeLoop_returns output0.data cn dw conf hcn (by omega) output0.rows 0
      Cands.empty (le_refl 0) (by simpa using hlen)
    have hc2 : decode output0 cn dw conf = .ok c := hc
    obtain ⟨i1, i2, i3, -⟩ := decode_inv output0 cn dw conf c hc2
    obtain ⟨out, hout⟩ := nmsStage_returns c conf iou hconf hiou i1 i2 (i3 hdw)
    refine ⟨out, ?_⟩
    unfold non_max_suppression
    rw [hc2]
    exact hout
  · intro out h
    obtain ⟨c, hc, hst⟩ := non_max_suppression_ok_inv output0 cn dw conf iou out h
    obtain ⟨idxs, hN, hr, rfl⟩ := nmsStage_ok_inv c conf iou out hst
    obtain ⟨hsub, -⟩ := NMSBoxes_ok_facts _ _ _ _ _ hN
    obtain ⟨hsorted, habove⟩ := NMSBoxes_confidences _ _ _ _ _ hN
    refine ⟨hsorted, c, idxs, hc, hsub.nodup (GetMaxScoreIndex_nodup c.confidences (f32 conf)), ?_,
      rfl, rfl, rfl, rfl⟩
    intro i hi
    obtain ⟨r1, r2, r3, r4⟩ := hr i hi
    exact ⟨r3, r2, r1, r4,
      (decode_inv output0 cn dw conf c hc).2.2.2 _ (getD_mem_of_lt c.confidences i 0 r2)⟩

theorem non_max_suppression_ordered_aligned_witness :
    (∃ out, non_max_suppression
        ⟨3, [5, 5, 10, 10, 7 / 10, 1 / 10, 7, 8, 10, 10, 10, 1 / 5, 9 / 10, 5,
          8, 5, 10, 10, 8 / 10, 1 / 10, 6]⟩ 2 7 (1 / 4) (3 / 10) = .ok out) ∧
    (([9 / 10, 8 / 10] : List ℚ).Pairwise (fun a b => a ≥ b) ∧
      ∃ (c : Cands) (idxs : List Nat),
        decode ⟨3, [5, 5, 10, 10, 7 / 10, 1 / 10, 7, 8, 10, 10, 10, 1 / 5, 9 / 10, 5,
          8, 5, 10, 10, 8 / 10, 1 / 10, 6]⟩ 2 7 (1 / 4) = .ok c ∧ idxs.Nodup ∧
        (∀ i ∈ idxs, i < c.boxes.length ∧ i < c.confidences.length ∧ i < c.class_ids.length ∧
          i < c.rest.length ∧ (1 / 4 : ℚ) < c.confidences.getD i 0) ∧
        [(⟨4, 6, 10, 10⟩ : Rect), ⟨4, 0, 10, 10⟩] = idxs.map (fun i => c.boxes.getD i Rect.zero) ∧
        [(9 / 10 : ℚ), 8 / 10] = idxs.map (fun i => c.confidences.getD i 0) ∧
        [(1 : Int), 0] = idxs.map (fun i => c.class_ids.getD i 0) ∧
        [[(5 : ℚ)], [6]] = idxs.map (fun i => c.rest.getD i [])) :=
  ⟨(non_max_suppression_ordered_aligned
      ⟨3, [5, 5, 10, 10, 7 / 10, 1 / 10, 7, 8, 10, 10, 10, 1 / 5, 9 / 10, 5,
        8, 5, 10, 10, 8 / 10, 1 / 10, 6]⟩ 2 7 (1 / 4) (3 / 10)).1
      (by decide) (by decide) (by decide) (by decide!) (by decide!),
   (non_max_suppression_ordered_aligned
      ⟨3, [5, 5, 10, 10, 7 / 10, 1 / 10, 7, 8, 10, 10, 10, 1 / 5, 9 / 10, 5,
        8, 5, 10, 10, 8 / 10, 1 / 10, 6]⟩ 2 7 (1 / 4) (3 / 10)).2
      ⟨[⟨4, 6, 10, 10⟩, ⟨4, 0, 10, 10⟩], [9 / 10, 8 / 10], [1, 0], [[5], [6]]⟩ (by decide!)⟩

theorem stdRound_int_add (k : Int) (e : ℚ) (h1 : -(1 / 2) < e) (h2 : e < 1 / 2) :
    stdRound ((k : ℚ) + e) = k := by
  unfold stdRound
  split_ifs with h
  · rw [Int.floor_eq_iff]
    constructor <;> linarith
  · rw [Int.ceil_eq_iff]
    constructor <;> linarith

theorem stdRound_le (q : ℚ) : ((stdRound q : Int) : ℚ) ≤ q + 1 / 2 := by
  unfold stdRound
  split_ifs with h
  · exact Int.floor_le _
  · have := Int.ceil_lt_add_one (q - 1 / 2)
    linarith

theorem stdRound_ge (q : ℚ) : q - 1 / 2 ≤ ((stdRound q : Int) : ℚ) := by
  unfold stdRound
  split_ifs with h
  · have := Int.lt_floor_add_one (q + 1 / 2)
    linarith
  · exact Int.le_ceil _

theorem stdRound_le_of_le_int (q : ℚ) (n : Int) (h : q ≤ (n : ℚ)) : stdRound q ≤ n := by
  have h1 := stdRound_le q
  have h2 : ((stdRound q : Int) : ℚ) < ((n + 1 : Int) : ℚ) := by
    push_cast
    linarith
  have h3 : stdRound q < n + 1 := by exact_mod_cast h2
  omega

theorem stdRound_ge_of_int_le (q : ℚ) (n : Int) (h : (n : ℚ) ≤ q) : n ≤ stdRound q := by
  have h1 := stdRound_ge q
  have h2 : ((n - 1 : Int) : ℚ) < ((stdRound q : Int) : ℚ) := by
    push_cast
    linarith
  have h3 : n - 1 < stdRound q := by exact_mod_cast h2
  omega


theorem stdRound_eq_of_abs_lt (k : Int) (v : ℚ) (h : |v - (k : ℚ)| < 1 / 2) : stdRound v = k := by
  rw [abs_lt] at h
  have := stdRound_int_add k (v - (k : ℚ)) (by linarith [h.1]) h.2
  rwa [add_sub_cancel] at this

theorem stdRound_nonneg (v : ℚ) (h : -(1 / 2) < v) : 0 ≤ stdRound v := by
  have := stdRound_ge v
  have h2 : ((-1 : Int) : ℚ) < ((stdRound v : Int) : ℚ) := by push_cast; linarith
  have h3 : -1 < stdRound v := by exact_mod_cast h2
  omega

/-! ## Float facts used by the geometry -/

theorem two_zpow_neg_le_one (k : Nat) : (2 : ℚ) ^ (-(k : Int)) ≤ 1 := by
  rw [zpow_neg]
  exact inv_le_one_of_one_le₀ (one_le_zpow₀ (by norm_num) (by positivity))

/-- Halving a float that is zero or not below `2^-125` is exact. -/
theorem f32_half_exact (x : ℚ) (hx : f32 x = x) (h : x = 0 ∨ (2 : ℚ) ^ (-125 : Int) ≤ |x|) :
    f32 (x / 2) = x / 2 := by
  rcases h with h0 | h
  · rw [h0]
    simp [f32_zero]
  · have hx0 : x ≠ 0 := by
      intro h0
      rw [h0, abs_zero] at h
      exact absurd h (not_le.mpr (two_zpow_pos _))
    have hL := le_log_of_zpow_le x hx0 (-125) h
    have hq : qexp 24 (-126) x = Int.log 2 |x| - 23 := by
      rw [qexp_def, max_eq_left (by omega)]
      norm_num
    have hg := two_zpow_pos (qexp 24 (-126) x)
    have hlt := abs_lt_zpow_qexp 24 (-126) x
    have hm : |rint (x / (2 : ℚ) ^ qexp 24 (-126) x)| ≤ 2 ^ 24 := by
      apply abs_rint_le_of_abs_lt
      rw [abs_div, abs_of_pos hg, div_lt_iff₀ hg]
      rw [zpow_add₀ (by norm_num : (2 : ℚ) ≠ 0), zpow_natCast] at hlt
      push_cast
      linarith
    have hrep : x = (rint (x / (2 : ℚ) ^ qexp 24 (-126) x) : ℚ) * (2 : ℚ) ^ qexp 24 (-126) x := by
      have := hx
      unfold f32 roundBinary at this
      exact this.symm
    have e : x / 2 = (rint (x / (2 : ℚ) ^ qexp 24 (-126) x) : ℚ) *
        (2 : ℚ) ^ (qexp 24 (-126) x - 1) := by
      rw [zpow_sub₀ (by norm_num : (2 : ℚ) ≠ 0), zpow_one]
      rw [← mul_div_assoc, ← hrep]
    rw [e]
    exact f32_int_mul_zpow _ _ hm (by omega)

/-- A float of absolute value at least `2^e` is an integer multiple of `2^(e-23)`. -/
theorem f32_multiple (x : ℚ) (hx : f32 x = x) (e : Int)
    (h : (2 : ℚ) ^ e ≤ |x|) : ∃ n : Int, x = (n : ℚ) * (2 : ℚ) ^ (e - 23) := by
  have hx0 : x ≠ 0 := by
    intro h0
    rw [h0, abs_zero] at h
    exact absurd h (not_le.mpr (two_zpow_pos _))
  have hL := le_log_of_zpow_le x hx0 e h
  have hq : e - 23 ≤ qexp 24 (-126) x := by
    rw [qexp_def]
    have := le_max_left (Int.log 2 |x|) (-126)
    push_cast
    omega
  have hrep : x = (rint (x / (2 : ℚ) ^ qexp 24 (-126) x) : ℚ) * (2 : ℚ) ^ qexp 24 (-126) x := by
    have := hx
    unfold f32 roundBinary at this
    exact this.symm
  obtain ⟨n2, hn2⟩ := zpow_eq_multiple (qexp 24 (-126) x) (e - 23) hq
  refine ⟨rint (x / (2 : ℚ) ^ qexp 24 (-126) x) * n2, ?_⟩
  push_cast
  rw [mul_assoc, ← hn2]
  exact hrep

/-- Rounding to float and then to the nearest integer, for an argument below `2^21` that
lies within 0.43 of the integer `k`. -/
theorem stdRound_f32_near (k : Int) (z : ℚ) (hz : |z| < 2097152) (h : |z - (k : ℚ)| ≤ 43 / 100) :
    stdRound (f32 z) = k := by
  have herr := f32_error_of_lt z 21 (by norm_num; exact hz) (by norm_num)
  have e : (2 : ℚ) ^ ((21 : Int) - 25) = 1 / 16 := by norm_num [zpow_neg]
  rw [e] at herr
  apply stdRound_eq_of_abs_lt
  rw [abs_le] at herr h
  rw [abs_lt]
  constructor <;> linarith [herr.1, herr.2, h.1, h.2]

theorem lit01_bounds : (1 / 10 : ℚ) ≤ lit01 ∧ lit01 ≤ 1 / 10 + 1 / 100000000 := by
  rw [lit01_eq]
  constructor <;> norm_num

/-- Conversion of a positive 32-bit dimension to float: between 1 and 2^31, with relative
error at most 2^-24. -/
theorem f32_dim_bounds (n : Int) (h0 : 0 < n) (h1 : n < 2147483648) :
    1 ≤ f32 (n : ℚ) ∧ f32 (n : ℚ) ≤ 2147483648 ∧
      |f32 (n : ℚ) - (n : ℚ)| ≤ (n : ℚ) * (2 : ℚ) ^ (-24 : Int) := by
  have hn1 : (1 : ℚ) ≤ (n : ℚ) := by exact_mod_cast h0
  have hn2 : (n : ℚ) ≤ 2147483648 := by exact_mod_cast (le_of_lt h1)
  have hrep : f32 (2147483648 : ℚ) = 2147483648 := by
    have := f32_int_mul_zpow 1 31 (by norm_num) (by norm_num)
    norm_num at this
    exact this
  refine ⟨le_f32_of_le f32_one hn1, f32_le_of_le hrep hn2, ?_⟩
  exact f32_error_le (n : ℚ) (n : ℚ) (by rw [abs_of_nonneg (by linarith)])
    (le_trans (two_zpow_neg_le_one 126) hn1)

theorem f32_small_dim (n : Int) (h0 : 0 ≤ n) (h1 : n ≤ 16777216) : f32 (n : ℚ) = (n : ℚ) :=
  f32_intCast n (by rw [abs_of_nonneg h0]; exact h1)

/-- The float quotient `t / s` of a target dimension below 2^22 by a source dimension:
positive, at most 2^22, and the float source dimension times the quotient exceeds the
target dimension by at most a quarter. -/
theorem ratio_facts (s t : Int) (hs : 0 < s) (hsr : s < 2147483648) (ht : 0 < t)
    (htr : t < 4194304) :
    (2 : ℚ) ^ (-31 : Int) ≤ f32 (f32 (t : ℚ) / f32 (s : ℚ)) ∧
    f32 (f32 (t : ℚ) / f32 (s : ℚ)) ≤ 4194304 ∧
    f32 (s : ℚ) * f32 (f32 (t : ℚ) / f32 (s : ℚ)) ≤ (t : ℚ) + 1 / 4 := by
  obtain ⟨b1, b2, -⟩ := f32_dim_bounds s hs hsr
  have ha : f32 (t : ℚ) = (t : ℚ) := f32_small_dim t (le_of_lt ht) (by omega)
  rw [ha]
  have ht1 : (1 : ℚ) ≤ (t : ℚ) := by exact_mod_cast ht
  have ht2 : (t : ℚ) ≤ 4194304 := by exact_mod_cast (le_of_lt htr)
  have hb0 : (0 : ℚ) < f32 (s : ℚ) := by linarith
  generalize f32 (s : ℚ) = b at b1 b2 hb0
  have c31 : (2 : ℚ) ^ (-31 : Int) = 1 / 2147483648 := by norm_num [zpow_neg]
  have c126 : (2 : ℚ) ^ (-126 : Int) ≤ (2 : ℚ) ^ (-31 : Int) :=
    zpow_le_zpow_right₀ (by norm_num) (by norm_num)
  have hq0 : (2 : ℚ) ^ (-31 : Int) ≤ (t : ℚ) / b := by
    rw [c31, div_le_div_iff₀ (by norm_num) hb0]
    nlinarith
  have hq1 : (t : ℚ) / b ≤ 4194304 := by
    rw [div_le_iff₀ hb0]
    nlinarith
  have r31 : f32 ((2 : ℚ) ^ (-31 : Int)) = (2 : ℚ) ^ (-31 : Int) := by
    have := f32_int_mul_zpow 1 (-31) (by norm_num) (by norm_num)
    simpa using this
  have r22 : f32 (4194304 : ℚ) = 4194304 := by
    have := f32_intCast 4194304 (by norm_num)
    simpa using this
  refine ⟨le_f32_of_le r31 hq0, f32_le_of_le r22 hq1, ?_⟩
  have herr := f32_error_le ((t : ℚ) / b) ((t : ℚ) / b)
    (by rw [abs_of_nonneg (le_trans (le_of_lt (two_zpow_pos _)) hq0)])
    (le_trans c126 hq0)
  rw [abs_le] at herr
  have c24 : (2 : ℚ) ^ (-24 : Int) = 1 / 16777216 := by norm_num [zpow_neg]
  rw [c24] at herr
  have h1 : f32 ((t : ℚ) / b) ≤ (t : ℚ) / b + (t : ℚ) / b * (1 / 16777216) := by linarith [herr.2]
  have h2 : b * f32 ((t : ℚ) / b) ≤ b * ((t : ℚ) / b + (t : ℚ) / b * (1 / 16777216)) :=
    mul_le_mul_of_nonneg_left h1 (le_of_lt hb0)
  have h3 : b * ((t : ℚ) / b + (t : ℚ) / b * (1 / 16777216)) = (t : ℚ) + (t : ℚ) / 16777216 := by
    field_simp
    ring
  rw [h3] at h2
  linarith

/-- The scale of `letterbox` for a target below 2^22 in both dimensions: positive, and the
float source dimensions times the scale exceed the target dimensions by at most a quarter. -/
theorem letterboxScale_facts (shape newShape : Size) (scaleUp : Bool)
    (hsw : 0 < shape.width) (hsh : 0 < shape.height)
    (hswr : shape.width < 2147483648) (hshr : shape.height < 2147483648)
    (htw : 0 < newShape.width) (hth : 0 < newShape.height)
    (htwr : newShape.width < 4194304) (hthr : newShape.height < 4194304) :
    (2 : ℚ) ^ (-31 : Int) ≤ letterboxScale shape newShape scaleUp ∧
    letterboxScale shape newShape scaleUp ≤ 4194304 ∧
    f32 (shape.width : ℚ) * letterboxScale shape newShape scaleUp ≤ (newShape.width : ℚ) + 1 / 4 ∧
    f32 (shape.height : ℚ) * letterboxScale shape newShape scaleUp
      ≤ (newShape.height : ℚ) + 1 / 4 := by
  obtain ⟨w1, w2, w3⟩ := ratio_facts shape.width newShape.width hsw hswr htw htwr
  obtain ⟨h1, h2, h3⟩ := ratio_facts shape.height newShape.height hsh hshr hth hthr
  obtain ⟨bw, -, -⟩ := f32_dim_bounds shape.width hsw hswr
  obtain ⟨bh, -, -⟩ := f32_dim_bounds shape.height hsh hshr
  have c31 : (2 : ℚ) ^ (-31 : Int) ≤ 1 := two_zpow_neg_le_one 31
  have hmin0 : (2 : ℚ) ^ (-31 : Int) ≤ min (f32 (f32 (newShape.height : ℚ) / f32 (shape.height : ℚ)))
      (f32 (f32 (newShape.width : ℚ) / f32 (shape.width : ℚ))) := le_min h1 w1
  have hminw : f32 (shape.width : ℚ) * min (f32 (f32 (newShape.height : ℚ) / f32 (shape.height : ℚ)))
      (f32 (f32 (newShape.width : ℚ) / f32 (shape.width : ℚ))) ≤ (newShape.width : ℚ) + 1 / 4 :=
    le_trans (mul_le_mul_of_nonneg_left (min_le_right _ _) (by linarith)) w3
  have hminh : f32 (shape.height : ℚ) * min (f32 (f32 (newShape.height : ℚ) / f32 (shape.height : ℚ)))
      (f32 (f32 (newShape.width : ℚ) / f32 (shape.width : ℚ))) ≤ (newShape.height : ℚ) + 1 / 4 :=
    le_trans (mul_le_mul_of_nonneg_left (min_le_left _ _) (by linarith)) h3
  unfold letterboxScale
  simp only
  cases scaleUp with
  | true =>
    simp only [if_true]
    exact ⟨hmin0, le_trans (min_le_right _ _) w2, hminw, hminh⟩
  | false =>
    simp only [Bool.false_eq_true, if_false]
    refine ⟨le_min hmin0 c31, le_trans (min_le_left _ _) (le_trans (min_le_right _ _) w2), ?_, ?_⟩
    · exact le_trans (mul_le_mul_of_nonneg_left (min_le_left _ _) (by linarith)) hminw
    · exact le_trans (mul_le_mul_of_nonneg_left (min_le_left _ _) (by linarith)) hminh

/-- The scaled source dimension `u = float(s) * r` of `letterbox` and its rounding: when the
exact product is at most `t + 1/4` with `t < 2^22`, the float product is too, and the
rounded size lies in `[0, t]`. -/
theorem scaled_dim_facts (b r : ℚ) (t : Int) (hb : 0 ≤ b) (hr : 0 ≤ r) (ht : 0 < t)
    (htr : t < 4194304) (h : b * r ≤ (t : ℚ) + 1 / 4) :
    0 ≤ f32 (b * r) ∧ f32 (b * r) ≤ (t : ℚ) + 1 / 4 ∧
    0 ≤ stdRound (f32 (b * r)) ∧ stdRound (f32 (b * r)) ≤ t := by
  have h0 : 0 ≤ f32 (b * r) := f32_nonneg (mul_nonneg hb hr)
  have hrep : f32 ((t : ℚ) + 1 / 4) = (t : ℚ) + 1 / 4 := by
    have := f32_quarters (4 * t + 1) (by rw [abs_of_nonneg (by omega)]; omega)
    have e : (((4 * t + 1 : Int) : ℚ)) / 4 = (t : ℚ) + 1 / 4 := by push_cast; ring
    rwa [e] at this
  have h1 : f32 (b * r) ≤ (t : ℚ) + 1 / 4 := f32_le_of_le hrep h
  refine ⟨h0, h1, stdRound_nonneg _ (by linarith), ?_⟩
  have h2 := stdRound_le (f32 (b * r))
  have h3 : ((stdRound (f32 (b * r)) : Int) : ℚ) < ((t + 1 : Int) : ℚ) := by
    push_cast
    linarith
  have h4 : stdRound (f32 (b * r)) < t + 1 := by exact_mod_cast h3
  omega

/-- The split of an integer `0 ≤ D < 2^22` into the borders `round(D/2 - 0.1f)` and
`round(D/2 + 0.1f)`, computed in float: the two halves of `D`, the smaller one first. -/
theorem border_split (D : Int) (h0 : 0 ≤ D) (h1 : D < 4194304) :
    stdRound (f32 (f32 ((D : ℚ) / 2) - lit01)) + stdRound (f32 (f32 ((D : ℚ) / 2) + lit01)) = D ∧
    (stdRound (f32 (f32 ((D : ℚ) / 2) + lit01)) - stdRound (f32 (f32 ((D : ℚ) / 2) - lit01)) = 0 ∨
      stdRound (f32 (f32 ((D : ℚ) / 2) + lit01)) - stdRound (f32 (f32 ((D : ℚ) / 2) - lit01)) = 1) ∧
    0 ≤ stdRound (f32 (f32 ((D : ℚ) / 2) - lit01)) ∧
    stdRound (f32 (f32 ((D : ℚ) / 2) - lit01)) = D / 2 := by
  obtain ⟨l1, l2⟩ := lit01_bounds
  have hh : f32 ((D : ℚ) / 2) = (D : ℚ) / 2 :=
    f32_halves D (by rw [abs_of_nonneg h0]; omega)
  rw [hh]
  have hDq0 : (0 : ℚ) ≤ (D : ℚ) := by exact_mod_cast h0
  have hDq1 : (D : ℚ) ≤ 4194303 := by exact_mod_cast (by omega : D ≤ 4194303)
  rcases Int.even_or_odd' D with ⟨k, hk | hk⟩
  · have hkq : (D : ℚ) / 2 = (k : ℚ) := by rw [hk]; push_cast; ring
    have e1 : stdRound (f32 ((D : ℚ) / 2 - lit01)) = k := by
      apply stdRound_f32_near
      · rw [abs_lt]; constructor <;> linarith
      · rw [hkq, abs_le]; constructor <;> linarith
    have e2 : stdRound (f32 ((D : ℚ) / 2 + lit01)) = k := by
      apply stdRound_f32_near
      · rw [abs_lt]; constructor <;> linarith
      · rw [hkq, abs_le]; constructor <;> linarith
    rw [e1, e2]
    refine ⟨by omega, Or.inl (by omega), by omega, by omega⟩
  · have hkq : (D : ℚ) / 2 = (k : ℚ) + 1 / 2 := by rw [hk]; push_cast; ring
    have e1 : stdRound (f32 ((D : ℚ) / 2 - lit01)) = k := by
      apply stdRound_f32_near
      · rw [abs_lt]; constructor <;> linarith
      · rw [hkq, abs_le]; constructor <;> linarith
    have e2 : stdRound (f32 ((D : ℚ) / 2 + lit01)) = k + 1 := by
      apply stdRound_f32_near
      · rw [abs_lt]; constructor <;> linarith
      · rw [hkq, abs_le]; push_cast; constructor <;> linarith
    rw [e1, e2]
    refine ⟨by omega, Or.inr (by omega), by omega, by omega⟩

/-! ## letterbox -/

theorem letterboxBorders_split (r : ℚ) (nW nH Dw Dh : Int) (hw0 : 0 ≤ Dw) (hw1 : Dw < 4194304)
    (hh0 : 0 ≤ Dh) (hh1 : Dh < 4194304) :
    (letterboxBorders r nW nH (Dw : ℚ) (Dh : ℚ)).r = r ∧
    (letterboxBorders r nW nH (Dw : ℚ) (Dh : ℚ)).newUnpadW = nW ∧
    (letterboxBorders r nW nH (Dw : ℚ) (Dh : ℚ)).newUnpadH = nH ∧
    (letterboxBorders r nW nH (Dw : ℚ) (Dh : ℚ)).left
      + (letterboxBorders r nW nH (Dw : ℚ) (Dh : ℚ)).right = Dw ∧
    (letterboxBorders r nW nH (Dw : ℚ) (Dh : ℚ)).top
      + (letterboxBorders r nW nH (Dw : ℚ) (Dh : ℚ)).bottom = Dh ∧
    ((letterboxBorders r nW nH (Dw : ℚ) (Dh : ℚ)).right
        - (letterboxBorders r nW nH (Dw : ℚ) (Dh : ℚ)).left = 0 ∨
      (letterboxBorders r nW nH (Dw : ℚ) (Dh : ℚ)).right
        - (letterboxBorders r nW nH (Dw : ℚ) (Dh : ℚ)).left = 1) ∧
    ((letterboxBorders r nW nH (Dw : ℚ) (Dh : ℚ)).bottom
        - (letterboxBorders r nW nH (Dw : ℚ) (Dh : ℚ)).top = 0 ∨
      (letterboxBorders r nW nH (Dw : ℚ) (Dh : ℚ)).bottom
        - (letterboxBorders r nW nH (Dw : ℚ) (Dh : ℚ)).top = 1) ∧
    0 ≤ (letterboxBorders r nW nH (Dw : ℚ) (Dh : ℚ)).left ∧
    0 ≤ (letterboxBorders r nW nH (Dw : ℚ) (Dh : ℚ)).top ∧
    (letterboxBorders r nW nH (Dw : ℚ) (Dh : ℚ)).left = Dw / 2 ∧
    (letterboxBorders r nW nH (Dw : ℚ) (Dh : ℚ)).top = Dh / 2 := by
  obtain ⟨w1, w2, w3, w4⟩ := border_split Dw hw0 hw1
  obtain ⟨h1, h2, h3, h4⟩ := border_split Dh hh0 hh1
  exact ⟨rfl, rfl, rfl, w1, h1, w2, h2, w3, h3, w4, h4⟩

theorem letterboxParams_plain (shape newShape : Size) (scaleUp : Bool) (stride : Int) :
    letterboxParams shape newShape false false scaleUp stride =
      letterboxBorders (letterboxScale shape newShape scaleUp)
        (stdRound (f32 (f32 (shape.width : ℚ) * letterboxScale shape newShape scaleUp)))
        (stdRound (f32 (f32 (shape.height : ℚ) * letterboxScale shape newShape scaleUp)))
        (f32 ((newShape.width - stdRound (f32 (f32 (shape.width : ℚ) *
          letterboxScale shape newShape scaleUp)) : Int) : ℚ))
        (f32 ((newShape.height - stdRound (f32 (f32 (shape.height : ℚ) *
          letterboxScale shape newShape scaleUp)) : Int) : ℚ)) := by
  rfl

theorem letterboxParams_fill (shape newShape : Size) (scaleUp : Bool) (stride : Int) :
    letterboxParams shape newShape false true scaleUp stride =
      letterboxBorders (f32 (f32 (newShape.width : ℚ) / f32 (shape.width : ℚ)))
        newShape.width newShape.height ((0 : Int) : ℚ) ((0 : Int) : ℚ) := by
  simp [letterboxParams]

/-- The sizes that `letterbox` computes before padding, for a target below 2^22: the
resized image fits into the target and the remaining widths `dw`, `dh` are the exact
integer differences. -/
theorem letterbox_resized_facts (shape newShape : Size) (scaleUp : Bool)
    (hsw : 0 < shape.width) (hsh : 0 < shape.height)
    (hswr : shape.width < 2147483648) (hshr : shape.height < 2147483648)
    (htw : 0 < newShape.width) (hth : 0 < newShape.height)
    (htwr : newShape.width < 4194304) (hthr : newShape.height < 4194304) :
    0 ≤ stdRound (f32 (f32 (shape.width : ℚ) * letterboxScale shape newShape scaleUp)) ∧
    stdRound (f32 (f32 (shape.width : ℚ) * letterboxScale shape newShape scaleUp))
      ≤ newShape.width ∧
    0 ≤ stdRound (f32 (f32 (shape.height : ℚ) * letterboxScale shape newShape scaleUp)) ∧
    stdRound (f32 (f32 (shape.height : ℚ) * letterboxScale shape newShape scaleUp))
      ≤ newShape.height ∧
    f32 ((newShape.width - stdRound (f32 (f32 (shape.width : ℚ) *
        letterboxScale shape newShape scaleUp)) : Int) : ℚ)
      = ((newShape.width - stdRound (f32 (f32 (shape.width : ℚ) *
        letterboxScale shape newShape scaleUp)) : Int) : ℚ) ∧
    f32 ((newShape.height - stdRound (f32 (f32 (shape.height : ℚ) *
        letterboxScale shape newShape scaleUp)) : Int) : ℚ)
      = ((newShape.height - stdRound (f32 (f32 (shape.height : ℚ) *
        letterboxScale shape newShape scaleUp)) : Int) : ℚ) := by
  obtain ⟨r0, -, rw, rh⟩ := letterboxScale_facts shape newShape scaleUp hsw hsh hswr hshr
    htw hth htwr hthr
  have hr : 0 ≤ letterboxScale shape newShape scaleUp :=
    le_trans (le_of_lt (two_zpow_pos _)) r0
  obtain ⟨bw, -, -⟩ := f32_dim_bounds shape.width hsw hswr
  obtain ⟨bh, -, -⟩ := f32_dim_bounds shape.height hsh hshr
  obtain ⟨-, -, w3, w4⟩ := scaled_dim_facts (f32 (shape.width : ℚ))
    (letterboxScale shape newShape scaleUp) newShape.width (by linarith) hr htw htwr rw
  obtain ⟨-, -, h3, h4⟩ := scaled_dim_facts (f32 (shape.height : ℚ))
    (letterboxScale shape newShape scaleUp) newShape.height (by linarith) hr hth hthr rh
  exact ⟨w3, w4, h3, h4, f32_small_dim _ (by omega) (by omega), f32_small_dim _ (by omega) (by omega)⟩

/-- Geometry of `letterbox` without `auto_`, target below 2^22: the borders complete the
resized image to the target size, are non-negative and differ by at most one. -/
theorem letterboxParams_noauto (shape newShape : Size) (scaleFill scaleUp : Bool) (stride : Int)
    (hsw : 0 < shape.width) (hsh : 0 < shape.height)
    (hswr : shape.width < 2147483648) (hshr : shape.height < 2147483648)
    (htw : 0 < newShape.width) (hth : 0 < newShape.height)
    (htwr : newShape.width < 4194304) (hthr : newShape.height < 4194304) :
    (letterboxParams shape newShape false scaleFill scaleUp stride).newUnpadW
      + (letterboxParams shape newShape false scaleFill scaleUp stride).left
      + (letterboxParams shape newShape false scaleFill scaleUp stride).right = newShape.width ∧
    (letterboxParams shape newShape false scaleFill scaleUp stride).newUnpadH
      + (letterboxParams shape newShape false scaleFill scaleUp stride).top
      + (letterboxParams shape newShape false scaleFill scaleUp stride).bottom = newShape.height ∧
    0 ≤ (letterboxParams shape newShape false scaleFill scaleUp stride).left ∧
    0 ≤ (letterboxParams shape newShape false scaleFill scaleUp stride).right ∧
    0 ≤ (letterboxParams shape newShape false scaleFill scaleUp stride).top ∧
    0 ≤ (letterboxParams shape newShape false scaleFill scaleUp stride).bottom ∧
    ((letterboxParams shape newShape false scaleFill scaleUp stride).right
        - (letterboxParams shape newShape false scaleFill scaleUp stride).left = 0 ∨
      (letterboxParams shape newShape false scaleFill scaleUp stride).right
        - (letterboxParams shape newShape false scaleFill scaleUp stride).left = 1) ∧
    ((letterboxParams shape newShape false scaleFill scaleUp stride).bottom
        - (letterboxParams shape newShape false scaleFill scaleUp stride).top = 0 ∨
      (letterboxParams shape newShape false scaleFill scaleUp stride).bottom
        - (letterboxParams shape newShape false scaleFill scaleUp stride).top = 1) := by
  cases scaleFill with
  | true =>
    rw [letterboxParams_fill]
    obtain ⟨-, e2, e3, e4, e5, e6, e7, e8, e9, -, -⟩ := letterboxBorders_split
      (f32 (f32 (newShape.width : ℚ) / f32 (shape.width : ℚ))) newShape.width newShape.height 0 0
      (le_refl 0) (by norm_num) (le_refl 0) (by norm_num)
    refine ⟨by omega, by omega, e8, by omega, e9, by omega, e6, e7⟩
  | false =>
    rw [letterboxParams_plain]
    obtain ⟨w0, w1, h0, h1, fw, fh⟩ := letterbox_resized_facts shape newShape scaleUp hsw hsh
      hswr hshr htw hth htwr hthr
    rw [fw, fh]
    obtain ⟨-, e2, e3, e4, e5, e6, e7, e8, e9, -, -⟩ := letterboxBorders_split
      (letterboxScale shape newShape scaleUp)
      (stdRound (f32 (f32 (shape.width : ℚ) * letterboxScale shape newShape scaleUp)))
      (stdRound (f32 (f32 (shape.height : ℚ) * letterboxScale shape newShape scaleUp)))
      (newShape.width - stdRound (f32 (f32 (shape.width : ℚ) *
        letterboxScale shape newShape scaleUp)))
      (newShape.height - stdRound (f32 (f32 (shape.height : ℚ) *
        letterboxScale shape newShape scaleUp)))
      (by omega) (by omega) (by omega) (by omega)
    rw [e2, e3]
    refine ⟨by omega, by omega, e8, by omega, e9, by omega, e6, e7⟩

/-- C12 (amended): for a source size with positive int dimensions, a target size with
positive dimensions below 2^22 and auto_ = false (scaleFill, scaleUp arbitrary) the borders
left = round(dw/2 - 0.1f), right = round(dw/2 + 0.1f), top, bottom computed by letterbox in
float arithmetic satisfy newUnpadW + left + right = T.width and newUnpadH + top + bottom =
T.height, are all non-negative, and right - left, bottom - top are 0 or 1; so every image
that letterbox produces has exactly size T, and it produces one whenever the resized size
is not empty. -/
theorem letterbox_exact_size (shape newShape : Size) (scaleFill scaleUp : Bool) (stride : Int)
    (hsw : 0 < shape.width) (hsh : 0 < shape.height)
    (hswr : shape.width < 2147483648) (hshr : shape.height < 2147483648)
    (htw : 0 < newShape.width) (hth : 0 < newShape.height)
    (htwr : newShape.width < 4194304) (hthr : newShape.height < 4194304) :
    ((letterboxParams shape newShape false scaleFill scaleUp stride).newUnpadW
      + (letterboxParams shape newShape false scaleFill scaleUp stride).left
      + (letterboxParams shape newShape false scaleFill scaleUp stride).right = newShape.width ∧
    (letterboxParams shape newShape false scaleFill scaleUp stride).newUnpadH
      + (letterboxParams shape newShape false scaleFill scaleUp stride).top
      + (letterboxParams shape newShape false scaleFill scaleUp stride).bottom = newShape.height ∧
    0 ≤ (letterboxParams shape newShape false scaleFill scaleUp stride).left ∧
    0 ≤ (letterboxParams shape newShape false scaleFill scaleUp stride).right ∧
    0 ≤ (letterboxParams shape newShape false scaleFill scaleUp stride).top ∧
    0 ≤ (letterboxParams shape newShape false scaleFill scaleUp stride).bottom ∧
    ((letterboxParams shape newShape false scaleFill scaleUp stride).right
        - (letterboxParams shape newShape false scaleFill scaleUp stride).left = 0 ∨
      (letterboxParams shape newShape false scaleFill scaleUp stride).right
        - (letterboxParams shape newShape false scaleFill scaleUp stride).left = 1) ∧
    ((letterboxParams shape newShape false scaleFill scaleUp stride).bottom
        - (letterboxParams shape newShape false scaleFill scaleUp stride).top = 0 ∨
      (letterboxParams shape newShape false scaleFill scaleUp stride).bottom
        - (letterboxParams shape newShape false scaleFill scaleUp stride).top = 1)) ∧
    (∀ out, letterbox shape newShape false scaleFill scaleUp stride = .ok out → out = newShape) ∧
    (0 < (letterboxParams shape newShape false scaleFill scaleUp stride).newUnpadW →
      0 < (letterboxParams shape newShape false scaleFill scaleUp stride).newUnpadH →
      letterbox shape newShape false scaleFill scaleUp stride = .ok newShape) := by
  have hp := letterboxParams_noauto shape newShape scaleFill scaleUp stride hsw hsh hswr hshr
    htw hth htwr hthr
  obtain ⟨h1, h2, h3, h4, h5, h6, h7, h8⟩ := hp
  refine ⟨⟨h1, h2, h3, h4, h5, h6, h7, h8⟩, ?_, ?_⟩
  · intro out hout
    unfold letterbox at hout
    simp only at hout
    split_ifs at hout with c1 c2
    simp only [Except.ok.injEq] at hout
    rw [← hout, h1, h2]
  · intro hW hH
    unfold letterbox
    simp only
    rw [if_neg (by omega), if_neg (by omega), h1, h2]

theorem letterbox_exact_size_witness :
    letterbox ⟨1000, 329⟩ ⟨640, 640⟩ false false true 32 = .ok ⟨640, 640⟩ :=
  (letterbox_exact_size ⟨1000, 329⟩ ⟨640, 640⟩ false true 32
    (by decide) (by decide) (by decide) (by decide) (by decide) (by decide) (by decide)
    (by decide)).2.2 (by decide!) (by decide!)

/-- C12 as stated fails for a very wide target: a 1 x 1 source letterboxed to 4194306 x 1
(auto_ = false, scaleFill = false) has dw = 4194305 and dw/2 = 2097152.5; in float
arithmetic both dw/2 - 0.1f and dw/2 + 0.1f round to 2097152.5, so left = right = 2097153
and the produced image is 4194307 wide, one more than the target. -/
theorem letterbox_wide_target_misses_size :
    letterboxParams ⟨1, 1⟩ ⟨4194306, 1⟩ false false true 32
      = ⟨1, 1, 1, 0, 0, 2097153, 2097153⟩ ∧
    letterbox ⟨1, 1⟩ ⟨4194306, 1⟩ false false true 32 = .ok ⟨4194307, 1⟩ := by
  refine ⟨by decide!, by decide!⟩

theorem truncInt_of_nonneg (q : ℚ) (h : 0 ≤ q) : truncInt q = Int.floor q := by
  unfold truncInt
  rw [if_pos h]

/-- On a non-negative integer and a positive integer divisor `std::fmod` is the integer
remainder. -/
theorem fmod_int (D s : Int) (hD : 0 ≤ D) (hs : 1 ≤ s) :
    fmod (D : ℚ) (s : ℚ) = ((D % s : Int) : ℚ) := by
  have hsq : (0 : ℚ) < (s : ℚ) := by exact_mod_cast (by omega : 0 < s)
  have hDq : (0 : ℚ) ≤ (D : ℚ) := by exact_mod_cast hD
  have hfl : Int.floor ((D : ℚ) / (s : ℚ)) = D / s := by
    have h := Rat.floor_intCast_div_natCast D s.toNat
    have hcast : ((s.toNat : Int)) = s := Int.toNat_of_nonneg (by omega)
    have hq : ((s.toNat : ℕ) : ℚ) = (s : ℚ) := by
      have h1 : (((s.toNat : ℕ) : Int) : ℚ) = (s : ℚ) := by rw [hcast]
      rw [← h1]
      exact (Int.cast_natCast s.toNat).symm
    rw [hq, hcast] at h
    exact h
  unfold fmod
  rw [truncInt_of_nonneg _ (div_nonneg hDq (le_of_lt hsq)), hfl]
  have := Int.emod_def D s
  rw [this]
  push_cast
  ring

theorem letterboxParams_auto (shape newShape : Size) (scaleFill scaleUp : Bool) (stride : Int) :
    letterboxParams shape newShape true scaleFill scaleUp stride =
      letterboxBorders (letterboxScale shape newShape scaleUp)
        (stdRound (f32 (f32 (shape.width : ℚ) * letterboxScale shape newShape scaleUp)))
        (stdRound (f32 (f32 (shape.height : ℚ) * letterboxScale shape newShape scaleUp)))
        (f32 (fmod (f32 ((newShape.width - stdRound (f32 (f32 (shape.width : ℚ) *
          letterboxScale shape newShape scaleUp)) : Int) : ℚ)) (stride : ℚ)))
        (f32 (fmod (f32 ((newShape.height - stdRound (f32 (f32 (shape.height : ℚ) *
          letterboxScale shape newShape scaleUp)) : Int) : ℚ)) (stride : ℚ))) := by
  rfl

/-- The remainder that `letterbox` pads with `auto_`: for `0 ≤ D < 2^22` and `stride ≥ 1`
the float `fmod` of the float `D` is the integer remainder `D % stride`. -/
theorem f32_fmod_dim (D stride : Int) (h0 : 0 ≤ D) (h1 : D < 4194304) (hs : 1 ≤ stride) :
    f32 (fmod (f32 (D : ℚ)) (stride : ℚ)) = ((D % stride : Int) : ℚ) ∧
    0 ≤ D % stride ∧ D % stride < 4194304 := by
  have hnn := Int.emod_nonneg D (by omega : stride ≠ 0)
  have hle : D % stride ≤ D := by
    have h2 := Int.emod_def D stride
    have h3 : 0 ≤ stride * (D / stride) :=
      mul_nonneg (by omega) (Int.ediv_nonneg h0 (by omega))
    omega
  rw [f32_small_dim D h0 (by omega), fmod_int D stride h0 hs,
    f32_small_dim _ hnn (by omega)]
  exact ⟨rfl, hnn, by omega⟩

theorem smallest_multiple (s n w : Int) (hs : 1 ≤ s) (hdvd : s ∣ w) (hlt : w < n + s) :
    ∀ m, s ∣ m → n ≤ m → w ≤ m := by
  intro m hm hnm
  by_contra hcon
  push_neg at hcon
  obtain ⟨a, rfl⟩ := hdvd
  obtain ⟨b, rfl⟩ := hm
  have hab : b < a := by
    by_contra h
    push_neg at h
    have : s * a ≤ s * b := Int.mul_le_mul_of_nonneg_left h (by omega)
    omega
  have : s * (b + 1) ≤ s * a := Int.mul_le_mul_of_nonneg_left (by omega) (by omega)
  have e : s * (b + 1) = s * b + s := by ring
  omega

/-- Geometry of `letterbox` with `auto_`, target below 2^22: width and height of the padded
image. -/
theorem letterboxParams_auto_size (shape newShape : Size) (scaleFill scaleUp : Bool)
    (stride : Int) (hsw : 0 < shape.width) (hsh : 0 < shape.height)
    (hswr : shape.width < 2147483648) (hshr : shape.height < 2147483648)
    (htw : 0 < newShape.width) (hth : 0 < newShape.height)
    (htwr : newShape.width < 4194304) (hthr : newShape.height < 4194304) (hs : 1 ≤ stride) :
    (letterboxParams shape newShape true scaleFill scaleUp stride).newUnpadW
      + (letterboxParams shape newShape true scaleFill scaleUp stride).left
      + (letterboxParams shape newShape true scaleFill scaleUp stride).right
      = (letterboxParams shape newShape true scaleFill scaleUp stride).newUnpadW
        + (newShape.width
          - (letterboxParams shape newShape true scaleFill scaleUp stride).newUnpadW) % stride ∧
    (letterboxParams shape newShape true scaleFill scaleUp stride).newUnpadH
      + (letterboxParams shape newShape true scaleFill scaleUp stride).top
      + (letterboxParams shape newShape true scaleFill scaleUp stride).bottom
      = (letterboxParams shape newShape true scaleFill scaleUp stride).newUnpadH
        + (newShape.height
          - (letterboxParams shape newShape true scaleFill scaleUp stride).newUnpadH) % stride ∧
    (letterboxParams shape newShape true scaleFill scaleUp stride).newUnpadW ≤ newShape.width ∧
    (letterboxParams shape newShape true scaleFill scaleUp stride).newUnpadH ≤ newShape.height ∧
    0 ≤ (letterboxParams shape newShape true scaleFill scaleUp stride).left ∧
    0 ≤ (letterboxParams shape newShape true scaleFill scaleUp stride).right ∧
    0 ≤ (letterboxParams shape newShape true scaleFill scaleUp stride).top ∧
    0 ≤ (letterboxParams shape newShape true scaleFill scaleUp stride).bottom := by
  rw [letterboxParams_auto]
  obtain ⟨w0, w1, h0, h1, -, -⟩ := letterbox_resized_facts shape newShape scaleUp hsw hsh
    hswr hshr htw hth htwr hthr
  obtain ⟨fw, mw0, mw1⟩ := f32_fmod_dim (newShape.width - stdRound (f32 (f32 (shape.width : ℚ) *
    letterboxScale shape newShape scaleUp))) stride (by omega) (by omega) hs
  obtain ⟨fh, mh0, mh1⟩ := f32_fmod_dim (newShape.height - stdRound (f32 (f32 (shape.height : ℚ) *
    letterboxScale shape newShape scaleUp))) stride (by omega) (by omega) hs
  rw [fw, fh]
  obtain ⟨-, e2, e3, e4, e5, e6, e7, e8, e9, -, -⟩ := letterboxBorders_split
    (letterboxScale shape newShape scaleUp)
    (stdRound (f32 (f32 (shape.width : ℚ) * letterboxScale shape newShape scaleUp)))
    (stdRound (f32 (f32 (shape.height : ℚ) * letterboxScale shape newShape scaleUp)))
    ((newShape.width - stdRound (f32 (f32 (shape.width : ℚ) *
      letterboxScale shape newShape scaleUp))) % stride)
    ((newShape.height - stdRound (f32 (f32 (shape.height : ℚ) *
      letterboxScale shape newShape scaleUp))) % stride)
    mw0 mw1 mh0 mh1
  rw [e2, e3]
  refine ⟨by omega, by omega, w1, h1, e8, by omega, e9, by omega⟩

/-- C13 (amended): with auto_ = true, stride ≥ 1, a source size with positive int
dimensions and a target size with positive dimensions below 2^22 whose width and height
are multiples of stride, the padded size computed by letterbox is
stride-aligned: width newUnpadW + left + right and height newUnpadH + top + bottom are
multiples of stride and each is the smallest multiple of stride that is ≥ the unpadded
size; letterbox returns that size whenever the resized size is not empty. -/
theorem letterbox_auto_stride_aligned (shape newShape : Size) (scaleFill scaleUp : Bool)
    (stride : Int) (hsw : 0 < shape.width) (hsh : 0 < shape.height)
    (hswr : shape.width < 2147483648) (hshr : shape.height < 2147483648)
    (htw : 0 < newShape.width) (hth : 0 < newShape.height)
    (htwr : newShape.width < 4194304) (hthr : newShape.height < 4194304) (hs : 1 ≤ stride)
    (hdw : stride ∣ newShape.width) (hdh : stride ∣ newShape.height) :
    (stride ∣ (letterboxParams shape newShape true scaleFill scaleUp stride).newUnpadW
        + (letterboxParams shape newShape true scaleFill scaleUp stride).left
        + (letterboxParams shape newShape true scaleFill scaleUp stride).right ∧
      (letterboxParams shape newShape true scaleFill scaleUp stride).newUnpadW
        ≤ (letterboxParams shape newShape true scaleFill scaleUp stride).newUnpadW
          + (letterboxParams shape newShape true scaleFill scaleUp stride).left
          + (letterboxParams shape newShape true scaleFill scaleUp stride).right ∧
      ∀ m, stride ∣ m →
        (letterboxParams shape newShape true scaleFill scaleUp stride).newUnpadW ≤ m →
        (letterboxParams shape newShape true scaleFill scaleUp stride).newUnpadW
          + (letterboxParams shape newShape true scaleFill scaleUp stride).left
          + (letterboxParams shape newShape true scaleFill scaleUp stride).right ≤ m) ∧
    (stride ∣ (letterboxParams shape newShape true scaleFill scaleUp stride).newUnpadH
        + (letterboxParams shape newShape true scaleFill scaleUp stride).top
        + (letterboxParams shape newShape true scaleFill scaleUp stride).bottom ∧
      (letterboxParams shape newShape true scaleFill scaleUp stride).newUnpadH
        ≤ (letterboxParams shape newShape true scaleFill scaleUp stride).newUnpadH
          + (letterboxParams shape newShape true scaleFill scaleUp stride).top
          + (letterboxParams shape newShape true scaleFill scaleUp stride).bottom ∧
      ∀ m, stride ∣ m →
        (letterboxParams shape newShape true scaleFill scaleUp stride).newUnpadH ≤ m →
        (letterboxParams shape newShape true scaleFill scaleUp stride).newUnpadH
          + (letterboxParams shape newShape true scaleFill scaleUp stride).top
          + (letterboxParams shape newShape true scaleFill scaleUp stride).bottom ≤ m) ∧
    (0 < (letterboxParams shape newShape true scaleFill scaleUp stride).newUnpadW →
      0 < (letterboxParams shape newShape true scaleFill scaleUp stride).newUnpadH →
      letterbox shape newShape true scaleFill scaleUp stride = .ok
        { width := (letterboxParams shape newShape true scaleFill scaleUp stride).newUnpadW
            + (letterboxParams shape newShape true scaleFill scaleUp stride).left
            + (letterboxParams shape newShape true scaleFill scaleUp stride).right
          height := (letterboxParams shape newShape true scaleFill scaleUp stride).newUnpadH
            + (letterboxParams shape newShape true scaleFill scaleUp stride).top
            + (letterboxParams shape newShape true scaleFill scaleUp stride).bottom }) := by
  obtain ⟨ew, eh, hW, hH, l0, r0, t0, b0⟩ :=
    letterboxParams_auto_size shape newShape scaleFill scaleUp stride hsw hsh hswr hshr htw hth
      htwr hthr hs
  have key : ∀ T n : Int, stride ∣ T → n ≤ T →
      stride ∣ n + (T - n) % stride ∧ n ≤ n + (T - n) % stride ∧
      ∀ m, stride ∣ m → n ≤ m → n + (T - n) % stride ≤ m := by
    intro T n hT hn
    have hnn := Int.emod_nonneg (T - n) (by omega : stride ≠ 0)
    have hlt := Int.emod_lt_of_pos (T - n) (by omega : 0 < stride)
    have hd : stride ∣ n + (T - n) % stride := by
      have e : n + (T - n) % stride = T - stride * ((T - n) / stride) := by
        rw [Int.emod_def]
        ring
      rw [e]
      exact dvd_sub hT (dvd_mul_right _ _)
    exact ⟨hd, by omega, smallest_multiple stride n _ hs hd (by omega)⟩
  refine ⟨?_, ?_, ?_⟩
  · rw [ew]
    exact key _ _ hdw hW
  · rw [eh]
    exact key _ _ hdh hH
  · intro pw ph
    unfold letterbox
    simp only
    rw [if_neg (by omega), if_neg (by omega)]

theorem letterbox_auto_stride_aligned_witness :
    letterbox ⟨100, 50⟩ ⟨128, 128⟩ true false true 32 = .ok
      { width := (letterboxParams ⟨100, 50⟩ ⟨128, 128⟩ true false true 32).newUnpadW
          + (letterboxParams ⟨100, 50⟩ ⟨128, 128⟩ true false true 32).left
          + (letterboxParams ⟨100, 50⟩ ⟨128, 128⟩ true false true 32).right
        height := (letterboxParams ⟨100, 50⟩ ⟨128, 128⟩ true false true 32).newUnpadH
          + (letterboxParams ⟨100, 50⟩ ⟨128, 128⟩ true false true 32).top
          + (letterboxParams ⟨100, 50⟩ ⟨128, 128⟩ true false true 32).bottom } :=
  (letterbox_auto_stride_aligned ⟨100, 50⟩ ⟨128, 128⟩ false true 32
    (by decide) (by decide) (by decide) (by decide) (by decide) (by decide) (by decide)
    (by decide) (by decide) (by decide) (by decide)).2.2
    (by decide!) (by decide!)

/-- C13 as stated fails. A 100 x 50 source, target 100 x 100, stride 32 and auto_ = true
give an output of 100 x 68; neither 100 nor 68 is a multiple of 32 (the unpadded content
is 100 x 50, whose smallest stride-aligned cover is 128 x 64). And for a very large
stride-aligned target the float borders miss the remainder: a 3 x 12582924 source with
target 4194308 x 4194308 and stride 4194308 has unpadded content 1 x 4194308 and remainder
dw = 4194307, but left = right = 2097154, so the output is 4194309 wide, not a multiple of
the stride. -/
theorem letterbox_auto_not_aligned :
    (letterbox ⟨100, 50⟩ ⟨100, 100⟩ true false true 32 = .ok ⟨100, 68⟩ ∧
      (letterboxParams ⟨100, 50⟩ ⟨100, 100⟩ true false true 32).newUnpadW = 100 ∧
      (letterboxParams ⟨100, 50⟩ ⟨100, 100⟩ true false true 32).newUnpadH = 50 ∧
      ¬ ((32 : Int) ∣ 100) ∧ ¬ ((32 : Int) ∣ 68)) ∧
    (letterbox ⟨3, 12582924⟩ ⟨4194308, 4194308⟩ true false true 4194308
        = .ok ⟨4194309, 4194308⟩ ∧
      (letterboxParams ⟨3, 12582924⟩ ⟨4194308, 4194308⟩ true false true 4194308).newUnpadW = 1 ∧
      (4194308 : Int) ∣ 4194308 ∧ ¬ ((4194308 : Int) ∣ 4194309)) := by
  refine ⟨⟨by decide!, by decide!, by decide!, by decide, by decide⟩,
    ⟨by decide!, by decide!, by decide, by decide⟩⟩

/-! ## scale_boxes against letterbox -/

theorem scale_boxes_params_sentinel (img1_shape img0_shape : Size) :
    scale_boxes_params img1_shape img0_shape RatioPad.sentinel =
      { gain := letterboxScale img0_shape img1_shape true
        pad_x := (stdRound (f32 (f32 (f32 (f32 (img1_shape.width : ℚ) -
          f32 (f32 (img0_shape.width : ℚ) * letterboxScale img0_shape img1_shape true)) / 2)
            - lit01)) : ℚ)
        pad_y := (stdRound (f32 (f32 (f32 (f32 (img1_shape.height : ℚ) -
          f32 (f32 (img0_shape.height : ℚ) * letterboxScale img0_shape img1_shape true)) / 2)
            - lit01)) : ℚ) } := by
  unfold scale_boxes_params
  rw [if_pos (by unfold RatioPad.sentinel; norm_num)]
  rfl

/-- Halving the float difference of an `int` and a float is exact: the difference is zero or
far above the subnormal range. -/
theorem f32_sub_half_exact (T : Int) (u : ℚ) (hT : 1 ≤ T) (hu : f32 u = u) :
    f32 (f32 ((T : ℚ) - u) / 2) = f32 ((T : ℚ) - u) / 2 := by
  apply f32_half_exact _ (f32_idem _)
  have hfl : f32 ((2 : ℚ) ^ (-125 : Int)) = (2 : ℚ) ^ (-125 : Int) := by
    have := f32_int_mul_zpow 1 (-125) (by norm_num) (by norm_num)
    simpa using this
  by_cases h0 : (T : ℚ) - u = 0
  · left; rw [h0, f32_zero]
  right
  have hbig : (2 : ℚ) ^ (-125 : Int) ≤ |(T : ℚ) - u| := by
    by_contra hcon
    push_neg at hcon
    have hs : (2 : ℚ) ^ (-125 : Int) ≤ 1 / 4 := by
      rw [show (1 / 4 : ℚ) = (2 : ℚ) ^ (-2 : Int) by norm_num]
      exact zpow_le_zpow_right₀ (by norm_num) (by norm_num)
    have hT1 : (1 : ℚ) ≤ (T : ℚ) := by exact_mod_cast hT
    obtain ⟨ha, hb⟩ := abs_lt.mp hcon
    have hu12 : (1 : ℚ) / 2 ≤ u := by
      clear hfl hcon
      generalize (2 : ℚ) ^ (-125 : Int) = c at hs hb
      linarith
    have hu1 : (2 : ℚ) ^ (-1 : Int) ≤ |u| := by
      rw [abs_of_nonneg (by linarith)]
      norm_num
      linarith
    obtain ⟨n, hn⟩ := f32_multiple u hu (-1) hu1
    have e : (T : ℚ) - u = ((T * 16777216 - n : Int) : ℚ) * (2 : ℚ) ^ (-24 : Int) := by
      rw [hn]
      push_cast
      norm_num
      ring
    have hne : T * 16777216 - n ≠ 0 := by
      intro hz
      rw [hz] at e
      simp at e
      exact h0 (by linarith)
    have h1 : (1 : ℚ) ≤ |((T * 16777216 - n : Int) : ℚ)| := by
      rw [← Int.cast_abs]
      exact_mod_cast Int.one_le_abs hne
    rw [e, abs_mul, abs_of_pos (two_zpow_pos _)] at hcon
    have h2 : (2 : ℚ) ^ (-24 : Int) ≤ |((T * 16777216 - n : Int) : ℚ)| * (2 : ℚ) ^ (-24 : Int) := by
      have := mul_le_mul_of_nonneg_right h1 (le_of_lt (two_zpow_pos (-24)))
      linarith
    have h3 : (2 : ℚ) ^ (-125 : Int) ≤ (2 : ℚ) ^ (-24 : Int) :=
      zpow_le_zpow_right₀ (by norm_num) (by norm_num)
    linarith
  rcases le_abs.mp hbig with h | h
  · rw [abs_of_nonneg (le_trans (le_of_lt (two_zpow_pos _)) (le_f32_of_le hfl h))]
    exact le_f32_of_le hfl h
  · have h5 : f32 ((T : ℚ) - u) ≤ -(2 : ℚ) ^ (-125 : Int) := by
      apply f32_le_of_le (by rw [f32_neg, hfl])
      linarith
    rw [abs_of_nonpos (by linarith [two_zpow_pos (-125 : Int)])]
    linarith

theorem cast_between (a b : Int) (h1 : a ≤ b) (h2 : b ≤ a + 1) :
    (a : ℚ) ≤ (b : ℚ) ∧ (b : ℚ) ≤ (a : ℚ) + 1 :=
  ⟨by exact_mod_cast h1, by exact_mod_cast h2⟩

/-- The padding that `scale_boxes` recomputes from the float scaled size `u` against the
border that letterbox derives from the rounded size `round(u)`: equal or one more, and
equal when `u` is an integer. -/
theorem recomputed_pad_vs_border (T : Int) (u : ℚ) (hT0 : 0 < T) (hT : T < 4194304)
    (hu : f32 u = u) (hu0 : 0 ≤ u) (hu1 : u ≤ (T : ℚ) + 1 / 4) :
    stdRound (f32 (f32 (((T - stdRound u : Int) : ℚ) / 2) - lit01))
        ≤ stdRound (f32 (f32 (f32 ((T : ℚ) - u) / 2) - lit01)) ∧
    stdRound (f32 (f32 (f32 ((T : ℚ) - u) / 2) - lit01))
        ≤ stdRound (f32 (f32 (((T - stdRound u : Int) : ℚ) / 2) - lit01)) + 1 ∧
    (u = ((stdRound u : Int) : ℚ) →
      stdRound (f32 (f32 (f32 ((T : ℚ) - u) / 2) - lit01))
        = stdRound (f32 (f32 (((T - stdRound u : Int) : ℚ) / 2) - lit01))) := by
  obtain ⟨l1, l2⟩ := lit01_bounds
  have h1 := stdRound_le u
  have h2 := stdRound_ge u
  have hTq : (T : ℚ) ≤ 4194303 := by exact_mod_cast (by omega : T ≤ 4194303)
  have hT1 : (1 : ℚ) ≤ (T : ℚ) := by exact_mod_cast hT0
  have hn0 : 0 ≤ stdRound u := stdRound_nonneg u (by linarith)
  have hnT : stdRound u ≤ T := by
    have h3 : ((stdRound u : Int) : ℚ) < ((T + 1 : Int) : ℚ) := by
      push_cast
      linarith
    have h4 : stdRound u < T + 1 := by exact_mod_cast h3
    omega
  have hcast : ((T - stdRound u : Int) : ℚ) = (T : ℚ) - ((stdRound u : Int) : ℚ) := by
    push_cast; ring
  have hTf : f32 (T : ℚ) = (T : ℚ) := f32_small_dim T (by omega) (by omega)
  have hq : f32 ((-1 : ℚ) / 4) = (-1 : ℚ) / 4 := by
    have := f32_quarters (-1) (by norm_num)
    simpa using this
  -- the float difference `v1` and its distance from the exact difference
  have hv1e : |f32 ((T : ℚ) - u) - ((T : ℚ) - u)| ≤ 1 / 8 := by
    have := f32_error_of_lt ((T : ℚ) - u) 22 (by
      rw [abs_lt]; constructor <;> norm_num <;> linarith) (by norm_num)
    norm_num at this
    linarith
  have hv1u : f32 ((T : ℚ) - u) ≤ (T : ℚ) := f32_le_of_le hTf (by linarith)
  have hv1l : (-1 : ℚ) / 4 ≤ f32 ((T : ℚ) - u) := le_f32_of_le hq (by linarith)
  rw [f32_sub_half_exact T u (by omega) hu]
  obtain ⟨e1, e2⟩ := abs_le.mp hv1e
  have hzabs : |f32 ((T : ℚ) - u) / 2 - lit01| < 2097152 := by
    rw [abs_lt]; constructor <;> linarith
  have hze : |f32 (f32 ((T : ℚ) - u) / 2 - lit01) - (f32 ((T : ℚ) - u) / 2 - lit01)|
      ≤ 1 / 16 := by
    have := f32_error_of_lt (f32 ((T : ℚ) - u) / 2 - lit01) 21 (by
      norm_num; exact hzabs) (by norm_num)
    norm_num at this
    linarith
  obtain ⟨z1, z2⟩ := abs_le.mp hze
  obtain ⟨-, -, -, hleft⟩ := border_split (T - stdRound u) (by omega) (by omega)
  rw [hleft]
  have hpad : (T - stdRound u) / 2 ≤ stdRound (f32 (f32 ((T : ℚ) - u) / 2 - lit01)) ∧
      stdRound (f32 (f32 ((T : ℚ) - u) / 2 - lit01)) ≤ (T - stdRound u) / 2 + 1 := by
    rcases Int.even_or_odd' (T - stdRound u) with ⟨k, hk | hk⟩
    · have hD : ((T : ℚ) - ((stdRound u : Int) : ℚ)) = 2 * (k : ℚ) := by
        rw [← hcast, hk]; push_cast; ring
      have e : stdRound (f32 (f32 ((T : ℚ) - u) / 2 - lit01)) = k := by
        apply stdRound_f32_near _ _ hzabs
        rw [abs_le]; constructor <;> linarith
      rw [e, hk]
      omega
    · have hD : ((T : ℚ) - ((stdRound u : Int) : ℚ)) = 2 * (k : ℚ) + 1 := by
        rw [← hcast, hk]; push_cast; ring
      have hk2 : (T - stdRound u) / 2 = k := by omega
      rw [hk2]
      constructor
      · apply stdRound_ge_of_int_le
        linarith
      · apply stdRound_le_of_le_int
        push_cast
        linarith
  refine ⟨hpad.1, hpad.2, ?_⟩
  intro hint
  have hD : (T : ℚ) - u = ((T - stdRound u : Int) : ℚ) := by rw [hcast, ← hint]
  have hDf : f32 (((T - stdRound u : Int) : ℚ)) = ((T - stdRound u : Int) : ℚ) :=
    f32_small_dim _ (by omega) (by omega)
  have hh : f32 (((T - stdRound u : Int) : ℚ) / 2) = ((T - stdRound u : Int) : ℚ) / 2 :=
    f32_halves _ (by rw [abs_of_nonneg (by omega)]; omega)
  rw [hD, hDf, ← hh]
  exact hleft

theorem sentinel_gain (img1_shape img0_shape : Size) :
    (scale_boxes_params img1_shape img0_shape RatioPad.sentinel).gain
      = letterboxScale img0_shape img1_shape true := by
  rw [scale_boxes_params_sentinel]

theorem letterboxParams_plain_r (shape newShape : Size) (scaleUp : Bool) (stride : Int) :
    (letterboxParams shape newShape false false scaleUp stride).r
      = letterboxScale shape newShape scaleUp := by
  rw [letterboxParams_plain]
  rfl

/-- The padding of `scale_boxes` in sentinel mode against the borders of letterbox, for a
target below 2^22. -/
theorem sentinel_pad_facts (shape newShape : Size) (stride : Int)
    (hsw : 0 < shape.width) (hsh : 0 < shape.height)
    (hswr : shape.width < 2147483648) (hshr : shape.height < 2147483648)
    (htw : 0 < newShape.width) (hth : 0 < newShape.height)
    (htwr : newShape.width < 4194304) (hthr : newShape.height < 4194304) :
    (((letterboxParams shape newShape false false true stride).left : ℚ)
        ≤ (scale_boxes_params newShape shape RatioPad.sentinel).pad_x ∧
      (scale_boxes_params newShape shape RatioPad.sentinel).pad_x
        ≤ ((letterboxParams shape newShape false false true stride).left : ℚ) + 1) ∧
    (((letterboxParams shape newShape false false true stride).top : ℚ)
        ≤ (scale_boxes_params newShape shape RatioPad.sentinel).pad_y ∧
      (scale_boxes_params newShape shape RatioPad.sentinel).pad_y
        ≤ ((letterboxParams shape newShape false false true stride).top : ℚ) + 1) ∧
    (f32 (f32 (shape.width : ℚ) * (letterboxParams shape newShape false false true stride).r)
        = ((letterboxParams shape newShape false false true stride).newUnpadW : ℚ) →
      (scale_boxes_params newShape shape RatioPad.sentinel).pad_x
        = ((letterboxParams shape newShape false false true stride).left : ℚ)) ∧
    (f32 (f32 (shape.height : ℚ) * (letterboxParams shape newShape false false true stride).r)
        = ((letterboxParams shape newShape false false true stride).newUnpadH : ℚ) →
      (scale_boxes_params newShape shape RatioPad.sentinel).pad_y
        = ((letterboxParams shape newShape false false true stride).top : ℚ)) := by
  rw [scale_boxes_params_sentinel, letterboxParams_plain]
  obtain ⟨g0, g1, gw, gh⟩ := letterboxScale_facts shape newShape true hsw hsh hswr hshr htw hth
    htwr hthr
  have hg0 : 0 ≤ letterboxScale shape newShape true := le_trans (le_of_lt (two_zpow_pos _)) g0
  obtain ⟨bw0, -, -⟩ := f32_dim_bounds shape.width hsw hswr
  obtain ⟨bh0, -, -⟩ := f32_dim_bounds shape.height hsh hshr
  obtain ⟨uw0, uw1, -, -⟩ := scaled_dim_facts (f32 (shape.width : ℚ))
    (letterboxScale shape newShape true) newShape.width (by linarith) hg0 htw htwr gw
  obtain ⟨uh0, uh1, -, -⟩ := scaled_dim_facts (f32 (shape.height : ℚ))
    (letterboxScale shape newShape true) newShape.height (by linarith) hg0 hth hthr gh
  obtain ⟨-, -, -, -, fw, fh⟩ := letterbox_resized_facts shape newShape true hsw hsh hswr hshr
    htw hth htwr hthr
  rw [fw, fh]
  obtain ⟨x1, x2, x3⟩ := recomputed_pad_vs_border newShape.width
    (f32 (f32 (shape.width : ℚ) * letterboxScale shape newShape true)) htw htwr (f32_idem _)
    uw0 uw1
  obtain ⟨y1, y2, y3⟩ := recomputed_pad_vs_border newShape.height
    (f32 (f32 (shape.height : ℚ) * letterboxScale shape newShape true)) hth hthr (f32_idem _)
    uh0 uh1
  rw [f32_small_dim newShape.width (by omega) (by omega),
    f32_small_dim newShape.height (by omega) (by omega)]
  exact ⟨cast_between _ _ x1 x2, cast_between _ _ y1 y2,
    fun h => congrArg (fun z : Int => (z : ℚ)) (x3 h),
    fun h => congrArg (fun z : Int => (z : ℚ)) (y3 h)⟩

/-- C18 (amended): in sentinel mode scale_boxes recomputes the gain as exactly the scale r
of letterbox (auto_ = false, scaleFill = false, scaleUp = true). For a source with positive
int dimensions and a target with positive dimensions below 2^22 its padding is rounded
from the unrounded scaled size while letterbox rounds the scaled size first: pad_x is left
or left + 1 and pad_y is top or top + 1, with equality on an axis whenever the float
scaled source size on that axis is an integer. -/
theorem scale_boxes_recomputes_letterbox (shape newShape : Size) (stride : Int) :
    (scale_boxes_params newShape shape RatioPad.sentinel).gain
      = (letterboxParams shape newShape false false true stride).r ∧
    (0 < shape.width → 0 < shape.height → shape.width < 2147483648 →
      shape.height < 2147483648 → 0 < newShape.width → 0 < newShape.height →
      newShape.width < 4194304 → newShape.height < 4194304 →
      (((letterboxParams shape newShape false false true stride).left : ℚ)
          ≤ (scale_boxes_params newShape shape RatioPad.sentinel).pad_x ∧
        (scale_boxes_params newShape shape RatioPad.sentinel).pad_x
          ≤ ((letterboxParams shape newShape false false true stride).left : ℚ) + 1) ∧
      (((letterboxParams shape newShape false false true stride).top : ℚ)
          ≤ (scale_boxes_params newShape shape RatioPad.sentinel).pad_y ∧
        (scale_boxes_params newShape shape RatioPad.sentinel).pad_y
          ≤ ((letterboxParams shape newShape false false true stride).top : ℚ) + 1) ∧
      (f32 (f32 (shape.width : ℚ) * (letterboxParams shape newShape false false true stride).r)
          = ((letterboxParams shape newShape false false true stride).newUnpadW : ℚ) →
        (scale_boxes_params newShape shape RatioPad.sentinel).pad_x
          = ((letterboxParams shape newShape false false true stride).left : ℚ)) ∧
      (f32 (f32 (shape.height : ℚ) * (letterboxParams shape newShape false false true stride).r)
          = ((letterboxParams shape newShape false false true stride).newUnpadH : ℚ) →
        (scale_boxes_params newShape shape RatioPad.sentinel).pad_y
          = ((letterboxParams shape newShape false false true stride).top : ℚ))) := by
  refine ⟨?_, ?_⟩
  · rw [sentinel_gain, letterboxParams_plain_r]
  · intro hsw hsh hswr hshr htw hth htwr hthr
    exact sentinel_pad_facts shape newShape stride hsw hsh hswr hshr htw hth htwr hthr

theorem scale_boxes_recomputes_letterbox_witness :
    (scale_boxes_params ⟨640, 640⟩ ⟨1000, 500⟩ RatioPad.sentinel).pad_x
        = ((letterboxParams ⟨1000, 500⟩ ⟨640, 640⟩ false false true 32).left : ℚ) ∧
    (scale_boxes_params ⟨640, 640⟩ ⟨1000, 500⟩ RatioPad.sentinel).pad_y
        = ((letterboxParams ⟨1000, 500⟩ ⟨640, 640⟩ false false true 32).top : ℚ) :=
  ⟨((scale_boxes_recomputes_letterbox ⟨1000, 500⟩ ⟨640, 640⟩ 32).2 (by decide) (by decide)
      (by decide) (by decide) (by decide) (by decide) (by decide) (by decide)).2.2.1
      (by decide!),
   ((scale_boxes_recomputes_letterbox ⟨1000, 500⟩ ⟨640, 640⟩ 32).2 (by decide) (by decide)
      (by decide) (by decide) (by decide) (by decide) (by decide) (by decide)).2.2.2
      (by decide!)⟩

/-- C18 as stated fails: for a 1000 x 329 source and a 640 x 640 target letterbox pads 214
rows on top (scaled height 210.56 rounded to 211 first), while scale_boxes in sentinel mode
uses pad_y = 215. For targets beyond 2^22 the float steps lose whole pixels and the
recomputed padding can also fall below the border: a 772 x 3274 source with target
4194545 x 35 has left = 2097269 and pad_x = 2097268. -/
theorem scale_boxes_pad_differs_from_letterbox :
    ((letterboxParams ⟨1000, 329⟩ ⟨640, 640⟩ false false true 32).top = 214 ∧
      (letterboxParams ⟨1000, 329⟩ ⟨640, 640⟩ false false true 32).left = 0 ∧
      (scale_boxes_params ⟨640, 640⟩ ⟨1000, 329⟩ RatioPad.sentinel).pad_y = 215 ∧
      (scale_boxes_params ⟨640, 640⟩ ⟨1000, 329⟩ RatioPad.sentinel).pad_x = 0) ∧
    ((letterboxParams ⟨772, 3274⟩ ⟨4194545, 35⟩ false false true 32).left = 2097269 ∧
      (scale_boxes_params ⟨4194545, 35⟩ ⟨772, 3274⟩ RatioPad.sentinel).pad_x = 2097268) := by
  refine ⟨⟨by decide!, by decide!, by decide!, by decide!⟩, ⟨by decide!, by decide!⟩⟩

/-- Evaluations in which the float rounding decides the result. A 15 x 24 source letterboxed
to 100 x 100 has r = float(100/24) below 25/6, the scaled width is 62.499996 and not 62.5,
so newUnpadW = 62 and left = right = 19. For a 1500 x 1080 original and a 640 x 640 network
input the float padding (640 - 460.80002) / 2 - 0.1f is 89.49999 and not 89.5, so
pad_y = 89, and the box (320, 320, 10, 10) maps back to (750, 541.40625, 23.4375, 23.4375). -/
theorem float_rounding_evaluations :
    letterboxParams ⟨15, 24⟩ ⟨100, 100⟩ false false true 32
      = ⟨8738133 / 2097152, 62, 100, 0, 0, 19, 19⟩ ∧
    scale_boxes_params ⟨640, 640⟩ ⟨1500, 1080⟩ RatioPad.sentinel
      = ⟨7158279 / 16777216, 0, 89⟩ ∧
    scale_boxes ⟨640, 640⟩ ⟨320, 320, 10, 10⟩ ⟨1500, 1080⟩ RatioPad.sentinel true
      = ⟨750, 17325 / 32, 375 / 16, 375 / 16⟩ := by
  refine ⟨by decide!, by decide!, by decide!⟩

/-! ## The letterbox round trip -/

/-- Clamping `d` to `[0, c]` keeps it as close to a point `x` of `[0, W]` as `d` is, when
the gap `W - c` is within the same bound. -/
theorem clamp_error (d x c W E : ℚ) (hx0 : 0 ≤ x) (hxW : x ≤ W) (hc0 : 0 ≤ c)
    (hd : |d - x| ≤ E) (hc : W - c ≤ E) : |max 0 (min d c) - x| ≤ E := by
  obtain ⟨d1, d2⟩ := abs_le.mp hd
  rw [abs_le]
  rcases le_total d c with h | h
  · rw [min_eq_left h]
    rcases le_total 0 d with h0 | h0
    · rw [max_eq_right h0]; constructor <;> linarith
    · rw [max_eq_left h0]; constructor <;> linarith
  · rw [min_eq_right h, max_eq_right hc0]
    constructor <;> linarith

theorem clamp_le (d c : ℚ) (hc0 : 0 ≤ c) : max 0 (min d c) ≤ c :=
  max_le hc0 (min_le_right _ _)

/-- One coordinate mapped forward (`x * r + L`) and back (`(· - P) / r`) in float
arithmetic, for a padding `P` within `δ` above the border `L`. -/
theorem round_trip_coord (x r P : ℚ) (L T : Int) (δ : ℚ)
    (hr : 0 < r) (hr1 : r ≤ 4194304) (hT0 : 0 < T) (hT1 : T < 4194304)
    (hx0 : 0 ≤ x) (hxr : x * r ≤ (T : ℚ) + 1)
    (hL0 : 0 ≤ L) (hL1 : L ≤ T) (hP0 : (L : ℚ) ≤ P) (hP1 : P ≤ (L : ℚ) + δ) (hδ : δ ≤ 1) :
    |f32 (f32 (f32 (f32 (x * r) + (L : ℚ)) - P) / r) - x|
      ≤ δ / r + 7 * (((T : ℚ) + 1) / 16777216 / r) := by
  have hTq : (T : ℚ) ≤ 4194303 := by exact_mod_cast (by omega : T ≤ 4194303)
  have hT1q : (1 : ℚ) ≤ (T : ℚ) := by exact_mod_cast hT0
  have hLq0 : (0 : ℚ) ≤ (L : ℚ) := by exact_mod_cast hL0
  have hLq1 : (L : ℚ) ≤ (T : ℚ) := by exact_mod_cast hL1
  have hMf : f32 ((T : ℚ) + 1) = (T : ℚ) + 1 := by
    have := f32_small_dim (T + 1) (by omega) (by omega)
    push_cast at this
    exact this
  have h2Mf : f32 (2 * ((T : ℚ) + 1)) = 2 * ((T : ℚ) + 1) := by
    have := f32_small_dim (2 * (T + 1)) (by omega) (by omega)
    push_cast at this
    exact this
  have hLf : f32 (L : ℚ) = (L : ℚ) := f32_small_dim L hL0 (by omega)
  have hsmall : (2 : ℚ) ^ (-126 : Int) ≤ 1 := by
    have := two_zpow_neg_le_one 126
    simpa using this
  have he24 : (2 : ℚ) ^ (-24 : Int) = 1 / 16777216 := by norm_num
  have hxr0 : 0 ≤ x * r := mul_nonneg hx0 (le_of_lt hr)
  -- a = f32 (x * r)
  have ha0 : 0 ≤ f32 (x * r) := f32_nonneg hxr0
  have ha1 : f32 (x * r) ≤ (T : ℚ) + 1 := f32_le_of_le hMf hxr
  have hae := f32_error_le (x * r) ((T : ℚ) + 1) (by rw [abs_of_nonneg hxr0]; exact hxr)
    (by linarith)
  rw [he24] at hae
  obtain ⟨ae1, ae2⟩ := abs_le.mp hae
  -- b = f32 (a + L)
  have hb0 : (L : ℚ) ≤ f32 (f32 (x * r) + (L : ℚ)) := le_f32_of_le hLf (by linarith)
  have hb1 : f32 (f32 (x * r) + (L : ℚ)) ≤ 2 * ((T : ℚ) + 1) :=
    f32_le_of_le h2Mf (by linarith)
  have hbe := f32_error_le (f32 (x * r) + (L : ℚ)) (2 * ((T : ℚ) + 1))
    (by rw [abs_of_nonneg (by linarith)]; linarith) (by linarith)
  rw [he24] at hbe
  obtain ⟨be1, be2⟩ := abs_le.mp hbe
  -- c = f32 (b - P)
  have hn2Mf : f32 (-(2 * ((T : ℚ) + 1))) = -(2 * ((T : ℚ) + 1)) := by rw [f32_neg, h2Mf]
  have hc0 : -(2 * ((T : ℚ) + 1)) ≤ f32 (f32 (f32 (x * r) + (L : ℚ)) - P) :=
    le_f32_of_le hn2Mf (by linarith)
  have hc1 : f32 (f32 (f32 (x * r) + (L : ℚ)) - P) ≤ 2 * ((T : ℚ) + 1) :=
    f32_le_of_le h2Mf (by linarith)
  have hce := f32_error_le (f32 (f32 (x * r) + (L : ℚ)) - P) (2 * ((T : ℚ) + 1))
    (by rw [abs_le]; constructor <;> linarith) (by linarith)
  rw [he24] at hce
  obtain ⟨ce1, ce2⟩ := abs_le.mp hce
  -- d = f32 (c / r)
  have hcabs : |f32 (f32 (f32 (x * r) + (L : ℚ)) - P) / r| ≤ 2 * ((T : ℚ) + 1) / r := by
    rw [abs_div, abs_of_pos hr]
    apply div_le_div_of_nonneg_right _ (le_of_lt hr)
    rw [abs_le]
    exact ⟨hc0, hc1⟩
  have hB : (2 : ℚ) ^ (-126 : Int) ≤ 2 * ((T : ℚ) + 1) / r := by
    rw [le_div_iff₀ hr]
    have h1 : (2 : ℚ) ^ (-126 : Int) * r ≤ 1 * r :=
      mul_le_mul_of_nonneg_right hsmall (le_of_lt hr)
    have h2 : (2 : ℚ) ^ (-126 : Int) * r ≤ (2 : ℚ) ^ (-126 : Int) * 4194304 :=
      mul_le_mul_of_nonneg_left hr1 (le_of_lt (two_zpow_pos _))
    have h3 : (2 : ℚ) ^ (-126 : Int) * 4194304 ≤ 1 := by norm_num
    linarith
  have hde := f32_error_le (f32 (f32 (f32 (x * r) + (L : ℚ)) - P) / r)
    (2 * ((T : ℚ) + 1) / r) hcabs hB
  rw [he24] at hde
  -- the exact part
  have hr0 : r ≠ 0 := ne_of_gt hr
  have hsplit : f32 (f32 (f32 (x * r) + (L : ℚ)) - P) / r - x
      = (f32 (f32 (f32 (x * r) + (L : ℚ)) - P) - x * r) / r := by
    field_simp
    ring
  have hnum : |f32 (f32 (f32 (x * r) + (L : ℚ)) - P) - x * r|
      ≤ δ + 5 * (((T : ℚ) + 1) / 16777216) := by
    rw [abs_le]
    constructor <;> linarith
  have hq : |f32 (f32 (f32 (x * r) + (L : ℚ)) - P) / r - x|
      ≤ (δ + 5 * (((T : ℚ) + 1) / 16777216)) / r := by
    rw [hsplit, abs_div, abs_of_pos hr]
    exact div_le_div_of_nonneg_right hnum (le_of_lt hr)
  have e1 : (δ + 5 * (((T : ℚ) + 1) / 16777216)) / r
      = δ / r + 5 * (((T : ℚ) + 1) / 16777216 / r) := by ring
  have e2 : 2 * ((T : ℚ) + 1) / r * (1 / 16777216) = 2 * (((T : ℚ) + 1) / 16777216 / r) := by
    ring
  rw [e1] at hq
  rw [e2] at hde
  obtain ⟨q1, q2⟩ := abs_le.mp hq
  obtain ⟨d1, d2⟩ := abs_le.mp hde
  rw [abs_le]
  constructor <;> linarith

/-- One extent mapped forward (`w * r`) and back (`· / r`) in float arithmetic. -/
theorem round_trip_extent (w r : ℚ) (T : Int)
    (hr : 0 < r) (hr1 : r ≤ 4194304) (hT0 : 0 < T) (hT1 : T < 4194304)
    (hw0 : 0 ≤ w) (hwr : w * r ≤ (T : ℚ) + 1) :
    |f32 (f32 (w * r) / r) - w| ≤ 2 * (((T : ℚ) + 1) / 16777216 / r) := by
  have hTq : (T : ℚ) ≤ 4194303 := by exact_mod_cast (by omega : T ≤ 4194303)
  have hT1q : (1 : ℚ) ≤ (T : ℚ) := by exact_mod_cast hT0
  have hMf : f32 ((T : ℚ) + 1) = (T : ℚ) + 1 := by
    have := f32_small_dim (T + 1) (by omega) (by omega)
    push_cast at this
    exact this
  have hsmall : (2 : ℚ) ^ (-126 : Int) ≤ 1 := by
    have := two_zpow_neg_le_one 126
    simpa using this
  have he24 : (2 : ℚ) ^ (-24 : Int) = 1 / 16777216 := by norm_num
  have hwr0 : 0 ≤ w * r := mul_nonneg hw0 (le_of_lt hr)
  have ha0 : 0 ≤ f32 (w * r) := f32_nonneg hwr0
  have ha1 : f32 (w * r) ≤ (T : ℚ) + 1 := f32_le_of_le hMf hwr
  have hae := f32_error_le (w * r) ((T : ℚ) + 1) (by rw [abs_of_nonneg hwr0]; exact hwr)
    (by linarith)
  rw [he24] at hae
  have hcabs : |f32 (w * r) / r| ≤ ((T : ℚ) + 1) / r := by
    rw [abs_div, abs_of_pos hr, abs_of_nonneg ha0]
    exact div_le_div_of_nonneg_right ha1 (le_of_lt hr)
  have hB : (2 : ℚ) ^ (-126 : Int) ≤ ((T : ℚ) + 1) / r := by
    rw [le_div_iff₀ hr]
    have h2 : (2 : ℚ) ^ (-126 : Int) * r ≤ (2 : ℚ) ^ (-126 : Int) * 4194304 :=
      mul_le_mul_of_nonneg_left hr1 (le_of_lt (two_zpow_pos _))
    have h3 : (2 : ℚ) ^ (-126 : Int) * 4194304 ≤ 1 := by norm_num
    linarith
  have hde := f32_error_le (f32 (w * r) / r) (((T : ℚ) + 1) / r) hcabs hB
  rw [he24] at hde
  have hr0 : r ≠ 0 := ne_of_gt hr
  have hsplit : f32 (w * r) / r - w = (f32 (w * r) - w * r) / r := by
    field_simp
    ring
  have hq : |f32 (w * r) / r - w| ≤ ((T : ℚ) + 1) * (1 / 16777216) / r := by
    rw [hsplit, abs_div, abs_of_pos hr]
    exact div_le_div_of_nonneg_right hae (le_of_lt hr)
  have e1 : ((T : ℚ) + 1) * (1 / 16777216) / r = ((T : ℚ) + 1) / 16777216 / r := by ring
  have e2 : ((T : ℚ) + 1) / r * (1 / 16777216) = ((T : ℚ) + 1) / 16777216 / r := by ring
  rw [e1] at hq
  rw [e2] at hde
  obtain ⟨q1, q2⟩ := abs_le.mp hq
  obtain ⟨d1, d2⟩ := abs_le.mp hde
  rw [abs_le]
  constructor <;> linarith

/-- One axis of the round trip: the corner and the extent of a box inside `[0, W]`, mapped
forward by `(r, L)`, back by `(r, P)` and clipped to the float `W`. -/
theorem round_trip_axis (x w r P : ℚ) (W L T : Int) (δ : ℚ)
    (hr : 0 < r) (hr1 : r ≤ 4194304) (hT0 : 0 < T) (hT1 : T < 4194304)
    (hW0 : 0 < W) (hW1 : W < 2147483648) (hWr : f32 (W : ℚ) * r ≤ (T : ℚ) + 1 / 4)
    (hL0 : 0 ≤ L) (hL1 : L ≤ T) (hP0 : (L : ℚ) ≤ P) (hP1 : P ≤ (L : ℚ) + δ) (hδ : δ ≤ 1)
    (hx0 : 0 ≤ x) (hw0 : 0 ≤ w) (hxw : x + w ≤ (W : ℚ)) :
    |max 0 (min (f32 (f32 (f32 (f32 (x * r) + (L : ℚ)) - P) / r)) (f32 (W : ℚ))) - x|
      ≤ (δ + ((T : ℚ) + 1) / 1048576) / r ∧
    |max 0 (min (f32 (f32 (w * r) / r))
        (f32 (f32 (W : ℚ) - max 0 (min (f32 (f32 (f32 (f32 (x * r) + (L : ℚ)) - P) / r))
          (f32 (W : ℚ)))))) - w|
      ≤ (δ + ((T : ℚ) + 1) / 1048576) / r := by
  have hTq : (T : ℚ) ≤ 4194303 := by exact_mod_cast (by omega : T ≤ 4194303)
  have hT1q : (1 : ℚ) ≤ (T : ℚ) := by exact_mod_cast hT0
  have hδ0 : 0 ≤ δ := by linarith
  have hrq : 0 ≤ r := le_of_lt hr
  obtain ⟨fW0, -, fWe⟩ := f32_dim_bounds W hW0 hW1
  have he24 : (2 : ℚ) ^ (-24 : Int) = 1 / 16777216 := by norm_num
  rw [he24] at fWe
  obtain ⟨fe1, fe2⟩ := abs_le.mp fWe
  have hWq0 : (0 : ℚ) < (W : ℚ) := by exact_mod_cast hW0
  -- W * r ≤ T + 1
  have hWr1 : (W : ℚ) * r ≤ (T : ℚ) + 1 := by
    have h1 : ((W : ℚ) - (W : ℚ) * (1 / 16777216)) * r ≤ f32 (W : ℚ) * r :=
      mul_le_mul_of_nonneg_right (by linarith) hrq
    have h2 : ((W : ℚ) - (W : ℚ) * (1 / 16777216)) * r
        = (W : ℚ) * r - (W : ℚ) * r * (1 / 16777216) := by ring
    have h3 : 0 ≤ (W : ℚ) * r := mul_nonneg (le_of_lt hWq0) hrq
    linarith
  have hWle : (W : ℚ) ≤ ((T : ℚ) + 1) / r := by
    rw [le_div_iff₀ hr]; exact hWr1
  have hxr : x * r ≤ (T : ℚ) + 1 :=
    le_trans (mul_le_mul_of_nonneg_right (by linarith) hrq) hWr1
  have hwr : w * r ≤ (T : ℚ) + 1 :=
    le_trans (mul_le_mul_of_nonneg_right (by linarith) hrq) hWr1
  have hA0 : 0 ≤ δ / r := div_nonneg hδ0 hrq
  have hQ0 : 0 ≤ ((T : ℚ) + 1) / 16777216 / r :=
    div_nonneg (div_nonneg (by linarith) (by norm_num)) hrq
  have hWQ : (W : ℚ) * (1 / 16777216) ≤ ((T : ℚ) + 1) / 16777216 / r := by
    have : ((T : ℚ) + 1) / 16777216 / r = ((T : ℚ) + 1) / r * (1 / 16777216) := by ring
    rw [this]
    exact mul_le_mul_of_nonneg_right hWle (by norm_num)
  have hfin : (δ + ((T : ℚ) + 1) / 1048576) / r
      = δ / r + 16 * (((T : ℚ) + 1) / 16777216 / r) := by ring
  rw [hfin]
  have hcoord := round_trip_coord x r P L T δ hr hr1 hT0 hT1 hx0 hxr hL0 hL1 hP0 hP1 hδ
  have hext := round_trip_extent w r T hr hr1 hT0 hT1 hw0 hwr
  have hX := clamp_error _ x (f32 (W : ℚ)) (W : ℚ) _ hx0 (by linarith) (by linarith) hcoord
    (by linarith)
  have hXle := clamp_le (f32 (f32 (f32 (f32 (x * r) + (L : ℚ)) - P) / r)) (f32 (W : ℚ))
    (by linarith)
  have hX0 : 0 ≤ max 0 (min (f32 (f32 (f32 (f32 (x * r) + (L : ℚ)) - P) / r)) (f32 (W : ℚ))) :=
    le_max_left _ _
  generalize max 0 (min (f32 (f32 (f32 (f32 (x * r) + (L : ℚ)) - P) / r)) (f32 (W : ℚ))) = X
    at hX hXle hX0 ⊢
  obtain ⟨X1, X2⟩ := abs_le.mp hX
  refine ⟨by rw [abs_le]; constructor <;> linarith, ?_⟩
  -- the available extent
  have hav0 : 0 ≤ f32 (f32 (W : ℚ) - X) := f32_nonneg (by linarith)
  have hsmall : (2 : ℚ) ^ (-126 : Int) ≤ 1 := by
    have := two_zpow_neg_le_one 126
    simpa using this
  have have_ := f32_error_le (f32 (W : ℚ) - X) (2 * (W : ℚ))
    (by
      rw [abs_of_nonneg (by linarith)]
      linarith)
    (by
      have : (1 : ℚ) ≤ (W : ℚ) := by exact_mod_cast hW0
      linarith)
  rw [he24] at have_
  obtain ⟨v1, v2⟩ := abs_le.mp have_
  have hW' := clamp_error (f32 (f32 (w * r) / r)) w (f32 (f32 (W : ℚ) - X)) ((W : ℚ) - x)
    (δ / r + 10 * (((T : ℚ) + 1) / 16777216 / r)) hw0 (by linarith) hav0
    (by
      obtain ⟨t1, t2⟩ := abs_le.mp hext
      rw [abs_le]; constructor <;> linarith)
    (by linarith)
  obtain ⟨w1, w2⟩ := abs_le.mp hW'
  rw [abs_le]
  constructor <;> linarith

/-- The round trip of a box inside the source image for a scale `g`, borders `(L, Tp)` and a
padding `(px, py)` within `δ` above the borders. -/
theorem round_trip_box (shape newShape : Size) (box : Rect2f) (g px py δ : ℚ) (L Tp : Int)
    (hg : 0 < g) (hg1 : g ≤ 4194304)
    (hsw : 0 < shape.width) (hsh : 0 < shape.height)
    (hswr : shape.width < 2147483648) (hshr : shape.height < 2147483648)
    (htw : 0 < newShape.width) (hth : 0 < newShape.height)
    (htwr : newShape.width < 4194304) (hthr : newShape.height < 4194304)
    (gw : f32 (shape.width : ℚ) * g ≤ (newShape.width : ℚ) + 1 / 4)
    (gh : f32 (shape.height : ℚ) * g ≤ (newShape.height : ℚ) + 1 / 4)
    (hL0 : 0 ≤ L) (hL1 : L ≤ newShape.width) (hT0 : 0 ≤ Tp) (hT1 : Tp ≤ newShape.height)
    (hpx0 : (L : ℚ) ≤ px) (hpx1 : px ≤ (L : ℚ) + δ)
    (hpy0 : (Tp : ℚ) ≤ py) (hpy1 : py ≤ (Tp : ℚ) + δ) (hδ : δ ≤ 1)
    (hx : 0 ≤ box.x) (hy : 0 ≤ box.y) (hw : 0 ≤ box.width) (hh : 0 ≤ box.height)
    (hxw : box.x + box.width ≤ (shape.width : ℚ))
    (hyh : box.y + box.height ≤ (shape.height : ℚ)) :
    |(clip_boxes_float
        { x := f32 (f32 (f32 (f32 (box.x * g) + (L : ℚ)) - px) / g)
          y := f32 (f32 (f32 (f32 (box.y * g) + (Tp : ℚ)) - py) / g)
          width := f32 (f32 (box.width * g) / g)
          height := f32 (f32 (box.height * g) / g) } shape).x - box.x|
      ≤ (δ + ((newShape.width : ℚ) + 1) / 1048576) / g ∧
    |(clip_boxes_float
        { x := f32 (f32 (f32 (f32 (box.x * g) + (L : ℚ)) - px) / g)
          y := f32 (f32 (f32 (f32 (box.y * g) + (Tp : ℚ)) - py) / g)
          width := f32 (f32 (box.width * g) / g)
          height := f32 (f32 (box.height * g) / g) } shape).y - box.y|
      ≤ (δ + ((newShape.height : ℚ) + 1) / 1048576) / g ∧
    |(clip_boxes_float
        { x := f32 (f32 (f32 (f32 (box.x * g) + (L : ℚ)) - px) / g)
          y := f32 (f32 (f32 (f32 (box.y * g) + (Tp : ℚ)) - py) / g)
          width := f32 (f32 (box.width * g) / g)
          height := f32 (f32 (box.height * g) / g) } shape).width - box.width|
      ≤ (δ + ((newShape.width : ℚ) + 1) / 1048576) / g ∧
    |(clip_boxes_float
        { x := f32 (f32 (f32 (f32 (box.x * g) + (L : ℚ)) - px) / g)
          y := f32 (f32 (f32 (f32 (box.y * g) + (Tp : ℚ)) - py) / g)
          width := f32 (f32 (box.width * g) / g)
          height := f32 (f32 (box.height * g) / g) } shape).height - box.height|
      ≤ (δ + ((newShape.height : ℚ) + 1) / 1048576) / g := by
  obtain ⟨a1, a2⟩ := round_trip_axis box.x box.width g px shape.width L newShape.width δ
    hg hg1 htw htwr hsw hswr gw hL0 hL1 hpx0 hpx1 hδ hx hw hxw
  obtain ⟨b1, b2⟩ := round_trip_axis box.y box.height g py shape.height Tp newShape.height δ
    hg hg1 hth hthr hsh hshr gh hT0 hT1 hpy0 hpy1 hδ hy hh hyh
  exact ⟨a1, b1, a2, b2⟩

/-- Without upscaling the scale of letterbox is the unclamped one as soon as the target is
not larger than the source on some axis. -/
theorem letterboxScale_noUpscale (shape newShape : Size)
    (h : newShape.width ≤ shape.width ∨ newShape.height ≤ shape.height)
    (hsw : 0 < shape.width) (hsh : 0 < shape.height) :
    letterboxScale shape newShape false = letterboxScale shape newShape true := by
  unfold letterboxScale
  simp only [if_true, Bool.false_eq_true, if_false]
  apply min_eq_left
  have key : ∀ s t : Int, 0 < s → t ≤ s → f32 (f32 (t : ℚ) / f32 (s : ℚ)) ≤ 1 := by
    intro s t hs hts
    apply f32_le_of_le f32_one
    have h1 : f32 (t : ℚ) ≤ f32 (s : ℚ) := f32_mono (by exact_mod_cast hts)
    have h2 : (1 : ℚ) ≤ f32 (s : ℚ) := le_f32_of_le f32_one (by exact_mod_cast hs)
    rw [div_le_one (by linarith)]
    exact h1
  rcases h with h | h
  · exact le_trans (min_le_right _ _) (key _ _ hsw h)
  · exact le_trans (min_le_left _ _) (key _ _ hsh h)

/-- The borders `left` and `top` of letterbox without `auto_` and `scaleFill` lie inside the
target. -/
theorem plain_border_bounds (shape newShape : Size) (scaleUp : Bool) (stride : Int)
    (hsw : 0 < shape.width) (hsh : 0 < shape.height)
    (hswr : shape.width < 2147483648) (hshr : shape.height < 2147483648)
    (htw : 0 < newShape.width) (hth : 0 < newShape.height)
    (htwr : newShape.width < 4194304) (hthr : newShape.height < 4194304) :
    0 ≤ (letterboxParams shape newShape false false scaleUp stride).left ∧
    (letterboxParams shape newShape false false scaleUp stride).left ≤ newShape.width ∧
    0 ≤ (letterboxParams shape newShape false false scaleUp stride).top ∧
    (letterboxParams shape newShape false false scaleUp stride).top ≤ newShape.height := by
  rw [letterboxParams_plain]
  obtain ⟨w0, w1, h0, h1, fw, fh⟩ := letterbox_resized_facts shape newShape scaleUp hsw hsh
    hswr hshr htw hth htwr hthr
  rw [fw, fh]
  obtain ⟨-, -, -, -, -, -, -, e8, e9, e10, e11⟩ := letterboxBorders_split
    (letterboxScale shape newShape scaleUp)
    (stdRound (f32 (f32 (shape.width : ℚ) * letterboxScale shape newShape scaleUp)))
    (stdRound (f32 (f32 (shape.height : ℚ) * letterboxScale shape newShape scaleUp)))
    (newShape.width - stdRound (f32 (f32 (shape.width : ℚ) *
      letterboxScale shape newShape scaleUp)))
    (newShape.height - stdRound (f32 (f32 (shape.height : ℚ) *
      letterboxScale shape newShape scaleUp)))
    (by omega) (by omega) (by omega) (by omega)
  refine ⟨e8, ?_, e9, ?_⟩
  · rw [e10]; omega
  · rw [e11]; omega

theorem scale_boxes_params_explicit (img1_shape img0_shape : Size) (ratio_pad : RatioPad)
    (h : 0 ≤ ratio_pad.first) :
    scale_boxes_params img1_shape img0_shape ratio_pad
      = { gain := ratio_pad.first, pad_x := ratio_pad.second.x, pad_y := ratio_pad.second.y } := by
  unfold scale_boxes_params
  rw [if_neg (not_lt.mpr h)]

theorem scale_boxes_forward_sentinel (img1_shape img0_shape : Size) (p : LetterboxParams)
    (box : Rect2f) :
    scale_boxes img1_shape (letterbox_forward p box) img0_shape RatioPad.sentinel true
      = clip_boxes_float
        { x := f32 (f32 (f32 (f32 (box.x * p.r) + (p.left : ℚ))
            - (scale_boxes_params img1_shape img0_shape RatioPad.sentinel).pad_x)
            / letterboxScale img0_shape img1_shape true)
          y := f32 (f32 (f32 (f32 (box.y * p.r) + (p.top : ℚ))
            - (scale_boxes_params img1_shape img0_shape RatioPad.sentinel).pad_y)
            / letterboxScale img0_shape img1_shape true)
          width := f32 (f32 (box.width * p.r) / letterboxScale img0_shape img1_shape true)
          height := f32 (f32 (box.height * p.r) / letterboxScale img0_shape img1_shape true) }
        img0_shape := by
  unfold scale_boxes letterbox_forward
  simp only [if_true, sentinel_gain]

theorem scale_boxes_forward_explicit (img1_shape img0_shape : Size) (p : LetterboxParams)
    (box : Rect2f) (h : 0 ≤ p.r) :
    scale_boxes img1_shape (letterbox_forward p box) img0_shape
        { first := p.r, second := { x := (p.left : ℚ), y := (p.top : ℚ) } } true
      = clip_boxes_float
        { x := f32 (f32 (f32 (f32 (box.x * p.r) + (p.left : ℚ)) - (p.left : ℚ)) / p.r)
          y := f32 (f32 (f32 (f32 (box.y * p.r) + (p.top : ℚ)) - (p.top : ℚ)) / p.r)
          width := f32 (f32 (box.width * p.r) / p.r)
          height := f32 (f32 (box.height * p.r) / p.r) } img0_shape := by
  unfold scale_boxes letterbox_forward
  rw [scale_boxes_params_explicit _ _ _ h]
  simp only [if_true]

/-- C11 (amended): for a source size with positive int dimensions, a target size with
positive dimensions below 2^22, auto_ = false, scaleFill = false, and scaleUp = true or a
target that is not larger than the source on some axis, and a box inside the source image:
mapping the box forward with the scale r and the borders (left, top) of letterbox in float
arithmetic and back with scale_boxes in sentinel mode recovers x and width within
(1 + (T.width + 1) / 2^20) / r and y and height within (1 + (T.height + 1) / 2^20) / r
source pixels, hence each within 1 pixel when r ≥ 1 + (T.width + 1) / 2^20 and
r ≥ 1 + (T.height + 1) / 2^20; mapping it back with the letterbox parameters passed as
ratio_pad recovers them within ((T.width + 1) / 2^20) / r and ((T.height + 1) / 2^20) / r. -/
theorem letterbox_round_trip (shape newShape : Size) (scaleUp : Bool) (stride : Int)
    (box : Rect2f) (hsw : 0 < shape.width) (hsh : 0 < shape.height)
    (hswr : shape.width < 2147483648) (hshr : shape.height < 2147483648)
    (htw : 0 < newShape.width) (hth : 0 < newShape.height)
    (htwr : newShape.width < 4194304) (hthr : newShape.height < 4194304)
    (hup : scaleUp = true ∨ newShape.width ≤ shape.width ∨ newShape.height ≤ shape.height)
    (hx : 0 ≤ box.x) (hy : 0 ≤ box.y) (hw : 0 ≤ box.width) (hh : 0 ≤ box.height)
    (hxw : box.x + box.width ≤ (shape.width : ℚ))
    (hyh : box.y + box.height ≤ (shape.height : ℚ)) :
    (|(scale_boxes newShape
          (letterbox_forward (letterboxParams shape newShape false false scaleUp stride) box)
          shape RatioPad.sentinel true).x - box.x|
        ≤ (1 + ((newShape.width : ℚ) + 1) / 1048576)
          / (letterboxParams shape newShape false false scaleUp stride).r ∧
      |(scale_boxes newShape
          (letterbox_forward (letterboxParams shape newShape false false scaleUp stride) box)
          shape RatioPad.sentinel true).y - box.y|
        ≤ (1 + ((newShape.height : ℚ) + 1) / 1048576)
          / (letterboxParams shape newShape false false scaleUp stride).r ∧
      |(scale_boxes newShape
          (letterbox_forward (letterboxParams shape newShape false false scaleUp stride) box)
          shape RatioPad.sentinel true).width - box.width|
        ≤ (1 + ((newShape.width : ℚ) + 1) / 1048576)
          / (letterboxParams shape newShape false false scaleUp stride).r ∧
      |(scale_boxes newShape
          (letterbox_forward (letterboxParams shape newShape false false scaleUp stride) box)
          shape RatioPad.sentinel true).height - box.height|
        ≤ (1 + ((newShape.height : ℚ) + 1) / 1048576)
          / (letterboxParams shape newShape false false scaleUp stride).r) ∧
    (1 + ((newShape.width : ℚ) + 1) / 1048576
        ≤ (letterboxParams shape newShape false false scaleUp stride).r →
      1 + ((newShape.height : ℚ) + 1) / 1048576
        ≤ (letterboxParams shape newShape false false scaleUp stride).r →
      |(scale_boxes newShape
          (letterbox_forward (letterboxParams shape newShape false false scaleUp stride) box)
          shape RatioPad.sentinel true).x - box.x| ≤ 1 ∧
      |(scale_boxes newShape
          (letterbox_forward (letterboxParams shape newShape false false scaleUp stride) box)
          shape RatioPad.sentinel true).y - box.y| ≤ 1 ∧
      |(scale_boxes newShape
          (letterbox_forward (letterboxParams shape newShape false false scaleUp stride) box)
          shape RatioPad.sentinel true).width - box.width| ≤ 1 ∧
      |(scale_boxes newShape
          (letterbox_forward (letterboxParams shape newShape false false scaleUp stride) box)
          shape RatioPad.sentinel true).height - box.height| ≤ 1) ∧
    (|(scale_boxes newShape
          (letterbox_forward (letterboxParams shape newShape false false scaleUp stride) box)
          shape
          { first := (letterboxParams shape newShape false false scaleUp stride).r
            second :=
              { x := ((letterboxParams shape newShape false false scaleUp stride).left : ℚ)
                y := ((letterboxParams shape newShape false false scaleUp stride).top : ℚ) } }
          true).x - box.x|
        ≤ (((newShape.width : ℚ) + 1) / 1048576)
          / (letterboxParams shape newShape false false scaleUp stride).r ∧
      |(scale_boxes newShape
          (letterbox_forward (letterboxParams shape newShape false false scaleUp stride) box)
          shape
          { first := (letterboxParams shape newShape false false scaleUp stride).r
            second :=
              { x := ((letterboxParams shape newShape false false scaleUp stride).left : ℚ)
                y := ((letterboxParams shape newShape false false scaleUp stride).top : ℚ) } }
          true).y - box.y|
        ≤ (((newShape.height : ℚ) + 1) / 1048576)
          / (letterboxParams shape newShape false false scaleUp stride).r ∧
      |(scale_boxes newShape
          (letterbox_forward (letterboxParams shape newShape false false scaleUp stride) box)
          shape
          { first := (letterboxParams shape newShape false false scaleUp stride).r
            second :=
              { x := ((letterboxParams shape newShape false false scaleUp stride).left : ℚ)
                y := ((letterboxParams shape newShape false false scaleUp stride).top : ℚ) } }
          true).width - box.width|
        ≤ (((newShape.width : ℚ) + 1) / 1048576)
          / (letterboxParams shape newShape false false scaleUp stride).r ∧
      |(scale_boxes newShape
          (letterbox_forward (letterboxParams shape newShape false false scaleUp stride) box)
          shape
          { first := (letterboxParams shape newShape false false scaleUp stride).r
            second :=
              { x := ((letterboxParams shape newShape false false scaleUp stride).left : ℚ)
                y := ((letterboxParams shape newShape false false scaleUp stride).top : ℚ) } }
          true).height - box.height|
        ≤ (((newShape.height : ℚ) + 1) / 1048576)
          / (letterboxParams shape newShape false false scaleUp stride).r) := by
  have hscale : letterboxScale shape newShape scaleUp = letterboxScale shape newShape true := by
    rcases hup with h | h
    · rw [h]
    · cases scaleUp
      · exact letterboxScale_noUpscale shape newShape h hsw hsh
      · rfl
  have hp : letterboxParams shape newShape false false scaleUp stride
      = letterboxParams shape newShape false false true stride := by
    rw [letterboxParams_plain, letterboxParams_plain, hscale]
  rw [hp]
  obtain ⟨g0, g1, gw, gh⟩ := letterboxScale_facts shape newShape true hsw hsh hswr hshr htw hth
    htwr hthr
  have hg : 0 < letterboxScale shape newShape true := lt_of_lt_of_le (two_zpow_pos _) g0
  obtain ⟨L0, L1, T0, T1⟩ := plain_border_bounds shape newShape true stride hsw hsh hswr hshr
    htw hth htwr hthr
  obtain ⟨⟨px0, px1⟩, ⟨py0, py1⟩, -, -⟩ := sentinel_pad_facts shape newShape stride hsw hsh
    hswr hshr htw hth htwr hthr
  have hr := letterboxParams_plain_r shape newShape true stride
  have main : _ := round_trip_box shape newShape box (letterboxScale shape newShape true)
    (scale_boxes_params newShape shape RatioPad.sentinel).pad_x
    (scale_boxes_params newShape shape RatioPad.sentinel).pad_y 1
    (letterboxParams shape newShape false false true stride).left
    (letterboxParams shape newShape false false true stride).top
    hg g1 hsw hsh hswr hshr htw hth htwr hthr gw gh L0 L1 T0 T1 px0 px1 py0 py1 (le_refl _)
    hx hy hw hh hxw hyh
  have expl : _ := round_trip_box shape newShape box (letterboxScale shape newShape true)
    ((letterboxParams shape newShape false false true stride).left : ℚ)
    ((letterboxParams shape newShape false false true stride).top : ℚ) 0
    (letterboxParams shape newShape false false true stride).left
    (letterboxParams shape newShape false false true stride).top
    hg g1 hsw hsh hswr hshr htw hth htwr hthr gw gh L0 L1 T0 T1 (le_refl _) (by linarith)
    (le_refl _) (by linarith) (by norm_num) hx hy hw hh hxw hyh
  simp only [zero_add] at expl
  rw [scale_boxes_forward_sentinel,
    scale_boxes_forward_explicit _ _ _ _ (by rw [hr]; exact le_of_lt hg), hr]
  refine ⟨main, ?_, expl⟩
  intro h1 h2
  have hle1 : (1 + ((newShape.width : ℚ) + 1) / 1048576) / letterboxScale shape newShape true
      ≤ 1 := (div_le_one hg).mpr h1
  have hle2 : (1 + ((newShape.height : ℚ) + 1) / 1048576) / letterboxScale shape newShape true
      ≤ 1 := (div_le_one hg).mpr h2
  exact ⟨le_trans main.1 hle1, le_trans main.2.1 hle2, le_trans main.2.2.1 hle1,
    le_trans main.2.2.2 hle2⟩

theorem letterbox_round_trip_witness :
    |(scale_boxes ⟨640, 640⟩
        (letterbox_forward (letterboxParams ⟨1000, 329⟩ ⟨640, 640⟩ false false true 32)
          ⟨100, 100, 50, 50⟩)
        ⟨1000, 329⟩ RatioPad.sentinel true).y - 100|
      ≤ (1 + ((640 : ℚ) + 1) / 1048576)
        / (letterboxParams ⟨1000, 329⟩ ⟨640, 640⟩ false false true 32).r :=
  (letterbox_round_trip ⟨1000, 329⟩ ⟨640, 640⟩ true 32 ⟨100, 100, 50, 50⟩
    (by decide) (by decide) (by decide) (by decide) (by decide) (by decide) (by decide)
    (by decide) (Or.inl rfl)
    (by decide!) (by decide!) (by decide!) (by decide!) (by decide!) (by decide!)).1.2.1

/-- C11 as stated fails. A 1000 x 329 source letterboxed to 640 x 640 has r = 0.64f,
left = 0, top = 214; the box (100, 100, 50, 50) maps forward to (64, 278, 32, 32);
scale_boxes in sentinel mode uses pad_y = 215 and returns y = 98.4375, which is 1.5625
pixels away from 100. With scaleUp = false and a 100 x 100 source letterboxed to 640 x 640
the scale of letterbox is 1 and the borders are 270, but scale_boxes recomputes the gain
6.4f and the padding 0: the box (10, 10, 80, 80) comes back as (43.75, 43.75, 12.5, 12.5). -/
theorem letterbox_round_trip_exceeds_one_pixel :
    (letterboxParams ⟨1000, 329⟩ ⟨640, 640⟩ false false true 32
        = ⟨5368709 / 8388608, 640, 211, 214, 215, 0, 0⟩ ∧
      letterbox_forward (letterboxParams ⟨1000, 329⟩ ⟨640, 640⟩ false false true 32)
          ⟨100, 100, 50, 50⟩ = ⟨64, 278, 32, 32⟩ ∧
      scale_boxes ⟨640, 640⟩
          (letterbox_forward (letterboxParams ⟨1000, 329⟩ ⟨640, 640⟩ false false true 32)
            ⟨100, 100, 50, 50⟩)
          ⟨1000, 329⟩ RatioPad.sentinel true
        = ⟨100, 1575 / 16, 50, 50⟩ ∧
      ¬ (|(1575 / 16 : ℚ) - 100| ≤ 1)) ∧
    (letterboxParams ⟨100, 100⟩ ⟨640, 640⟩ false false false 32
        = ⟨1, 100, 100, 270, 270, 270, 270⟩ ∧
      letterbox_forward (letterboxParams ⟨100, 100⟩ ⟨640, 640⟩ false false false 32)
          ⟨10, 10, 80, 80⟩ = ⟨280, 280, 80, 80⟩ ∧
      scale_boxes ⟨640, 640⟩
          (letterbox_forward (letterboxParams ⟨100, 100⟩ ⟨640, 640⟩ false false false 32)
            ⟨10, 10, 80, 80⟩)
          ⟨100, 100⟩ RatioPad.sentinel true
        = ⟨175 / 4, 175 / 4, 25 / 2, 25 / 2⟩ ∧
      ¬ (|(175 / 4 : ℚ) - 10| ≤ (1 + ((640 : ℚ) + 1) / 1048576) / 1)) := by
  refine ⟨⟨by decide!, by decide!, by decide!, ?_⟩, ⟨by decide!, by decide!, by decide!, ?_⟩⟩
  · rw [abs_le]
    norm_num
  · rw [abs_le]
    norm_num

/-! ## scale_coords -/


theorem updAt_append (pre : List FloatValue) (a : FloatValue) (t : List FloatValue) (f : FloatValue → FloatValue) :
    updAt (pre ++ a :: t) pre.length f = .ok (pre ++ f a :: t) := by
  have h : (pre ++ a :: t)[pre.length]? = some a := by
    rw [List.getElem?_append_right (le_refl _)]
    simp
  unfold updAt
  rw [h]
  simp

theorem updAt_append_succ (pre : List FloatValue) (a b : FloatValue) (t : List FloatValue) (g : FloatValue → FloatValue) :
    updAt (pre ++ a :: b :: t) (pre.length + 1) g = .ok (pre ++ a :: g b :: t) := by
  have h := updAt_append (pre ++ [a]) b t g
  simpa using h

/-- Loop invariant of `coordsLoop`: on a vector whose unprocessed part consists of whole
triples, the loop returns and yields the triple-wise image of that part. -/
theorem coordsLoop_whole_triples (f g : FloatValue → FloatValue) : ∀ (fuel : Nat) (pre rest : List FloatValue),
    rest.length % 3 = 0 → rest.length ≤ fuel →
    coordsLoop f g fuel pre.length (pre ++ rest) = .ok (pre ++ mapTriples f g rest) := by
  intro fuel
  induction fuel with
  | zero =>
    intro pre rest _ hle
    have : rest = [] := List.length_eq_zero.mp (by omega)
    subst this
    simp [coordsLoop, mapTriples]
  | succ fuel ih =>
    intro pre rest hmod hle
    match rest, hmod, hle with
    | [], _, _ => simp [coordsLoop, mapTriples]
    | [x], hmod, _ => simp at hmod
    | [x, y], hmod, _ => simp at hmod
    | x :: y :: c :: rest, hmod, hle =>
      have hlt : pre.length < (pre ++ x :: y :: c :: rest).length := by simp
      simp only [coordsLoop, if_pos hlt, updAt_append, updAt_append_succ, mapTriples]
      have hlen : (pre ++ [f x, g y, c]).length = pre.length + 3 := by simp
      have happ : pre ++ f x :: g y :: c :: rest = (pre ++ [f x, g y, c]) ++ rest := by simp
      have hres : pre ++ f x :: g y :: c :: mapTriples f g rest
          = (pre ++ [f x, g y, c]) ++ mapTriples f g rest := by simp
      rw [happ, hres, ← hlen]
      apply ih
      · simp only [List.length_cons] at hmod
        omega
      · simp only [List.length_cons] at hle
        omega

theorem mapTriples_length (f g : FloatValue → FloatValue) : ∀ (n : Nat) (l : List FloatValue), l.length ≤ n →
    (mapTriples f g l).length = l.length := by
  intro n
  induction n using Nat.strong_induction_on with
  | _ n ih =>
    intro l hl
    match l, hl with
    | [], _ => rfl
    | [x], _ => rfl
    | [x, y], _ => rfl
    | x :: y :: c :: rest, hl =>
      simp only [mapTriples, List.length_cons]
      simp only [List.length_cons] at hl
      rw [ih rest.length (by omega) rest (le_refl _)]

/-- Entries of the triple-wise image: positions `3k` and `3k+1` are the images of the
input entries under `f` and `g`, position `3k+2` is the input entry. -/
theorem mapTriples_getElem (f g : FloatValue → FloatValue) : ∀ (k : Nat) (l : List FloatValue), l.length % 3 = 0 →
    (mapTriples f g l)[3 * k]? = (l[3 * k]?).map f ∧
    (mapTriples f g l)[3 * k + 1]? = (l[3 * k + 1]?).map g ∧
    (mapTriples f g l)[3 * k + 2]? = l[3 * k + 2]? := by
  intro k
  induction k with
  | zero =>
    intro l hl
    match l, hl with
    | [], _ => simp [mapTriples]
    | [x], hl => simp at hl
    | [x, y], hl => simp at hl
    | x :: y :: c :: rest, _ => simp [mapTriples]
  | succ k ih =>
    intro l hl
    match l, hl with
    | [], _ => simp [mapTriples]
    | [x], hl => simp at hl
    | [x, y], hl => simp at hl
    | x :: y :: c :: rest, hl =>
      have hr : rest.length % 3 = 0 := by
        simp only [List.length_cons] at hl
        omega
      obtain ⟨i1, i2, i3⟩ := ih rest hr
      have e0 : 3 * (k + 1) = 3 * k + 1 + 1 + 1 := by ring
      have e1 : 3 * (k + 1) + 1 = 3 * k + 1 + 1 + 1 + 1 := by ring
      have e2 : 3 * (k + 1) + 2 = 3 * k + 2 + 1 + 1 + 1 := by ring
      simp only [mapTriples]
      rw [e1, e2, e0]
      simp only [List.getElem?_cons_succ]
      exact ⟨i1, i2, i3⟩

theorem coordsLoop_from_start (f g : FloatValue → FloatValue) (v : List FloatValue) (h : v.length % 3 = 0) :
    coordsLoop f g v.length 0 v = .ok (mapTriples f g v) := by
  have := coordsLoop_whole_triples f g v.length [] v h (le_refl _)
  simpa using this


/-- On a vector of whole triples `scale_coords` returns the image of the vector under the
scaling pass followed by the clamping pass. -/
theorem scale_coords_eq (img1_shape : Size) (coords : List FloatValue) (img0_shape : Size)
    (h : coords.length % 3 = 0) :
    scale_coords img1_shape coords img0_shape = .ok
      (mapTriples (clampCoord img0_shape.width) (clampCoord img0_shape.height)
        (mapTriples
          (scaleCoord (scale_coords_params img1_shape img0_shape).pad_x
            (scale_coords_params img1_shape img0_shape).gain)
          (scaleCoord (scale_coords_params img1_shape img0_shape).pad_y
            (scale_coords_params img1_shape img0_shape).gain)
          coords)) := by
  unfold scale_coords
  simp only
  rw [coordsLoop_from_start _ _ coords h]
  simp only
  rw [coordsLoop_from_start _ _ _ (by rw [mapTriples_length _ _ _ _ (le_refl _)]; exact h)]

theorem ofDouble_ne_nan (q : ℚ) : FloatValue.ofDouble q ≠ .nan := by
  unfold FloatValue.ofDouble
  split_ifs <;> simp

theorem scaleCoord_nan (pad gain : ℚ) : scaleCoord pad gain .nan = .nan := rfl

theorem scaleCoord_ne_nan (pad gain : ℚ) (v : FloatValue) (h : v ≠ .nan) :
    scaleCoord pad gain v ≠ .nan := by
  cases v with
  | nan => exact absurd rfl h
  | negInf => simp [scaleCoord]
  | posInf => simp [scaleCoord]
  | finite q => exact ofDouble_ne_nan _

theorem clampCoord_nan (dim : Int) : clampCoord dim .nan = .nan := rfl

theorem stdMax_finite (a b : ℚ) :
    FloatValue.stdMax (.finite a) (.finite b) = .finite (max a b) := by
  unfold FloatValue.stdMax FloatValue.lt
  by_cases h : a < b
  · simp [h, max_eq_right (le_of_lt h)]
  · simp [h, max_eq_left (not_lt.mp h)]

theorem stdMin_finite (a b : ℚ) :
    FloatValue.stdMin (.finite a) (.finite b) = .finite (min a b) := by
  unfold FloatValue.stdMin FloatValue.lt
  by_cases h : b < a
  · simp [h, min_eq_right (le_of_lt h)]
  · simp [h, min_eq_left (not_lt.mp h)]

/-- The clamp `std::min(std::max(v, 0.0f), W)` of a float that is not NaN, for `W ≥ 0`. -/
theorem clamp_range (W : ℚ) (hW : 0 ≤ W) (v : FloatValue) (h : v ≠ .nan) :
    ∃ q, FloatValue.stdMin (FloatValue.stdMax v (.finite 0)) (.finite W) = .finite q ∧
      0 ≤ q ∧ q ≤ W := by
  cases v with
  | nan => exact absurd rfl h
  | negInf =>
    refine ⟨min 0 W, ?_, le_min (le_refl _) hW, min_le_right _ _⟩
    have e : FloatValue.stdMax .negInf (.finite 0) = .finite 0 := rfl
    rw [e, stdMin_finite]
  | posInf =>
    exact ⟨W, rfl, hW, le_refl _⟩
  | finite q =>
    refine ⟨min (max q 0) W, ?_, le_min (le_max_right _ _) hW, min_le_right _ _⟩
    rw [stdMax_finite, stdMin_finite]

/-- The clamp of a float that is not NaN is a finite float of `[0, float(dim - 1)]`. -/
theorem clampCoord_range (dim : Int) (hd : 1 ≤ dim) (v : FloatValue) (h : v ≠ .nan) :
    ∃ q, clampCoord dim v = .finite q ∧ 0 ≤ q ∧ q ≤ f32 ((dim - 1 : Int) : ℚ) :=
  clamp_range (f32 ((dim - 1 : Int) : ℚ))
    (f32_nonneg (by exact_mod_cast (by omega : 0 ≤ dim - 1))) v h

/-- The clamp leaves a finite float of `[0, float(dim - 1)]` unchanged. -/
theorem clampCoord_id (dim : Int) (q : ℚ) (h0 : 0 ≤ q) (h1 : q ≤ f32 ((dim - 1 : Int) : ℚ)) :
    clampCoord dim (.finite q) = .finite q := by
  unfold clampCoord
  rw [stdMax_finite, stdMin_finite, max_eq_left h0, min_eq_left h1]

/-- One entry of the output: NaN for a NaN entry, a finite float of the clamp range for any
other entry. -/
theorem clamp_scale_entry (dim : Int) (hd : 1 ≤ dim) (pad gain : ℚ) (a : FloatValue) :
    (a = .nan ∧ clampCoord dim (scaleCoord pad gain a) = .nan) ∨
    (a ≠ .nan ∧ ∃ q, clampCoord dim (scaleCoord pad gain a) = .finite q ∧ 0 ≤ q ∧
      q ≤ f32 ((dim - 1 : Int) : ℚ)) := by
  by_cases h : a = .nan
  · left
    subst h
    exact ⟨rfl, rfl⟩
  · right
    exact ⟨h, clampCoord_range dim hd _ (scaleCoord_ne_nan pad gain a h)⟩

/-- C14 (amended): for a coordinate list of whole (x, y, confidence) triples and sizes with
positive dimensions, scale_coords returns a list of the same length in which every
confidence entry (index 3k+2) equals the input entry; an x entry (index 3k) is NaN when the
input entry is NaN and otherwise is a finite float of [0, float(img0.width - 1)], and a y
entry (index 3k+1) likewise with img0.height; float(dim - 1) is dim - 1 for dim up to
2^24 + 1. -/
theorem scale_coords_layout (img1_shape : Size) (coords : List FloatValue) (img0_shape : Size)
    (hlen : coords.length % 3 = 0)
    (_h1w : 0 < img1_shape.width) (_h1h : 0 < img1_shape.height)
    (h0w : 1 ≤ img0_shape.width) (h0h : 1 ≤ img0_shape.height) :
    ∃ out, scale_coords img1_shape coords img0_shape = .ok out ∧
      out.length = coords.length ∧
      (∀ k, out[3 * k + 2]? = coords[3 * k + 2]?) ∧
      (∀ k v, out[3 * k]? = some v →
        (coords[3 * k]? = some .nan ∧ v = .nan) ∨
        (coords[3 * k]? ≠ some .nan ∧ ∃ q, v = .finite q ∧ 0 ≤ q ∧
          q ≤ f32 ((img0_shape.width - 1 : Int) : ℚ))) ∧
      (∀ k v, out[3 * k + 1]? = some v →
        (coords[3 * k + 1]? = some .nan ∧ v = .nan) ∨
        (coords[3 * k + 1]? ≠ some .nan ∧ ∃ q, v = .finite q ∧ 0 ≤ q ∧
          q ≤ f32 ((img0_shape.height - 1 : Int) : ℚ))) ∧
      (img0_shape.width ≤ 16777217 →
        f32 ((img0_shape.width - 1 : Int) : ℚ) = (img0_shape.width : ℚ) - 1) ∧
      (img0_shape.height ≤ 16777217 →
        f32 ((img0_shape.height - 1 : Int) : ℚ) = (img0_shape.height : ℚ) - 1) := by
  have hl1 : (mapTriples
      (scaleCoord (scale_coords_params img1_shape img0_shape).pad_x
        (scale_coords_params img1_shape img0_shape).gain)
      (scaleCoord (scale_coords_params img1_shape img0_shape).pad_y
        (scale_coords_params img1_shape img0_shape).gain)
      coords).length = coords.length := mapTriples_length _ _ _ _ (le_refl _)
  have hrep : ∀ d : Int, 1 ≤ d → d ≤ 16777217 → f32 ((d - 1 : Int) : ℚ) = (d : ℚ) - 1 := by
    intro d h1 h2
    rw [f32_small_dim (d - 1) (by omega) (by omega)]
    push_cast
    ring
  refine ⟨_, scale_coords_eq img1_shape coords img0_shape hlen, ?_, ?_, ?_, ?_,
    hrep _ h0w, hrep _ h0h⟩
  · rw [mapTriples_length _ _ _ _ (le_refl _), hl1]
  · intro k
    rw [(mapTriples_getElem _ _ k _ (by rw [hl1]; exact hlen)).2.2,
      (mapTriples_getElem _ _ k _ hlen).2.2]
  · intro k v hv
    rw [(mapTriples_getElem _ _ k _ (by rw [hl1]; exact hlen)).1,
      (mapTriples_getElem _ _ k _ hlen).1] at hv
    simp only [Option.map_eq_some', Option.map_map] at hv
    obtain ⟨a, ha, rfl⟩ := hv
    rw [ha]
    rcases clamp_scale_entry img0_shape.width h0w
      (scale_coords_params img1_shape img0_shape).pad_x
      (scale_coords_params img1_shape img0_shape).gain a with ⟨h1, h2⟩ | ⟨h1, h2⟩
    · left
      exact ⟨by rw [h1], h2⟩
    · right
      exact ⟨fun hc => h1 (Option.some.inj hc), h2⟩
  · intro k v hv
    rw [(mapTriples_getElem _ _ k _ (by rw [hl1]; exact hlen)).2.1,
      (mapTriples_getElem _ _ k _ hlen).2.1] at hv
    simp only [Option.map_eq_some', Option.map_map] at hv
    obtain ⟨a, ha, rfl⟩ := hv
    rw [ha]
    rcases clamp_scale_entry img0_shape.height h0h
      (scale_coords_params img1_shape img0_shape).pad_y
      (scale_coords_params img1_shape img0_shape).gain a with ⟨h1, h2⟩ | ⟨h1, h2⟩
    · left
      exact ⟨by rw [h1], h2⟩
    · right
      exact ⟨fun hc => h1 (Option.some.inj hc), h2⟩

theorem scale_coords_layout_witness :
    ∃ out, scale_coords ⟨640, 640⟩
        [.finite 100, .nan, .finite (1 / 2), .finite 700, .finite 5, .finite 1] ⟨1000, 333⟩
          = .ok out ∧
      out.length
        = [FloatValue.finite 100, .nan, .finite (1 / 2), .finite 700, .finite 5,
            .finite 1].length ∧
      (∀ k, out[3 * k + 2]?
        = [FloatValue.finite 100, .nan, .finite (1 / 2), .finite 700, .finite 5,
            .finite 1][3 * k + 2]?) :=
  match scale_coords_layout ⟨640, 640⟩
      [.finite 100, .nan, .finite (1 / 2), .finite 700, .finite 5, .finite 1] ⟨1000, 333⟩
      (by decide) (by decide) (by decide) (by decide) (by decide) with
  | ⟨out, h1, h2, h3, _⟩ => ⟨out, h1, h2, h3⟩

/-- C14 as stated fails. A NaN coordinate stays NaN, since both comparisons of the clamp
are false for NaN: the x entry of the result is not in [0, 999]. And for an original image
16777220 wide, float(img0.width - 1) is 16777220, so the x entry 640 comes back as
16777220, above img0.width - 1 = 16777219. -/
theorem scale_coords_entry_outside_range :
    scale_coords ⟨640, 640⟩ [.nan, .finite 300, .finite 1] ⟨1000, 333⟩
      = .ok [.nan, .finite (541 / 4), .finite 1] ∧
    (scale_coords ⟨640, 640⟩ [.finite 640, .finite 700, .finite 1] ⟨16777220, 16777220⟩
        = .ok [.finite 16777220, .finite 16777220, .finite 1] ∧
      ¬ ((16777220 : ℚ) ≤ ((16777220 : Int) : ℚ) - 1)) := by
  refine ⟨by decide!, by decide!, by norm_num⟩

/-! ## Index safety of scale_coords -/

theorem updAt_ok_of_lt (v : List FloatValue) (i : Nat) (f : FloatValue → FloatValue) (h : i < v.length) :
    ∃ v1, updAt v i f = .ok v1 ∧ v1.length = v.length := by
  unfold updAt
  rw [List.getElem?_eq_getElem h]
  exact ⟨_, rfl, by simp⟩

theorem updAt_error_of_le (v : List FloatValue) (i : Nat) (f : FloatValue → FloatValue) (h : v.length ≤ i) :
    updAt v i f = .error .outOfRange := by
  unfold updAt
  rw [List.getElem?_eq_none h]

/-- The loop returns exactly when every index it accesses is inside the vector, and it
keeps the size of the vector. -/
theorem coordsLoop_ok_of_inrange (f g : FloatValue → FloatValue) : ∀ (fuel i : Nat) (v : List FloatValue),
    (∀ j ∈ accessedFrom fuel i v.length, j < v.length) →
    ∃ out, coordsLoop f g fuel i v = .ok out ∧ out.length = v.length := by
  intro fuel
  induction fuel with
  | zero =>
    intro i v _
    exact ⟨v, rfl, rfl⟩
  | succ fuel ih =>
    intro i v h
    unfold coordsLoop
    by_cases hi : i < v.length
    · rw [if_pos hi]
      unfold accessedFrom at h
      rw [if_pos hi] at h
      have h1 : i + 1 < v.length := h (i + 1) (by simp)
      obtain ⟨v1, e1, l1⟩ := updAt_ok_of_lt v i f hi
      obtain ⟨v2, e2, l2⟩ := updAt_ok_of_lt v1 (i + 1) g (by omega)
      rw [e1]
      simp only
      rw [e2]
      simp only
      have hlen : v2.length = v.length := by omega
      obtain ⟨out, ho, hl⟩ := ih (i + 3) v2 (by
        rw [hlen]
        intro j hj
        exact h j (by simp [hj]))
      exact ⟨out, ho, by omega⟩
    · rw [if_neg hi]
      exact ⟨v, rfl, rfl⟩

theorem coordsLoop_error_of_outside (f g : FloatValue → FloatValue) : ∀ (fuel i : Nat) (v : List FloatValue),
    (∃ j ∈ accessedFrom fuel i v.length, v.length ≤ j) →
    coordsLoop f g fuel i v = .error .outOfRange := by
  intro fuel
  induction fuel with
  | zero =>
    intro i v h
    obtain ⟨j, hj, -⟩ := h
    simp [accessedFrom] at hj
  | succ fuel ih =>
    intro i v h
    obtain ⟨j, hj, hjn⟩ := h
    unfold accessedFrom at hj
    by_cases hi : i < v.length
    · rw [if_pos hi] at hj
      unfold coordsLoop
      rw [if_pos hi]
      obtain ⟨v1, e1, l1⟩ := updAt_ok_of_lt v i f hi
      rw [e1]
      simp only
      by_cases h1 : i + 1 < v.length
      · obtain ⟨v2, e2, l2⟩ := updAt_ok_of_lt v1 (i + 1) g (by omega)
        rw [e2]
        simp only
        have hlen : v2.length = v.length := by omega
        apply ih
        rw [hlen]
        simp only [List.mem_cons] at hj
        rcases hj with rfl | rfl | hj
        · omega
        · omega
        · exact ⟨j, hj, hjn⟩
      · rw [updAt_error_of_le v1 (i + 1) g (by omega)]
    · rw [if_neg hi] at hj
      simp at hj

/-- Arithmetic of the loop header: all accessed indices are inside a vector of size `n`
unless `n - i` leaves remainder 1 modulo 3. -/
theorem accessedFrom_inrange_iff : ∀ (fuel i n : Nat), n ≤ i + fuel →
    ((∀ j ∈ accessedFrom fuel i n, j < n) ↔ ¬ (i < n ∧ (n - i) % 3 = 1)) := by
  intro fuel
  induction fuel with
  | zero =>
    intro i n h
    simp only [accessedFrom, List.not_mem_nil, false_imp_iff, implies_true, true_iff]
    omega
  | succ fuel ih =>
    intro i n h
    unfold accessedFrom
    by_cases hi : i < n
    · rw [if_pos hi]
      have IH := ih (i + 3) n (by omega)
      simp only [List.mem_cons, forall_eq_or_imp]
      rw [IH]
      constructor
      · rintro ⟨-, h1, h2⟩
        omega
      · intro h3
        refine ⟨hi, by omega, by omega⟩
    · rw [if_neg hi]
      simp only [List.not_mem_nil, false_imp_iff, implies_true, true_iff]
      omega

/-- When `n - i` leaves remainder 1 modulo 3, the last access of the loop is index `n`,
and every earlier access is inside the vector. -/
theorem accessedFrom_last : ∀ (fuel i n : Nat), n ≤ i + fuel → i < n → (n - i) % 3 = 1 →
    ∃ l, accessedFrom fuel i n = l ++ [n] ∧ ∀ j ∈ l, j < n := by
  intro fuel
  induction fuel with
  | zero =>
    intro i n h hi _
    omega
  | succ fuel ih =>
    intro i n h hi hmod
    unfold accessedFrom
    rw [if_pos hi]
    by_cases h1 : n = i + 1
    · have hrest : accessedFrom fuel (i + 3) n = [] := by
        cases fuel with
        | zero => rfl
        | succ k =>
          unfold accessedFrom
          rw [if_neg (by omega)]
      rw [hrest]
      refine ⟨[i], by simp [h1], ?_⟩
      intro j hj
      simp only [List.mem_singleton] at hj
      omega
    · obtain ⟨l, hl, hlt⟩ := ih (i + 3) n (by omega) (by omega) (by omega)
      refine ⟨i :: (i + 1) :: l, by simp [hl], ?_⟩
      intro j hj
      simp only [List.mem_cons] at hj
      rcases hj with rfl | rfl | hj
      · exact hi
      · omega
      · exact hlt j hj

theorem scale_coords_ok_of_inrange (img1_shape : Size) (coords : List FloatValue)
    (img0_shape : Size)
    (h : ∀ j ∈ accessedFrom coords.length 0 coords.length, j < coords.length) :
    ∃ out, scale_coords img1_shape coords img0_shape = .ok out ∧ out.length = coords.length := by
  unfold scale_coords
  simp only
  obtain ⟨scaled, e1, l1⟩ := coordsLoop_ok_of_inrange
    (scaleCoord (scale_coords_params img1_shape img0_shape).pad_x
      (scale_coords_params img1_shape img0_shape).gain)
    (scaleCoord (scale_coords_params img1_shape img0_shape).pad_y
      (scale_coords_params img1_shape img0_shape).gain) coords.length 0 coords h
  rw [e1]
  simp only
  obtain ⟨out, e2, l2⟩ := coordsLoop_ok_of_inrange
    (clampCoord img0_shape.width) (clampCoord img0_shape.height) scaled.length 0 scaled
    (by rw [l1]; exact h)
  exact ⟨out, e2, by omega⟩

theorem scale_coords_error_of_outside (img1_shape : Size) (coords : List FloatValue) (img0_shape : Size)
    (h : ∃ j ∈ accessedFrom coords.length 0 coords.length, coords.length ≤ j) :
    scale_coords img1_shape coords img0_shape = .error .outOfRange := by
  unfold scale_coords
  simp only
  rw [coordsLoop_error_of_outside _ _ coords.length 0 coords h]

/-- C21: scale_coords reads and writes only in-range indices of its coordinate vector if
and only if the length n of the vector satisfies n mod 3 ≠ 1. The call returns exactly when
every index i, i + 1 accessed by its loops (i = 0, 3, 6, ... < n) is below n; that holds
exactly when n mod 3 ≠ 1; and when n mod 3 = 1 the last access of the loop is index n,
outside the vector, all earlier accesses being inside, and the call faults there. -/
theorem scale_coords_index_safety (img1_shape : Size) (coords : List FloatValue) (img0_shape : Size) :
    ((∃ out, scale_coords img1_shape coords img0_shape = .ok out) ↔
      ∀ j ∈ accessedFrom coords.length 0 coords.length, j < coords.length) ∧
    ((∀ j ∈ accessedFrom coords.length 0 coords.length, j < coords.length) ↔
      coords.length % 3 ≠ 1) ∧
    (coords.length % 3 ≠ 1 →
      ∃ out, scale_coords img1_shape coords img0_shape = .ok out ∧
        out.length = coords.length) ∧
    (coords.length % 3 = 1 →
      (∃ l, accessedFrom coords.length 0 coords.length = l ++ [coords.length] ∧
        ∀ j ∈ l, j < coords.length) ∧
      scale_coords img1_shape coords img0_shape = .error .outOfRange) := by
  have harith : (∀ j ∈ accessedFrom coords.length 0 coords.length, j < coords.length) ↔
      coords.length % 3 ≠ 1 := by
    rw [accessedFrom_inrange_iff coords.length 0 coords.length (by omega)]
    constructor
    · intro h hmod
      exact h ⟨by omega, by simpa using hmod⟩
    · rintro h ⟨-, hmod⟩
      exact h (by simpa using hmod)
  refine ⟨?_, harith, ?_, ?_⟩
  · constructor
    · rintro ⟨out, hout⟩
      by_contra hcon
      push_neg at hcon
      rw [scale_coords_error_of_outside img1_shape coords img0_shape hcon] at hout
      cases hout
    · intro h
      obtain ⟨out, hout, -⟩ := scale_coords_ok_of_inrange img1_shape coords img0_shape h
      exact ⟨out, hout⟩
  · intro hmod
    exact scale_coords_ok_of_inrange img1_shape coords img0_shape (harith.mpr hmod)
  · intro hmod
    obtain ⟨l, hl, hlt⟩ := accessedFrom_last coords.length 0 coords.length (by omega)
      (by omega) (by simpa using hmod)
    refine ⟨⟨l, hl, hlt⟩, ?_⟩
    apply scale_coords_error_of_outside
    refine ⟨coords.length, ?_, le_refl _⟩
    rw [hl]
    simp

theorem scale_coords_index_safety_witness :
    (∃ out, scale_coords ⟨640, 640⟩
        [.finite 100, .finite 300, .finite (1 / 2), .finite 700, .finite 5] ⟨1000, 333⟩
          = .ok out ∧
      out.length
        = [FloatValue.finite 100, .finite 300, .finite (1 / 2), .finite 700, .finite 5].length) ∧
    ((∃ l, accessedFrom
          [FloatValue.finite 100, .finite 300, .finite (1 / 2), .finite 700].length 0
          [FloatValue.finite 100, .finite 300, .finite (1 / 2), .finite 700].length
        = l ++ [[FloatValue.finite 100, .finite 300, .finite (1 / 2), .finite 700].length] ∧
        ∀ j ∈ l, j < [FloatValue.finite 100, .finite 300, .finite (1 / 2), .finite 700].length) ∧
      scale_coords ⟨640, 640⟩ [.finite 100, .finite 300, .finite (1 / 2), .finite 700]
        ⟨1000, 333⟩ = .error .outOfRange) :=
  ⟨(scale_coords_index_safety ⟨640, 640⟩
      [.finite 100, .finite 300, .finite (1 / 2), .finite 700, .finite 5] ⟨1000, 333⟩).2.2.1
      (by decide),
   (scale_coords_index_safety ⟨640, 640⟩
      [.finite 100, .finite 300, .finite (1 / 2), .finite 700] ⟨1000, 333⟩).2.2.2
      (by decide)⟩

/-! ## scale_coords against scale_boxes -/

/-- Doubling a float is exact. -/
theorem f32_double (x : ℚ) (hx : f32 x = x) : f32 (2 * x) = 2 * x := by
  have hg := two_zpow_pos (qexp 24 (-126) x)
  have hlt := abs_lt_zpow_qexp 24 (-126) x
  have hm : |rint (x / (2 : ℚ) ^ qexp 24 (-126) x)| ≤ 2 ^ 24 := by
    apply abs_rint_le_of_abs_lt
    rw [abs_div, abs_of_pos hg, div_lt_iff₀ hg]
    rw [zpow_add₀ (by norm_num : (2 : ℚ) ≠ 0)] at hlt
    push_cast
    norm_num at hlt ⊢
    linarith
  have hge := qexp_ge 24 (-126) x
  have hrep : x = (rint (x / (2 : ℚ) ^ qexp 24 (-126) x) : ℚ) * (2 : ℚ) ^ qexp 24 (-126) x := by
    have h := hx
    unfold f32 roundBinary at h
    exact h.symm
  have h2 : 2 * x
      = (rint (x / (2 : ℚ) ^ qexp 24 (-126) x) : ℚ) * (2 : ℚ) ^ (qexp 24 (-126) x + 1) := by
    rw [zpow_add₀ (by norm_num : (2 : ℚ) ≠ 0)]
    have : (2 : ℚ) ^ (1 : Int) = 2 := by norm_num
    rw [this]
    linarith
  rw [h2]
  exact f32_int_mul_zpow _ _ hm (by push_cast at hge; omega)

/-- The float quotient of a target dimension below 2^22 by a source dimension against the
double quotient: equal up to the factor `1 + 2^-22`. -/
theorem ratio_close (s t : Int) (hs : 0 < s) (hsr : s < 2147483648) (ht : 0 < t)
    (htr : t < 4194304) :
    0 < f64 ((t : ℚ) / (s : ℚ)) ∧
    f32 (f32 (t : ℚ) / f32 (s : ℚ)) ≤ f64 ((t : ℚ) / (s : ℚ)) * (1 + 1 / 4194304) ∧
    f64 ((t : ℚ) / (s : ℚ)) ≤ f32 (f32 (t : ℚ) / f32 (s : ℚ)) * (1 + 1 / 4194304) := by
  obtain ⟨b1, b2, b3⟩ := f32_dim_bounds s hs hsr
  have ha : f32 (t : ℚ) = (t : ℚ) := f32_small_dim t (le_of_lt ht) (by omega)
  rw [ha]
  have ht1 : (1 : ℚ) ≤ (t : ℚ) := by exact_mod_cast ht
  have ht2 : (t : ℚ) ≤ 4194304 := by exact_mod_cast (le_of_lt htr)
  have hs1 : (1 : ℚ) ≤ (s : ℚ) := by exact_mod_cast hs
  have hs2 : (s : ℚ) ≤ 2147483648 := by exact_mod_cast (le_of_lt hsr)
  have hb0 : (0 : ℚ) < f32 (s : ℚ) := by linarith
  have c24 : (2 : ℚ) ^ (-24 : Int) = 1 / 16777216 := by norm_num [zpow_neg]
  have c53 : (2 : ℚ) ^ (-53 : Int) = 1 / 9007199254740992 := by norm_num [zpow_neg]
  rw [c24] at b3
  obtain ⟨b3l, b3u⟩ := abs_le.mp b3
  generalize f32 (s : ℚ) = b at b1 b2 b3l b3u hb0
  have c31 : (2 : ℚ) ^ (-31 : Int) = 1 / 2147483648 := by norm_num [zpow_neg]
  have c126 : (2 : ℚ) ^ (-126 : Int) ≤ (2 : ℚ) ^ (-31 : Int) :=
    zpow_le_zpow_right₀ (by norm_num) (by norm_num)
  have c1022 : (2 : ℚ) ^ (-1022 : Int) ≤ (2 : ℚ) ^ (-31 : Int) :=
    zpow_le_zpow_right₀ (by norm_num) (by norm_num)
  -- the float side
  have hq0 : (2 : ℚ) ^ (-31 : Int) ≤ (t : ℚ) / b := by
    rw [c31, div_le_div_iff₀ (by norm_num) hb0]
    nlinarith
  have hqpos : 0 < (t : ℚ) / b := lt_of_lt_of_le (two_zpow_pos _) hq0
  have herr := f32_error_le ((t : ℚ) / b) ((t : ℚ) / b)
    (by rw [abs_of_nonneg (le_of_lt hqpos)]) (le_trans c126 hq0)
  rw [c24] at herr
  obtain ⟨e1, e2⟩ := abs_le.mp herr
  -- the double side
  have hd0 : (2 : ℚ) ^ (-31 : Int) ≤ (t : ℚ) / (s : ℚ) := by
    rw [c31, div_le_div_iff₀ (by norm_num) (by linarith)]
    nlinarith
  have hdpos : 0 < (t : ℚ) / (s : ℚ) := lt_of_lt_of_le (two_zpow_pos _) hd0
  have hderr := f64_error_le ((t : ℚ) / (s : ℚ)) ((t : ℚ) / (s : ℚ))
    (by rw [abs_of_nonneg (le_of_lt hdpos)]) (le_trans c1022 hd0)
  rw [c53] at hderr
  obtain ⟨d1, d2⟩ := abs_le.mp hderr
  -- the two exact quotients
  have hsb : (s : ℚ) ≠ 0 := by linarith
  have hbb : b ≠ 0 := ne_of_gt hb0
  have k1 : (t : ℚ) / b * b = (t : ℚ) / (s : ℚ) * (s : ℚ) := by
    field_simp
  have k2 : (t : ℚ) / b * (1 - 1 / 16777216) ≤ (t : ℚ) / (s : ℚ) := by
    have h1 : (t : ℚ) / b * ((s : ℚ) * (1 - 1 / 16777216)) ≤ (t : ℚ) / b * b :=
      mul_le_mul_of_nonneg_left (by linarith) (le_of_lt hqpos)
    rw [k1] at h1
    have h2 : (t : ℚ) / b * (1 - 1 / 16777216) * (s : ℚ) ≤ (t : ℚ) / (s : ℚ) * (s : ℚ) := by
      linarith
    exact le_of_mul_le_mul_right h2 (by linarith)
  have k3 : (t : ℚ) / (s : ℚ) ≤ (t : ℚ) / b * (1 + 1 / 16777216) := by
    have h1 : (t : ℚ) / b * b ≤ (t : ℚ) / b * ((s : ℚ) * (1 + 1 / 16777216)) :=
      mul_le_mul_of_nonneg_left (by linarith) (le_of_lt hqpos)
    rw [k1] at h1
    have h2 : (t : ℚ) / (s : ℚ) * (s : ℚ) ≤ (t : ℚ) / b * (1 + 1 / 16777216) * (s : ℚ) := by
      linarith
    exact le_of_mul_le_mul_right h2 (by linarith)
  generalize f32 ((t : ℚ) / b) = af at e1 e2 ⊢
  generalize f64 ((t : ℚ) / (s : ℚ)) = ad at d1 d2 ⊢
  generalize (t : ℚ) / b = qf at hqpos e1 e2 k2 k3
  generalize (t : ℚ) / (s : ℚ) = qd at hdpos d1 d2 k2 k3
  refine ⟨by linarith, by linarith, by linarith⟩

/-- The float gain of `scale_boxes` against the double gain of `scale_coords`. -/
theorem gain_close (img1_shape img0_shape : Size)
    (h0w : 0 < img0_shape.width) (h0h : 0 < img0_shape.height)
    (h0wr : img0_shape.width < 2147483648) (h0hr : img0_shape.height < 2147483648)
    (h1w : 0 < img1_shape.width) (h1h : 0 < img1_shape.height)
    (h1wr : img1_shape.width < 4194304) (h1hr : img1_shape.height < 4194304) :
    0 < (scale_coords_params img1_shape img0_shape).gain ∧
    letterboxScale img0_shape img1_shape true
      ≤ (scale_coords_params img1_shape img0_shape).gain * (1 + 1 / 4194304) ∧
    (scale_coords_params img1_shape img0_shape).gain
      ≤ letterboxScale img0_shape img1_shape true * (1 + 1 / 4194304) := by
  obtain ⟨w0, w1, w2⟩ := ratio_close img0_shape.width img1_shape.width h0w h0wr h1w h1wr
  obtain ⟨v0, v1, v2⟩ := ratio_close img0_shape.height img1_shape.height h0h h0hr h1h h1hr
  have eg : (scale_coords_params img1_shape img0_shape).gain
      = min (f64 ((img1_shape.width : ℚ) / (img0_shape.width : ℚ)))
        (f64 ((img1_shape.height : ℚ) / (img0_shape.height : ℚ))) := rfl
  have eG : letterboxScale img0_shape img1_shape true
      = min (f32 (f32 (img1_shape.height : ℚ) / f32 (img0_shape.height : ℚ)))
        (f32 (f32 (img1_shape.width : ℚ) / f32 (img0_shape.width : ℚ))) := rfl
  rw [eg, eG]
  generalize f64 ((img1_shape.width : ℚ) / (img0_shape.width : ℚ)) = dw at w0 w1 w2 ⊢
  generalize f64 ((img1_shape.height : ℚ) / (img0_shape.height : ℚ)) = dh at v0 v1 v2 ⊢
  generalize f32 (f32 (img1_shape.width : ℚ) / f32 (img0_shape.width : ℚ)) = fw at w1 w2 ⊢
  generalize f32 (f32 (img1_shape.height : ℚ) / f32 (img0_shape.height : ℚ)) = fh at v1 v2 ⊢
  refine ⟨lt_min w0 v0, ?_, ?_⟩
  · rcases min_choice dw dh with h | h
    · rw [h]; exact le_trans (min_le_right _ _) w1
    · rw [h]; exact le_trans (min_le_left _ _) v1
  · rcases min_choice fh fw with h | h
    · rw [h]; exact le_trans (min_le_right _ _) v2
    · rw [h]; exact le_trans (min_le_left _ _) w2

/-- A source dimension times the scale is at most the target dimension plus one. -/
theorem dim_scale_le (W T : Int) (G : ℚ) (hG : 0 ≤ G) (hW0 : 0 < W) (hW1 : W < 2147483648)
    (hT1 : T < 4194304) (hWG : f32 (W : ℚ) * G ≤ (T : ℚ) + 1 / 4) :
    (W : ℚ) * G ≤ (T : ℚ) + 1 ∧ |f32 (W : ℚ) * G - (W : ℚ) * G| ≤ ((T : ℚ) + 1) / 16777216 := by
  have hTq : (T : ℚ) ≤ 4194303 := by exact_mod_cast (by omega : T ≤ 4194303)
  obtain ⟨fW0, -, fWe⟩ := f32_dim_bounds W hW0 hW1
  have he24 : (2 : ℚ) ^ (-24 : Int) = 1 / 16777216 := by norm_num
  rw [he24] at fWe
  obtain ⟨fe1, fe2⟩ := abs_le.mp fWe
  have hWq0 : (0 : ℚ) < (W : ℚ) := by exact_mod_cast hW0
  have h3 : 0 ≤ (W : ℚ) * G := mul_nonneg (le_of_lt hWq0) hG
  have h1 : ((W : ℚ) - (W : ℚ) * (1 / 16777216)) * G ≤ f32 (W : ℚ) * G :=
    mul_le_mul_of_nonneg_right (by linarith) hG
  have h2 : ((W : ℚ) - (W : ℚ) * (1 / 16777216)) * G
      = (W : ℚ) * G - (W : ℚ) * G * (1 / 16777216) := by ring
  have h4 : f32 (W : ℚ) * G ≤ ((W : ℚ) + (W : ℚ) * (1 / 16777216)) * G :=
    mul_le_mul_of_nonneg_right (by linarith) hG
  have h5 : ((W : ℚ) + (W : ℚ) * (1 / 16777216)) * G
      = (W : ℚ) * G + (W : ℚ) * G * (1 / 16777216) := by ring
  have hle : (W : ℚ) * G ≤ (T : ℚ) + 1 := by linarith
  refine ⟨hle, ?_⟩
  rw [abs_le]
  constructor <;> linarith

/-- The padding of `scale_coords`, computed in double, is the exact `(T - W * g) / 2` up
to 2^-29. -/
theorem coords_pad_close (W T : Int) (g : ℚ) (hg : 0 ≤ g) (hW0 : 0 < W) (hT0 : 0 < T)
    (hT1 : T < 4194304) (hWg : (W : ℚ) * g ≤ 8388608) :
    |f64 (f64 ((T : ℚ) - f64 ((W : ℚ) * g)) / 2) - ((T : ℚ) - (W : ℚ) * g) / 2|
      ≤ 1 / 536870912 := by
  have hTq : (T : ℚ) ≤ 4194303 := by exact_mod_cast (by omega : T ≤ 4194303)
  have hT1q : (1 : ℚ) ≤ (T : ℚ) := by exact_mod_cast hT0
  have hWq0 : (0 : ℚ) < (W : ℚ) := by exact_mod_cast hW0
  have h0 : 0 ≤ (W : ℚ) * g := mul_nonneg (le_of_lt hWq0) hg
  have c53 : (2 : ℚ) ^ (-53 : Int) = 1 / 9007199254740992 := by norm_num [zpow_neg]
  have hsmall : (2 : ℚ) ^ (-1022 : Int) ≤ 8388608 :=
    le_trans (zpow_le_zpow_right₀ (by norm_num) (by norm_num : (-1022 : Int) ≤ 0))
      (by norm_num)
  have hrep : f64 (8388608 : ℚ) = 8388608 := by
    have := f64_intCast 8388608 (by norm_num)
    simpa using this
  have e1 := f64_error_le ((W : ℚ) * g) 8388608 (by rw [abs_of_nonneg h0]; exact hWg) hsmall
  rw [c53] at e1
  obtain ⟨e1l, e1u⟩ := abs_le.mp e1
  have hu0 : 0 ≤ f64 ((W : ℚ) * g) := f64_nonneg h0
  have hu1 : f64 ((W : ℚ) * g) ≤ 8388608 := f64_le_of_le hrep hWg
  have e2 := f64_error_le ((T : ℚ) - f64 ((W : ℚ) * g)) 8388608
    (by rw [abs_le]; constructor <;> linarith) hsmall
  rw [c53] at e2
  obtain ⟨e2l, e2u⟩ := abs_le.mp e2
  have e3 := f64_error_le (f64 ((T : ℚ) - f64 ((W : ℚ) * g)) / 2) 8388608
    (by rw [abs_le]; constructor <;> linarith) hsmall
  rw [c53] at e3
  obtain ⟨e3l, e3u⟩ := abs_le.mp e3
  rw [abs_le]
  constructor <;> linarith

/-- The padding of `scale_boxes` in sentinel mode is the exact `(T - W * G) / 2 - 1 / 10`
up to the rounding to an integer and the float errors. -/
theorem boxes_pad_close (W T : Int) (G : ℚ) (hG : 0 ≤ G) (hW0 : 0 < W)
    (hW1 : W < 2147483648) (hT0 : 0 < T) (hT1 : T < 4194304)
    (hWG : f32 (W : ℚ) * G ≤ (T : ℚ) + 1 / 4) :
    |((stdRound (f32 (f32 (f32 ((T : ℚ) - f32 (f32 (W : ℚ) * G)) / 2) - lit01)) : Int) : ℚ)
        - (((T : ℚ) - (W : ℚ) * G) / 2 - 1 / 10)|
      ≤ 1 / 2 + 5 / 2 * (((T : ℚ) + 1) / 16777216) + 1 / 100000000 := by
  have hTq : (T : ℚ) ≤ 4194303 := by exact_mod_cast (by omega : T ≤ 4194303)
  have hT1q : (1 : ℚ) ≤ (T : ℚ) := by exact_mod_cast hT0
  obtain ⟨l1, l2⟩ := lit01_bounds
  obtain ⟨fW0, -, -⟩ := f32_dim_bounds W hW0 hW1
  obtain ⟨hWle, hWe⟩ := dim_scale_le W T G hG hW0 hW1 hT1 hWG
  obtain ⟨w1, w2⟩ := abs_le.mp hWe
  obtain ⟨u0, u1, -, -⟩ := scaled_dim_facts (f32 (W : ℚ)) G T (by linarith) hG hT0 hT1 hWG
  have he24 : (2 : ℚ) ^ (-24 : Int) = 1 / 16777216 := by norm_num
  have hsmall : (2 : ℚ) ^ (-126 : Int) ≤ (T : ℚ) + 1 := by
    have := two_zpow_neg_le_one 126
    have h : (2 : ℚ) ^ (-126 : Int) ≤ 1 := by simpa using this
    linarith
  have hTf : f32 (T : ℚ) = (T : ℚ) := f32_small_dim T (by omega) (by omega)
  have hq : f32 ((-1 : ℚ) / 4) = (-1 : ℚ) / 4 := by
    have := f32_quarters (-1) (by norm_num)
    simpa using this
  have hp0 : 0 ≤ f32 (W : ℚ) * G := mul_nonneg (by linarith) hG
  have eu := f32_error_le (f32 (W : ℚ) * G) ((T : ℚ) + 1)
    (by rw [abs_of_nonneg hp0]; linarith) hsmall
  rw [he24] at eu
  obtain ⟨eu1, eu2⟩ := abs_le.mp eu
  have ev := f32_error_le ((T : ℚ) - f32 (f32 (W : ℚ) * G)) ((T : ℚ) + 1)
    (by rw [abs_le]; constructor <;> linarith) hsmall
  rw [he24] at ev
  obtain ⟨ev1, ev2⟩ := abs_le.mp ev
  have hv1u : f32 ((T : ℚ) - f32 (f32 (W : ℚ) * G)) ≤ (T : ℚ) := f32_le_of_le hTf (by linarith)
  have hv1l : (-1 : ℚ) / 4 ≤ f32 ((T : ℚ) - f32 (f32 (W : ℚ) * G)) :=
    le_f32_of_le hq (by linarith)
  rw [f32_sub_half_exact T (f32 (f32 (W : ℚ) * G)) (by omega) (f32_idem _)]
  have ez := f32_error_le (f32 ((T : ℚ) - f32 (f32 (W : ℚ) * G)) / 2 - lit01) ((T : ℚ) + 1)
    (by rw [abs_le]; constructor <;> linarith) hsmall
  rw [he24] at ez
  obtain ⟨ez1, ez2⟩ := abs_le.mp ez
  have r1 := stdRound_le (f32 (f32 ((T : ℚ) - f32 (f32 (W : ℚ) * G)) / 2 - lit01))
  have r2 := stdRound_ge (f32 (f32 ((T : ℚ) - f32 (f32 (W : ℚ) * G)) / 2 - lit01))
  rw [abs_le]
  constructor <;> linarith

/-- The rounded float padding of `scale_boxes` against the double padding of
`scale_coords`. -/
theorem pads_close (W T : Int) (G g : ℚ) (hG : 0 ≤ G) (hg : 0 ≤ g) (hW0 : 0 < W)
    (hW1 : W < 2147483648) (hT0 : 0 < T) (hT1 : T < 4194304)
    (hWG : f32 (W : ℚ) * G ≤ (T : ℚ) + 1 / 4)
    (hGg : G ≤ g * (1 + 1 / 4194304)) (hgG : g ≤ G * (1 + 1 / 4194304)) :
    |((stdRound (f32 (f32 (f32 ((T : ℚ) - f32 (f32 (W : ℚ) * G)) / 2) - lit01)) : Int) : ℚ)
        - f64 (f64 ((T : ℚ) - f64 ((W : ℚ) * g)) / 2)|
      ≤ 3 / 5 + 5 * (((T : ℚ) + 1) / 16777216) := by
  have hTq : (T : ℚ) ≤ 4194303 := by exact_mod_cast (by omega : T ≤ 4194303)
  have hT1q : (1 : ℚ) ≤ (T : ℚ) := by exact_mod_cast hT0
  have hWq0 : (0 : ℚ) ≤ (W : ℚ) := by exact_mod_cast (le_of_lt hW0)
  obtain ⟨hWle, -⟩ := dim_scale_le W T G hG hW0 hW1 hT1 hWG
  have k1 : (W : ℚ) * G ≤ (W : ℚ) * (g * (1 + 1 / 4194304)) :=
    mul_le_mul_of_nonneg_left hGg hWq0
  have k2 : (W : ℚ) * g ≤ (W : ℚ) * (G * (1 + 1 / 4194304)) :=
    mul_le_mul_of_nonneg_left hgG hWq0
  have k1r : (W : ℚ) * (g * (1 + 1 / 4194304)) = (W : ℚ) * g * (1 + 1 / 4194304) := by ring
  have k2r : (W : ℚ) * (G * (1 + 1 / 4194304)) = (W : ℚ) * G * (1 + 1 / 4194304) := by ring
  rw [k1r] at k1
  rw [k2r] at k2
  have hWg0 : 0 ≤ (W : ℚ) * g := mul_nonneg hWq0 hg
  have hWG0 : 0 ≤ (W : ℚ) * G := mul_nonneg hWq0 hG
  have hb := boxes_pad_close W T G hG hW0 hW1 hT0 hT1 hWG
  have hc := coords_pad_close W T g hg hW0 hT0 hT1 (by linarith)
  obtain ⟨b1, b2⟩ := abs_le.mp hb
  obtain ⟨c1, c2⟩ := abs_le.mp hc
  rw [abs_le]
  constructor <;> linarith

/-- The box side: when `scale_boxes` does not clip the corner, the corner is the exact
`(x - P) / G` up to float errors, and `x - P` is of the size of the target. -/
theorem box_side (x P G : ℚ) (W T : Int) (hG : 0 < G) (hW0 : 0 < W) (hW1 : W < 2147483648)
    (hT0 : 0 < T) (hT1 : T < 4194304) (hWG : f32 (W : ℚ) * G ≤ (T : ℚ) + 1 / 4)
    (hb0 : 0 ≤ f32 (f32 (x - P) / G)) (hb1 : f32 (f32 (x - P) / G) ≤ f32 (W : ℚ)) :
    |x - P| ≤ 4 * ((T : ℚ) + 1) ∧
    |f32 (f32 (x - P) / G) - (x - P) / G| ≤ 6 * (((T : ℚ) + 1) / 16777216 / G) := by
  have hTq : (T : ℚ) ≤ 4194303 := by exact_mod_cast (by omega : T ≤ 4194303)
  have hT1q : (1 : ℚ) ≤ (T : ℚ) := by exact_mod_cast hT0
  obtain ⟨fW0, -, -⟩ := f32_dim_bounds W hW0 hW1
  have he24 : (2 : ℚ) ^ (-24 : Int) = 1 / 16777216 := by norm_num
  have hsmall : (2 : ℚ) ^ (-126 : Int) ≤ 1 := by
    have := two_zpow_neg_le_one 126
    simpa using this
  have hG0 : 0 ≤ G := le_of_lt hG
  have hGne : G ≠ 0 := ne_of_gt hG
  have h2rep : f32 (2 * f32 (W : ℚ)) = 2 * f32 (W : ℚ) := f32_double _ (f32_idem _)
  have hm1 : f32 (-1 : ℚ) = -1 := by rw [f32_neg, f32_one]
  -- the quotient before rounding
  have hq1 : f32 (x - P) / G ≤ 2 * f32 (W : ℚ) := by
    by_contra hcon
    push_neg at hcon
    have := le_f32_of_le h2rep (le_of_lt hcon)
    linarith
  have hq0 : -1 ≤ f32 (x - P) / G := by
    by_contra hcon
    push_neg at hcon
    have := f32_le_of_le hm1 (le_of_lt hcon)
    linarith
  have eq := f32_error_le (f32 (x - P) / G) (2 * f32 (W : ℚ))
    (by rw [abs_le]; constructor <;> linarith) (by linarith)
  rw [he24] at eq
  obtain ⟨eq1, eq2⟩ := abs_le.mp eq
  -- the float difference
  have hfx : f32 (x - P) = f32 (x - P) / G * G := by field_simp
  have hf1 : f32 (x - P) ≤ 2 * ((T : ℚ) + 1 / 4) := by
    rw [hfx]
    have := mul_le_mul_of_nonneg_right hq1 hG0
    linarith
  have hGle : G ≤ (T : ℚ) + 1 / 4 := by
    have := mul_le_mul_of_nonneg_right fW0 hG0
    linarith
  have hf0 : -((T : ℚ) + 1 / 4) ≤ f32 (x - P) := by
    rw [hfx]
    have := mul_le_mul_of_nonneg_right hq0 hG0
    linarith
  have h4rep : f32 (4 * ((T : ℚ) + 1)) = 4 * ((T : ℚ) + 1) := by
    have := f32_small_dim (4 * (T + 1)) (by omega) (by omega)
    push_cast at this
    exact this
  have hn4rep : f32 (-(4 * ((T : ℚ) + 1))) = -(4 * ((T : ℚ) + 1)) := by rw [f32_neg, h4rep]
  have hx1 : x - P ≤ 4 * ((T : ℚ) + 1) := by
    by_contra hcon
    push_neg at hcon
    have := le_f32_of_le h4rep (le_of_lt hcon)
    linarith
  have hx0 : -(4 * ((T : ℚ) + 1)) ≤ x - P := by
    by_contra hcon
    push_neg at hcon
    have := f32_le_of_le hn4rep (le_of_lt hcon)
    linarith
  have hxabs : |x - P| ≤ 4 * ((T : ℚ) + 1) := by rw [abs_le]; exact ⟨hx0, hx1⟩
  refine ⟨hxabs, ?_⟩
  have ex := f32_error_le (x - P) (4 * ((T : ℚ) + 1)) hxabs (by linarith)
  rw [he24] at ex
  have hsplit : f32 (x - P) / G - (x - P) / G = (f32 (x - P) - (x - P)) / G := by ring
  have hd : |f32 (x - P) / G - (x - P) / G| ≤ 4 * ((T : ℚ) + 1) * (1 / 16777216) / G := by
    rw [hsplit, abs_div, abs_of_pos hG]
    exact div_le_div_of_nonneg_right ex hG0
  obtain ⟨d1, d2⟩ := abs_le.mp hd
  have hWle : f32 (W : ℚ) ≤ ((T : ℚ) + 1) / G := by
    rw [le_div_iff₀ hG]
    linarith
  have e1 : 4 * ((T : ℚ) + 1) * (1 / 16777216) / G = 4 * (((T : ℚ) + 1) / 16777216 / G) := by
    ring
  have e2 : ((T : ℚ) + 1) / G = 16777216 * (((T : ℚ) + 1) / 16777216 / G) := by ring
  rw [e1] at d1 d2
  rw [e2] at hWle
  rw [abs_le]
  constructor <;> linarith

/-- The point side: the coordinate that `scale_coords` stores is the exact `(x - pad) / g`
up to the double and float errors. -/
theorem coords_side (x pad g : ℚ) (T : Int) (hg : 0 < g) (hg1 : g ≤ 8388608) (hT0 : 0 < T)
    (hx : |x - pad| ≤ 5 * ((T : ℚ) + 1)) :
    |f32 (f64 (f64 (x - pad) / g)) - (x - pad) / g| ≤ 8 * (((T : ℚ) + 1) / 16777216 / g) := by
  have hT1q : (1 : ℚ) ≤ (T : ℚ) := by exact_mod_cast hT0
  have he24 : (2 : ℚ) ^ (-24 : Int) = 1 / 16777216 := by norm_num
  have c53 : (2 : ℚ) ^ (-53 : Int) = 1 / 9007199254740992 := by norm_num [zpow_neg]
  have hs126 : (2 : ℚ) ^ (-126 : Int) ≤ 1 / 8388608 :=
    le_trans (zpow_le_zpow_right₀ (by norm_num) (by norm_num : (-126 : Int) ≤ -23))
      (by norm_num)
  have hs1022 : (2 : ℚ) ^ (-1022 : Int) ≤ 1 / 8388608 :=
    le_trans (zpow_le_zpow_right₀ (by norm_num) (by norm_num : (-1022 : Int) ≤ -23))
      (by norm_num)
  have hg0 : 0 ≤ g := le_of_lt hg
  have hR : 1 / 8388608 ≤ ((T : ℚ) + 1) / g := by
    rw [div_le_div_iff₀ (by norm_num) hg]
    linarith
  have e1 := f64_error_le (x - pad) (5 * ((T : ℚ) + 1)) hx
    (le_trans hs1022 (by linarith))
  rw [c53] at e1
  obtain ⟨a1, a2⟩ := abs_le.mp e1
  obtain ⟨x1, x2⟩ := abs_le.mp hx
  have hA : |f64 (x - pad)| ≤ 6 * ((T : ℚ) + 1) := by
    rw [abs_le]; constructor <;> linarith
  have hq : |f64 (x - pad) / g| ≤ 6 * (((T : ℚ) + 1) / g) := by
    rw [abs_div, abs_of_pos hg]
    have := div_le_div_of_nonneg_right hA hg0
    have e : 6 * ((T : ℚ) + 1) / g = 6 * (((T : ℚ) + 1) / g) := by ring
    linarith
  have e2 := f64_error_le (f64 (x - pad) / g) (6 * (((T : ℚ) + 1) / g)) hq
    (le_trans hs1022 (by linarith))
  rw [c53] at e2
  obtain ⟨b1, b2⟩ := abs_le.mp e2
  obtain ⟨q1, q2⟩ := abs_le.mp hq
  have hs : |f64 (f64 (x - pad) / g)| ≤ 7 * (((T : ℚ) + 1) / g) := by
    rw [abs_le]; constructor <;> linarith
  have e3 := f32_error_le (f64 (f64 (x - pad) / g)) (7 * (((T : ℚ) + 1) / g)) hs
    (le_trans hs126 (by linarith))
  rw [he24] at e3
  obtain ⟨c1, c2⟩ := abs_le.mp e3
  have hsplit : f64 (x - pad) / g - (x - pad) / g = (f64 (x - pad) - (x - pad)) / g := by ring
  have hd : |f64 (x - pad) / g - (x - pad) / g|
      ≤ 5 * ((T : ℚ) + 1) * (1 / 9007199254740992) / g := by
    rw [hsplit, abs_div, abs_of_pos hg]
    exact div_le_div_of_nonneg_right e1 hg0
  have ee : 5 * ((T : ℚ) + 1) * (1 / 9007199254740992) / g
      = 5 / 9007199254740992 * (((T : ℚ) + 1) / g) := by ring
  rw [ee] at hd
  obtain ⟨d1, d2⟩ := abs_le.mp hd
  have ef : ((T : ℚ) + 1) / 16777216 / g = 1 / 16777216 * (((T : ℚ) + 1) / g) := by ring
  rw [ef]
  have hRpos : 0 ≤ ((T : ℚ) + 1) / g := by linarith
  rw [abs_le]
  constructor <;> linarith

/-- One axis of the comparison: the corner that `scale_boxes` returns without clipping
against the coordinate that `scale_coords` stores. -/
theorem axis_close (x P pad G g : ℚ) (W T : Int) (hG : 0 < G) (hg : 0 < g)
    (hGg : G ≤ g * (1 + 1 / 4194304)) (hgG : g ≤ G * (1 + 1 / 4194304))
    (hW0 : 0 < W) (hW1 : W < 2147483648) (hT0 : 0 < T) (hT1 : T < 4194304)
    (hWG : f32 (W : ℚ) * G ≤ (T : ℚ) + 1 / 4)
    (hPp : |P - pad| ≤ 3 / 5 + 5 * (((T : ℚ) + 1) / 16777216))
    (hb0 : 0 ≤ f32 (f32 (x - P) / G)) (hb1 : f32 (f32 (x - P) / G) ≤ f32 (W : ℚ)) :
    |f32 (f32 (x - P) / G) - f32 (f64 (f64 (x - pad) / g))|
      ≤ (3 / 5 + ((T : ℚ) + 1) / 262144) / g := by
  have hTq : (T : ℚ) ≤ 4194303 := by exact_mod_cast (by omega : T ≤ 4194303)
  have hT1q : (1 : ℚ) ≤ (T : ℚ) := by exact_mod_cast hT0
  obtain ⟨fW0, -, -⟩ := f32_dim_bounds W hW0 hW1
  have hG0 : 0 ≤ G := le_of_lt hG
  have hg0 : 0 ≤ g := le_of_lt hg
  obtain ⟨hxP, hbE⟩ := box_side x P G W T hG hW0 hW1 hT0 hT1 hWG hb0 hb1
  obtain ⟨p1, p2⟩ := abs_le.mp hPp
  obtain ⟨xp1, xp2⟩ := abs_le.mp hxP
  have hGle : G ≤ (T : ℚ) + 1 / 4 := by
    have := mul_le_mul_of_nonneg_right fW0 hG0
    linarith
  have hg1 : g ≤ 8388608 := by
    have : G * (1 + 1 / 4194304) ≤ ((T : ℚ) + 1 / 4) * (1 + 1 / 4194304) :=
      mul_le_mul_of_nonneg_right hGle (by norm_num)
    linarith
  have hxpad : |x - pad| ≤ 5 * ((T : ℚ) + 1) := by
    rw [abs_le]; constructor <;> linarith
  have hsE := coords_side x pad g T hg hg1 hT0 hxpad
  -- the reciprocals of the two gains
  have hi1 : 1 / G ≤ (1 + 1 / 4194304) * (1 / g) := by
    have e : (1 + 1 / 4194304) * (1 / g) = (1 + 1 / 4194304) / g := by ring
    rw [e, div_le_div_iff₀ hG hg]
    linarith
  have hi2 : 1 / g ≤ (1 + 1 / 4194304) * (1 / G) := by
    have e : (1 + 1 / 4194304) * (1 / G) = (1 + 1 / 4194304) / G := by ring
    rw [e, div_le_div_iff₀ hg hG]
    linarith
  have hig0 : 0 < 1 / g := one_div_pos.mpr hg
  have hiG0 : 0 < 1 / G := one_div_pos.mpr hG
  have hdi : |1 / G - 1 / g| ≤ (1 + 1 / 4194304) * (1 / 4194304) * (1 / g) := by
    rw [abs_le]; constructor <;> linarith
  have ht2 : |(x - P) * (1 / G - 1 / g)|
      ≤ 4 * ((T : ℚ) + 1) * ((1 + 1 / 4194304) * (1 / 4194304) * (1 / g)) := by
    rw [abs_mul]
    exact mul_le_mul hxP hdi (abs_nonneg _) (by linarith)
  have ht3 : |(pad - P) * (1 / g)| ≤ (3 / 5 + 5 * (((T : ℚ) + 1) / 16777216)) * (1 / g) := by
    rw [abs_mul, abs_of_pos hig0]
    apply mul_le_mul_of_nonneg_right _ (le_of_lt hig0)
    rw [abs_le]; constructor <;> linarith
  have hK : ((T : ℚ) + 1) * (1 / G) ≤ (1 + 1 / 4194304) * (((T : ℚ) + 1) * (1 / g)) := by
    have := mul_le_mul_of_nonneg_left hi1 (by linarith : (0 : ℚ) ≤ (T : ℚ) + 1)
    linarith
  have hK0 : 0 ≤ ((T : ℚ) + 1) * (1 / g) := mul_nonneg (by linarith) (le_of_lt hig0)
  have e1 : ((T : ℚ) + 1) / 16777216 / G = 1 / 16777216 * (((T : ℚ) + 1) * (1 / G)) := by ring
  have e2 : ((T : ℚ) + 1) / 16777216 / g = 1 / 16777216 * (((T : ℚ) + 1) * (1 / g)) := by ring
  have e3 : 4 * ((T : ℚ) + 1) * ((1 + 1 / 4194304) * (1 / 4194304) * (1 / g))
      = 4 * (1 + 1 / 4194304) * (1 / 4194304) * (((T : ℚ) + 1) * (1 / g)) := by ring
  have e4 : (3 / 5 + 5 * (((T : ℚ) + 1) / 16777216)) * (1 / g)
      = 3 / 5 * (1 / g) + 5 / 16777216 * (((T : ℚ) + 1) * (1 / g)) := by ring
  have e5 : (3 / 5 + ((T : ℚ) + 1) / 262144) / g
      = 3 / 5 * (1 / g) + 1 / 262144 * (((T : ℚ) + 1) * (1 / g)) := by ring
  rw [e1] at hbE
  rw [e2] at hsE
  rw [e3] at ht2
  rw [e4] at ht3
  rw [e5]
  have hsum : f32 (f32 (x - P) / G) - f32 (f64 (f64 (x - pad) / g))
      = (f32 (f32 (x - P) / G) - (x - P) / G) + (x - P) * (1 / G - 1 / g)
        + (pad - P) * (1 / g) - (f32 (f64 (f64 (x - pad) / g)) - (x - pad) / g) := by ring
  rw [hsum]
  obtain ⟨a1, a2⟩ := abs_le.mp hbE
  obtain ⟨b1, b2⟩ := abs_le.mp ht2
  obtain ⟨c1, c2⟩ := abs_le.mp ht3
  obtain ⟨d1, d2⟩ := abs_le.mp hsE
  rw [abs_le]
  constructor <;> linarith

theorem ofDouble_finite (q s : ℚ) (h : FloatValue.ofDouble q = .finite s) : s = f32 q := by
  unfold FloatValue.ofDouble at h
  split_ifs at h
  exact (FloatValue.finite.inj h).symm

theorem clip_id (v W : ℚ) (h0 : 0 ≤ v) (h1 : v ≤ W) : max 0 (min v W) = v := by
  rw [min_eq_left h1, max_eq_right h0]

/-- The rounded padding of `scale_boxes` in sentinel mode against the padding of
`scale_coords`, and the two gains, for a network input below 2^22. -/
theorem sentinel_vs_coords_params (img1_shape img0_shape : Size)
    (h1w : 0 < img1_shape.width) (h1h : 0 < img1_shape.height)
    (h1wr : img1_shape.width < 4194304) (h1hr : img1_shape.height < 4194304)
    (h0w : 0 < img0_shape.width) (h0h : 0 < img0_shape.height)
    (h0wr : img0_shape.width < 2147483648) (h0hr : img0_shape.height < 2147483648) :
    |(scale_boxes_params img1_shape img0_shape RatioPad.sentinel).pad_x
        - (scale_coords_params img1_shape img0_shape).pad_x|
      ≤ 3 / 5 + 5 * (((img1_shape.width : ℚ) + 1) / 16777216) ∧
    |(scale_boxes_params img1_shape img0_shape RatioPad.sentinel).pad_y
        - (scale_coords_params img1_shape img0_shape).pad_y|
      ≤ 3 / 5 + 5 * (((img1_shape.height : ℚ) + 1) / 16777216) := by
  obtain ⟨g0, g1, g2⟩ := gain_close img1_shape img0_shape h0w h0h h0wr h0hr h1w h1h h1wr h1hr
  obtain ⟨G0, G1, gw, gh⟩ := letterboxScale_facts img0_shape img1_shape true h0w h0h h0wr h0hr
    h1w h1h h1wr h1hr
  have hG : 0 ≤ letterboxScale img0_shape img1_shape true :=
    le_trans (le_of_lt (two_zpow_pos _)) G0
  rw [scale_boxes_params_sentinel]
  have ex : (scale_coords_params img1_shape img0_shape).pad_x
      = f64 (f64 ((img1_shape.width : ℚ) - f64 ((img0_shape.width : ℚ)
        * (scale_coords_params img1_shape img0_shape).gain)) / 2) := rfl
  have ey : (scale_coords_params img1_shape img0_shape).pad_y
      = f64 (f64 ((img1_shape.height : ℚ) - f64 ((img0_shape.height : ℚ)
        * (scale_coords_params img1_shape img0_shape).gain)) / 2) := rfl
  rw [ex, ey]
  simp only []
  rw [f32_small_dim img1_shape.width (by omega) (by omega),
    f32_small_dim img1_shape.height (by omega) (by omega)]
  exact ⟨pads_close img0_shape.width img1_shape.width _ _ hG (le_of_lt g0) h0w h0wr h1w h1wr
      gw g1 g2,
    pads_close img0_shape.height img1_shape.height _ _ hG (le_of_lt g0) h0h h0hr h1h h1hr
      gh g1 g2⟩

/-- C19 (amended): scale_coords subtracts the unrounded padding (T - S * gain) / 2 computed
in double, while scale_boxes in sentinel mode subtracts that padding rounded as
round(pad - 0.1f) and divides by the gain computed in float. For an original image with
positive int dimensions, a network input with positive dimensions below 2^22 and a point
(x, y) that neither function clamps, the top-left corner returned by scale_boxes differs
from the point returned by scale_coords by at most (3/5 + (T.width + 1) / 2^18) / gain in
x and (3/5 + (T.height + 1) / 2^18) / gain in y, gain being the gain of scale_coords. -/
theorem scale_coords_vs_scale_boxes (img1_shape img0_shape : Size) (coords : List FloatValue)
    (k : Nat) (x y w h sx sy : ℚ) (hlen : coords.length % 3 = 0)
    (h1w : 0 < img1_shape.width) (h1h : 0 < img1_shape.height)
    (h1wr : img1_shape.width < 4194304) (h1hr : img1_shape.height < 4194304)
    (h0w : 0 < img0_shape.width) (h0h : 0 < img0_shape.height)
    (h0wr : img0_shape.width < 2147483648) (h0hr : img0_shape.height < 2147483648)
    (hx : coords[3 * k]? = some (.finite x)) (hy : coords[3 * k + 1]? = some (.finite y))
    (hsx : scaleCoord (scale_coords_params img1_shape img0_shape).pad_x
      (scale_coords_params img1_shape img0_shape).gain (.finite x) = .finite sx)
    (cx0 : 0 ≤ sx) (cx1 : sx ≤ f32 ((img0_shape.width - 1 : Int) : ℚ))
    (hsy : scaleCoord (scale_coords_params img1_shape img0_shape).pad_y
      (scale_coords_params img1_shape img0_shape).gain (.finite y) = .finite sy)
    (cy0 : 0 ≤ sy) (cy1 : sy ≤ f32 ((img0_shape.height - 1 : Int) : ℚ))
    (bx0 : 0 ≤ f32 (f32 (x - (scale_boxes_params img1_shape img0_shape RatioPad.sentinel).pad_x)
      / (scale_boxes_params img1_shape img0_shape RatioPad.sentinel).gain))
    (bx1 : f32 (f32 (x - (scale_boxes_params img1_shape img0_shape RatioPad.sentinel).pad_x)
      / (scale_boxes_params img1_shape img0_shape RatioPad.sentinel).gain)
      ≤ f32 (img0_shape.width : ℚ))
    (by0 : 0 ≤ f32 (f32 (y - (scale_boxes_params img1_shape img0_shape RatioPad.sentinel).pad_y)
      / (scale_boxes_params img1_shape img0_shape RatioPad.sentinel).gain))
    (by1 : f32 (f32 (y - (scale_boxes_params img1_shape img0_shape RatioPad.sentinel).pad_y)
      / (scale_boxes_params img1_shape img0_shape RatioPad.sentinel).gain)
      ≤ f32 (img0_shape.height : ℚ)) :
    ∃ out, scale_coords img1_shape coords img0_shape = .ok out ∧
      out[3 * k]? = some (.finite sx) ∧ out[3 * k + 1]? = some (.finite sy) ∧
      (scale_boxes img1_shape ⟨x, y, w, h⟩ img0_shape RatioPad.sentinel true).x
        = f32 (f32 (x - (scale_boxes_params img1_shape img0_shape RatioPad.sentinel).pad_x)
          / (scale_boxes_params img1_shape img0_shape RatioPad.sentinel).gain) ∧
      (scale_boxes img1_shape ⟨x, y, w, h⟩ img0_shape RatioPad.sentinel true).y
        = f32 (f32 (y - (scale_boxes_params img1_shape img0_shape RatioPad.sentinel).pad_y)
          / (scale_boxes_params img1_shape img0_shape RatioPad.sentinel).gain) ∧
      |(scale_boxes img1_shape ⟨x, y, w, h⟩ img0_shape RatioPad.sentinel true).x - sx|
        ≤ (3 / 5 + ((img1_shape.width : ℚ) + 1) / 262144)
          / (scale_coords_params img1_shape img0_shape).gain ∧
      |(scale_boxes img1_shape ⟨x, y, w, h⟩ img0_shape RatioPad.sentinel true).y - sy|
        ≤ (3 / 5 + ((img1_shape.height : ℚ) + 1) / 262144)
          / (scale_coords_params img1_shape img0_shape).gain := by
  have hl1 : (mapTriples
      (scaleCoord (scale_coords_params img1_shape img0_shape).pad_x
        (scale_coords_params img1_shape img0_shape).gain)
      (scaleCoord (scale_coords_params img1_shape img0_shape).pad_y
        (scale_coords_params img1_shape img0_shape).gain)
      coords).length = coords.length := mapTriples_length _ _ _ _ (le_refl _)
  have hbx : (scale_boxes img1_shape ⟨x, y, w, h⟩ img0_shape RatioPad.sentinel true).x
      = f32 (f32 (x - (scale_boxes_params img1_shape img0_shape RatioPad.sentinel).pad_x)
        / (scale_boxes_params img1_shape img0_shape RatioPad.sentinel).gain) := by
    unfold scale_boxes clip_boxes_float
    simp only [if_true]
    exact clip_id _ _ bx0 bx1
  have hby : (scale_boxes img1_shape ⟨x, y, w, h⟩ img0_shape RatioPad.sentinel true).y
      = f32 (f32 (y - (scale_boxes_params img1_shape img0_shape RatioPad.sentinel).pad_y)
        / (scale_boxes_params img1_shape img0_shape RatioPad.sentinel).gain) := by
    unfold scale_boxes clip_boxes_float
    simp only [if_true]
    exact clip_id _ _ by0 by1
  obtain ⟨g0, g1, g2⟩ := gain_close img1_shape img0_shape h0w h0h h0wr h0hr h1w h1h h1wr h1hr
  obtain ⟨G0, G1, gw, gh⟩ := letterboxScale_facts img0_shape img1_shape true h0w h0h h0wr h0hr
    h1w h1h h1wr h1hr
  have hG : 0 < letterboxScale img0_shape img1_shape true := lt_of_lt_of_le (two_zpow_pos _) G0
  obtain ⟨px, py⟩ := sentinel_vs_coords_params img1_shape img0_shape h1w h1h h1wr h1hr h0w h0h
    h0wr h0hr
  have esx : sx = f32 (f64 (f64 (x - (scale_coords_params img1_shape img0_shape).pad_x)
      / (scale_coords_params img1_shape img0_shape).gain)) := ofDouble_finite _ _ hsx
  have esy : sy = f32 (f64 (f64 (y - (scale_coords_params img1_shape img0_shape).pad_y)
      / (scale_coords_params img1_shape img0_shape).gain)) := ofDouble_finite _ _ hsy
  have eG := sentinel_gain img1_shape img0_shape
  refine ⟨_, scale_coords_eq img1_shape coords img0_shape hlen, ?_, ?_, hbx, hby, ?_, ?_⟩
  · rw [(mapTriples_getElem _ _ k _ (by rw [hl1]; exact hlen)).1,
      (mapTriples_getElem _ _ k _ hlen).1, hx]
    simp only [Option.map_some']
    rw [hsx, clampCoord_id _ _ cx0 cx1]
  · rw [(mapTriples_getElem _ _ k _ (by rw [hl1]; exact hlen)).2.1,
      (mapTriples_getElem _ _ k _ hlen).2.1, hy]
    simp only [Option.map_some']
    rw [hsy, clampCoord_id _ _ cy0 cy1]
  · rw [hbx, esx]
    rw [eG] at bx0 bx1 ⊢
    exact axis_close x _ _ _ _ img0_shape.width img1_shape.width hG g0 g1 g2 h0w h0wr h1w h1wr
      gw px bx0 bx1
  · rw [hby, esy]
    rw [eG] at by0 by1 ⊢
    exact axis_close y _ _ _ _ img0_shape.height img1_shape.height hG g0 g1 g2 h0h h0hr h1h h1hr
      gh py by0 by1

theorem scale_coords_vs_scale_boxes_witness :
    ∃ out, scale_coords ⟨640, 640⟩ [.finite 100, .finite 300, .finite (1 / 2)] ⟨1000, 500⟩
        = .ok out ∧
      out[3 * 0]? = some (.finite (625 / 4)) ∧ out[3 * 0 + 1]? = some (.finite (875 / 4)) ∧
      |(scale_boxes ⟨640, 640⟩ ⟨100, 300, 10, 10⟩ ⟨1000, 500⟩ RatioPad.sentinel true).x
          - 625 / 4|
        ≤ (3 / 5 + ((640 : ℚ) + 1) / 262144) / (scale_coords_params ⟨640, 640⟩ ⟨1000, 500⟩).gain ∧
      |(scale_boxes ⟨640, 640⟩ ⟨100, 300, 10, 10⟩ ⟨1000, 500⟩ RatioPad.sentinel true).y
          - 875 / 4|
        ≤ (3 / 5 + ((640 : ℚ) + 1) / 262144)
          / (scale_coords_params ⟨640, 640⟩ ⟨1000, 500⟩).gain :=
  match scale_coords_vs_scale_boxes ⟨640, 640⟩ ⟨1000, 500⟩
      [.finite 100, .finite 300, .finite (1 / 2)] 0 100 300 10 10 (625 / 4) (875 / 4)
      (by decide) (by decide) (by decide) (by decide) (by decide) (by decide) (by decide)
      (by decide) (by decide) (by decide) (by decide)
      (by decide!) (by decide!) (by decide!) (by decide!) (by decide!) (by decide!)
      (by decide!) (by decide!) (by decide!) (by decide!) with
  | ⟨out, h1, h2, h3, _, _, h6, h7⟩ => ⟨out, h1, h2, h3, h6, h7⟩

/-- C19 as stated fails: with a 640 x 640 network input and a 1000 x 333 original image
the point (100, 300) is mapped by scale_coords to (156.25, 135.25) and the box with that
top-left corner is mapped by scale_boxes (sentinel mode, padding = true) to a box whose
corner is (156.25, 135.9375); neither result is clamped (the image is 1000 x 333).
scale_coords subtracts the padding 213.44 (in double), scale_boxes the padding 213. -/
theorem scale_coords_differs_from_scale_boxes :
    scale_coords ⟨640, 640⟩ [.finite 100, .finite 300, .finite 1] ⟨1000, 333⟩
      = .ok [.finite (625 / 4), .finite (541 / 4), .finite 1] ∧
    scale_boxes ⟨640, 640⟩ ⟨100, 300, 10, 10⟩ ⟨1000, 333⟩ RatioPad.sentinel true
      = ⟨625 / 4, 2175 / 16, 125 / 8, 125 / 8⟩ ∧
    (541 / 4 : ℚ) ≠ 2175 / 16 ∧
    (scale_coords_params ⟨640, 640⟩ ⟨1000, 333⟩).pad_y
      = 3754876189320151 / 17592186044416 ∧
    (scale_boxes_params ⟨640, 640⟩ ⟨1000, 333⟩ RatioPad.sentinel).pad_y = 213 := by
  refine ⟨by decide!, by decide!, by decide!, by decide!, by decide!⟩

/-! ## scale_image -/

/-- C15: for every mask whose size equals im0_shape and every ratio_pad (sentinel or
explicit), scale_image returns a mask equal to the input in rows, columns and every
element, whatever interpolation `cv::resize` implements. -/
theorem scale_image_identity (interp : Mask → Size → List ℚ) (resized_mask : Mask)
    (im0_shape : Size) (ratio_pad : RatioPad) (h : resized_mask.size = im0_shape) :
    scale_image interp resized_mask im0_shape ratio_pad = .ok resized_mask ∧
    (∀ out, scale_image interp resized_mask im0_shape ratio_pad = .ok out →
      out.rows = resized_mask.rows ∧ out.cols = resized_mask.cols ∧
      out.data = resized_mask.data) := by
  have e : scale_image interp resized_mask im0_shape ratio_pad = .ok resized_mask := by
    unfold scale_image
    rw [if_pos h]
  refine ⟨e, ?_⟩
  intro out hout
  rw [e] at hout
  simp only [Except.ok.injEq] at hout
  subst hout
  exact ⟨rfl, rfl, rfl⟩

theorem scale_image_identity_witness :
    scale_image (fun _ _ => []) ⟨2, 3, [1, 0, 1, 0, 1, 1]⟩ ⟨3, 2⟩ ⟨1 / 2, ⟨7, 9⟩⟩
      = .ok ⟨2, 3, [1, 0, 1, 0, 1, 1]⟩ :=
  (scale_image_identity (fun _ _ => []) ⟨2, 3, [1, 0, 1, 0, 1, 1]⟩ ⟨3, 2⟩ ⟨1 / 2, ⟨7, 9⟩⟩
    (by decide)).1

theorem Mask.roi_error_of_neg (m : Mask) (roi : Rect) (h : roi.width < 0 ∨ roi.height < 0) :
    m.roi roi = .error .assertFailed := by
  unfold Mask.roi
  rw [if_neg]
  rintro ⟨-, h1, -, -, h2, -⟩
  omega
/-- C16 (amended): scale_image does not validate the crop rectangle. With an explicit
ratio_pad whose padding makes the rectangle degenerate (int(2 * pad_x) > cols or
int(2 * pad_y) > rows), a mask whose size differs from im0_shape is cropped with that
rectangle and the call ends in the failed assertion of the OpenCV sub-matrix
constructor; a mask whose size equals im0_shape is returned as is, with no error. -/
theorem scale_image_degenerate_crop (interp : Mask → Size → List ℚ) (resized_mask : Mask)
    (im0_shape : Size) (ratio_pad : RatioPad) (hexp : 0 ≤ ratio_pad.first)
    (hdeg : resized_mask.cols < truncInt (f32 (ratio_pad.second.x * 2)) ∨
      resized_mask.rows < truncInt (f32 (ratio_pad.second.y * 2))) :
    (resized_mask.size ≠ im0_shape →
      (clipped_rect resized_mask im0_shape ratio_pad).width
          = resized_mask.cols - truncInt (f32 (ratio_pad.second.x * 2)) ∧
      (clipped_rect resized_mask im0_shape ratio_pad).height
          = resized_mask.rows - truncInt (f32 (ratio_pad.second.y * 2)) ∧
      resized_mask.roi (clipped_rect resized_mask im0_shape ratio_pad) = .error .assertFailed ∧
      scale_image interp resized_mask im0_shape ratio_pad = .error .assertFailed) ∧
    (resized_mask.size = im0_shape →
      scale_image interp resized_mask im0_shape ratio_pad = .ok resized_mask) := by
  have hp : scale_image_params resized_mask im0_shape ratio_pad
      = { gain := ratio_pad.first, pad_x := ratio_pad.second.x, pad_y := ratio_pad.second.y } := by
    unfold scale_image_params
    rw [if_neg (not_lt.mpr hexp)]
  have hw : (clipped_rect resized_mask im0_shape ratio_pad).width
      = resized_mask.cols - truncInt (f32 (ratio_pad.second.x * 2)) := by
    unfold clipped_rect
    rw [hp]
  have hh : (clipped_rect resized_mask im0_shape ratio_pad).height
      = resized_mask.rows - truncInt (f32 (ratio_pad.second.y * 2)) := by
    unfold clipped_rect
    rw [hp]
  have hroi : resized_mask.roi (clipped_rect resized_mask im0_shape ratio_pad)
      = .error .assertFailed := by
    apply Mask.roi_error_of_neg
    rw [hw, hh]
    omega
  constructor
  · intro hne
    refine ⟨hw, hh, hroi, ?_⟩
    unfold scale_image
    rw [if_neg hne, hroi]
  · intro heq
    unfold scale_image
    rw [if_pos heq]

theorem scale_image_degenerate_crop_witness :
    scale_image (fun _ _ => []) ⟨2, 2, [1, 2, 3, 4]⟩ ⟨4, 4⟩ ⟨1, ⟨5, 5⟩⟩
      = .error .assertFailed :=
  ((scale_image_degenerate_crop (fun _ _ => []) ⟨2, 2, [1, 2, 3, 4]⟩ ⟨4, 4⟩ ⟨1, ⟨5, 5⟩⟩
    (by decide!) (by decide!)).1 (by decide)).2.2.2

/-- C16 as stated fails: a 2 x 2 mask with im0_shape 2 x 2 and the explicit ratio_pad
(1, (5, 5)), for which int(2 * pad_x) = 10 > 2, is returned unchanged: no validation, no
error. -/
theorem scale_image_degenerate_pad_no_error :
    truncInt (f32 ((5 : ℚ) * 2)) = 10 ∧
    scale_image (fun _ _ => []) ⟨2, 2, [1, 2, 3, 4]⟩ ⟨2, 2⟩ ⟨1, ⟨5, 5⟩⟩
      = .ok ⟨2, 2, [1, 2, 3, 4]⟩ := by
  refine ⟨by decide!, by decide!⟩

theorem scale_image_params_sentinel (resized_mask : Mask) (im0_shape : Size) :
    scale_image_params resized_mask im0_shape RatioPad.sentinel =
      { gain := letterboxScale im0_shape resized_mask.size true
        pad_x := f32 (f32 (f32 (resized_mask.cols : ℚ) - f32 (f32 (im0_shape.width : ℚ)
          * letterboxScale im0_shape resized_mask.size true)) / 2)
        pad_y := f32 (f32 (f32 (resized_mask.rows : ℚ) - f32 (f32 (im0_shape.height : ℚ)
          * letterboxScale im0_shape resized_mask.size true)) / 2) } := by
  unfold scale_image_params
  rw [if_pos (by unfold RatioPad.sentinel; norm_num)]
  rfl

theorem truncInt_small_neg (q : ℚ) (h0 : q < 0) (h1 : -1 < q) : truncInt q = 0 := by
  unfold truncInt
  rw [if_neg (not_le.mpr h0), Int.ceil_eq_iff]
  constructor
  · push_cast; linarith
  · push_cast; linarith

/-- One axis of the crop in float arithmetic, for a mask dimension `0 < n < 2^22` and a
float scaled target dimension `0 ≤ u ≤ n + 1/4`: the padding is `f32 (n - u) / 2`, at least
`-1/8`, and the crop `[int(pad), int(pad) + n - int(2 * pad))` lies inside `[0, n)`; it is
non-empty when `u ≥ 1/4`. -/
theorem crop_axis (n : Int) (u : ℚ) (hn0 : 0 < n) (hn1 : n < 4194304) (hu : f32 u = u)
    (hu0 : 0 ≤ u) (hu1 : u ≤ (n : ℚ) + 1 / 4) :
    -(1 / 8) ≤ f32 (f32 (f32 (n : ℚ) - u) / 2) ∧
    0 ≤ truncInt (f32 (f32 (f32 (n : ℚ) - u) / 2)) ∧
    0 ≤ n - truncInt (f32 (f32 (f32 (f32 (n : ℚ) - u) / 2) * 2)) ∧
    truncInt (f32 (f32 (f32 (n : ℚ) - u) / 2))
      + (n - truncInt (f32 (f32 (f32 (f32 (n : ℚ) - u) / 2) * 2))) ≤ n ∧
    (1 / 4 ≤ u → 1 ≤ n - truncInt (f32 (f32 (f32 (f32 (n : ℚ) - u) / 2) * 2))) ∧
    (u ≤ (n : ℚ) → 0 ≤ f32 (f32 (f32 (n : ℚ) - u) / 2)) := by
  have hnf : f32 (n : ℚ) = (n : ℚ) := f32_small_dim n (by omega) (by omega)
  have hq : f32 ((-1 : ℚ) / 4) = (-1 : ℚ) / 4 := by
    have := f32_quarters (-1) (by norm_num)
    simpa using this
  have hnq : f32 ((n : ℚ) - 1 / 4) = (n : ℚ) - 1 / 4 := by
    have := f32_quarters (4 * n - 1) (by rw [abs_of_nonneg (by omega)]; omega)
    have e : (((4 * n - 1 : Int) : ℚ)) / 4 = (n : ℚ) - 1 / 4 := by push_cast; ring
    rwa [e] at this
  rw [hnf, f32_sub_half_exact n u (by omega) hu]
  have e2 : f32 ((n : ℚ) - u) / 2 * 2 = f32 ((n : ℚ) - u) := by ring
  rw [e2, f32_idem]
  have hv1 : f32 ((n : ℚ) - u) ≤ (n : ℚ) := f32_le_of_le hnf (by linarith)
  have hv0 : (-1 : ℚ) / 4 ≤ f32 ((n : ℚ) - u) := le_f32_of_le hq (by linarith)
  have hvq : 1 / 4 ≤ u → f32 ((n : ℚ) - u) ≤ (n : ℚ) - 1 / 4 :=
    fun h => f32_le_of_le hnq (by linarith)
  have hvp : u ≤ (n : ℚ) → 0 ≤ f32 ((n : ℚ) - u) := fun h => f32_nonneg (by linarith)
  generalize f32 ((n : ℚ) - u) = v at hv1 hv0 hvq hvp
  have hn0q : (0 : ℚ) < (n : ℚ) := by exact_mod_cast hn0
  rcases le_or_lt 0 v with hv | hv
  · have t1 : truncInt (v / 2) = Int.floor (v / 2) := truncInt_of_nonneg _ (by linarith)
    have t2 : truncInt v = Int.floor v := truncInt_of_nonneg _ hv
    rw [t1, t2]
    have f0 : 0 ≤ Int.floor (v / 2) := Int.floor_nonneg.mpr (by linarith)
    have f1 : Int.floor (v / 2) ≤ Int.floor v := Int.floor_mono (by linarith)
    have f2 : Int.floor v ≤ n := by
      have : Int.floor v ≤ Int.floor (n : ℚ) := Int.floor_mono hv1
      rwa [Int.floor_intCast] at this
    refine ⟨by linarith, f0, by omega, by omega, ?_, fun _ => by linarith⟩
    intro h
    have : Int.floor v < n := by
      rw [Int.floor_lt]
      have := hvq h
      linarith
    omega
  · have t1 : truncInt (v / 2) = 0 := truncInt_small_neg _ (by linarith) (by linarith)
    have t2 : truncInt v = 0 := truncInt_small_neg _ hv (by linarith)
    rw [t1, t2]
    refine ⟨by linarith, le_refl _, by omega, by omega, fun _ => by omega, ?_⟩
    intro h
    have := hvp h
    linarith

/-- C20 (amended): in recompute mode (sentinel ratio_pad), for a mask with positive
dimensions below 2^22 and a target size with positive int dimensions that differ, the crop
rectangle Rect(int(pad_x), int(pad_y), cols - int(2 * pad_x), rows - int(2 * pad_y)) never
leaves the mask: pad_x, pad_y ≥ -1/8, x, y ≥ 0, width, height ≥ 0, x + width ≤ cols and
y + height ≤ rows, and the crop is accepted. The padding is ≥ 0 on an axis where the float
scaled target dimension does not exceed the mask dimension; the crop is not empty on an
axis where the float scaled target dimension is at least 1/4; when it is empty on no axis
scale_image returns a mask of size im0_shape. -/
theorem scale_image_crop_inside (interp : Mask → Size → List ℚ) (resized_mask : Mask)
    (im0_shape : Size) (hr : 1 ≤ resized_mask.rows) (hc : 1 ≤ resized_mask.cols)
    (hrr : resized_mask.rows < 4194304) (hcr : resized_mask.cols < 4194304)
    (hw : 1 ≤ im0_shape.width) (hh : 1 ≤ im0_shape.height)
    (hwr : im0_shape.width < 2147483648) (hhr : im0_shape.height < 2147483648)
    (hne : resized_mask.size ≠ im0_shape) :
    -(1 / 8) ≤ (scale_image_params resized_mask im0_shape RatioPad.sentinel).pad_x ∧
    -(1 / 8) ≤ (scale_image_params resized_mask im0_shape RatioPad.sentinel).pad_y ∧
    0 ≤ (clipped_rect resized_mask im0_shape RatioPad.sentinel).x ∧
    0 ≤ (clipped_rect resized_mask im0_shape RatioPad.sentinel).y ∧
    0 ≤ (clipped_rect resized_mask im0_shape RatioPad.sentinel).width ∧
    0 ≤ (clipped_rect resized_mask im0_shape RatioPad.sentinel).height ∧
    (clipped_rect resized_mask im0_shape RatioPad.sentinel).x
      + (clipped_rect resized_mask im0_shape RatioPad.sentinel).width ≤ resized_mask.cols ∧
    (clipped_rect resized_mask im0_shape RatioPad.sentinel).y
      + (clipped_rect resized_mask im0_shape RatioPad.sentinel).height ≤ resized_mask.rows ∧
    (∃ clipped_mask, resized_mask.roi (clipped_rect resized_mask im0_shape RatioPad.sentinel)
      = .ok clipped_mask) ∧
    (f32 (f32 (im0_shape.width : ℚ)
        * (scale_image_params resized_mask im0_shape RatioPad.sentinel).gain)
        ≤ (resized_mask.cols : ℚ) →
      0 ≤ (scale_image_params resized_mask im0_shape RatioPad.sentinel).pad_x) ∧
    (f32 (f32 (im0_shape.height : ℚ)
        * (scale_image_params resized_mask im0_shape RatioPad.sentinel).gain)
        ≤ (resized_mask.rows : ℚ) →
      0 ≤ (scale_image_params resized_mask im0_shape RatioPad.sentinel).pad_y) ∧
    (1 / 4 ≤ f32 (f32 (im0_shape.width : ℚ)
        * (scale_image_params resized_mask im0_shape RatioPad.sentinel).gain) →
      1 ≤ (clipped_rect resized_mask im0_shape RatioPad.sentinel).width) ∧
    (1 / 4 ≤ f32 (f32 (im0_shape.height : ℚ)
        * (scale_image_params resized_mask im0_shape RatioPad.sentinel).gain) →
      1 ≤ (clipped_rect resized_mask im0_shape RatioPad.sentinel).height) ∧
    (1 ≤ (clipped_rect resized_mask im0_shape RatioPad.sentinel).width →
      1 ≤ (clipped_rect resized_mask im0_shape RatioPad.sentinel).height →
      ∃ out, scale_image interp resized_mask im0_shape RatioPad.sentinel = .ok out ∧
        out.size = im0_shape) := by
  obtain ⟨g0, g1, gw, gh⟩ := letterboxScale_facts im0_shape resized_mask.size true
    (by omega) (by omega) hwr hhr (by unfold Mask.size; simp only; omega)
    (by unfold Mask.size; simp only; omega) (by unfold Mask.size; simp only; omega)
    (by unfold Mask.size; simp only; omega)
  have hG : 0 ≤ letterboxScale im0_shape resized_mask.size true :=
    le_trans (le_of_lt (two_zpow_pos _)) g0
  obtain ⟨bw0, -, -⟩ := f32_dim_bounds im0_shape.width (by omega) hwr
  obtain ⟨bh0, -, -⟩ := f32_dim_bounds im0_shape.height (by omega) hhr
  have ec : (resized_mask.size).width = resized_mask.cols := rfl
  have er : (resized_mask.size).height = resized_mask.rows := rfl
  rw [ec] at gw
  rw [er] at gh
  obtain ⟨uw0, uw1, -, -⟩ := scaled_dim_facts (f32 (im0_shape.width : ℚ))
    (letterboxScale im0_shape resized_mask.size true) resized_mask.cols (by linarith) hG
    (by omega) hcr gw
  obtain ⟨uh0, uh1, -, -⟩ := scaled_dim_facts (f32 (im0_shape.height : ℚ))
    (letterboxScale im0_shape resized_mask.size true) resized_mask.rows (by linarith) hG
    (by omega) hrr gh
  obtain ⟨px, x0, w0, xw, w1, pxn⟩ := crop_axis resized_mask.cols _ (by omega) hcr (f32_idem _)
    uw0 uw1
  obtain ⟨py, y0, h0, yh, h1, pyn⟩ := crop_axis resized_mask.rows _ (by omega) hrr (f32_idem _)
    uh0 uh1
  have hrect : clipped_rect resized_mask im0_shape RatioPad.sentinel =
      { x := truncInt (f32 (f32 (f32 (resized_mask.cols : ℚ) - f32 (f32 (im0_shape.width : ℚ)
          * letterboxScale im0_shape resized_mask.size true)) / 2))
        y := truncInt (f32 (f32 (f32 (resized_mask.rows : ℚ) - f32 (f32 (im0_shape.height : ℚ)
          * letterboxScale im0_shape resized_mask.size true)) / 2))
        width := resized_mask.cols - truncInt (f32 (f32 (f32 (f32 (resized_mask.cols : ℚ)
          - f32 (f32 (im0_shape.width : ℚ)
            * letterboxScale im0_shape resized_mask.size true)) / 2) * 2))
        height := resized_mask.rows - truncInt (f32 (f32 (f32 (f32 (resized_mask.rows : ℚ)
          - f32 (f32 (im0_shape.height : ℚ)
            * letterboxScale im0_shape resized_mask.size true)) / 2) * 2)) } := by
    unfold clipped_rect
    rw [scale_image_params_sentinel]
  rw [scale_image_params_sentinel, hrect]
  simp only []
  have hroi : resized_mask.roi
      { x := truncInt (f32 (f32 (f32 (resized_mask.cols : ℚ) - f32 (f32 (im0_shape.width : ℚ)
          * letterboxScale im0_shape resized_mask.size true)) / 2))
        y := truncInt (f32 (f32 (f32 (resized_mask.rows : ℚ) - f32 (f32 (im0_shape.height : ℚ)
          * letterboxScale im0_shape resized_mask.size true)) / 2))
        width := resized_mask.cols - truncInt (f32 (f32 (f32 (f32 (resized_mask.cols : ℚ)
          - f32 (f32 (im0_shape.width : ℚ)
            * letterboxScale im0_shape resized_mask.size true)) / 2) * 2))
        height := resized_mask.rows - truncInt (f32 (f32 (f32 (f32 (resized_mask.rows : ℚ)
          - f32 (f32 (im0_shape.height : ℚ)
            * letterboxScale im0_shape resized_mask.size true)) / 2) * 2)) }
      = .ok { rows := resized_mask.rows - truncInt (f32 (f32 (f32 (f32 (resized_mask.rows : ℚ)
                - f32 (f32 (im0_shape.height : ℚ)
                  * letterboxScale im0_shape resized_mask.size true)) / 2) * 2))
              cols := resized_mask.cols - truncInt (f32 (f32 (f32 (f32 (resized_mask.cols : ℚ)
                - f32 (f32 (im0_shape.width : ℚ)
                  * letterboxScale im0_shape resized_mask.size true)) / 2) * 2))
              data := (List.range (resized_mask.rows - truncInt (f32 (f32 (f32
                  (f32 (resized_mask.rows : ℚ) - f32 (f32 (im0_shape.height : ℚ)
                  * letterboxScale im0_shape resized_mask.size true)) / 2) * 2))).toNat).flatMap
                (fun i => (resized_mask.data.drop
                  (((truncInt (f32 (f32 (f32 (resized_mask.rows : ℚ)
                    - f32 (f32 (im0_shape.height : ℚ)
                      * letterboxScale im0_shape resized_mask.size true)) / 2))).toNat + i)
                    * resized_mask.cols.toNat
                    + (truncInt (f32 (f32 (f32 (resized_mask.cols : ℚ)
                      - f32 (f32 (im0_shape.width : ℚ)
                        * letterboxScale im0_shape resized_mask.size true)) / 2))).toNat)).take
                  (resized_mask.cols - truncInt (f32 (f32 (f32 (f32 (resized_mask.cols : ℚ)
                    - f32 (f32 (im0_shape.width : ℚ)
                      * letterboxScale im0_shape resized_mask.size true)) / 2) * 2))).toNat) } := by
    unfold Mask.roi
    simp only
    rw [if_pos ⟨x0, w0, xw, y0, h0, yh⟩]
  refine ⟨px, py, x0, y0, w0, h0, xw, yh, ⟨_, hroi⟩, pxn, pyn, w1, h1, ?_⟩
  intro hw1 hh1
  unfold scale_image
  rw [if_neg hne, hrect, hroi]
  simp only
  unfold cvResize
  rw [if_neg (by
    simp only [not_or, not_le]
    exact ⟨by omega, by omega, by omega, by omega⟩)]
  exact ⟨_, rfl, rfl⟩

theorem scale_image_crop_inside_witness :
    (clipped_rect ⟨4, 4, [1, 1, 1, 1, 1, 1, 1, 1, 0, 0, 0, 0, 0, 0, 0, 0]⟩ ⟨8, 3⟩
        RatioPad.sentinel).y
      + (clipped_rect ⟨4, 4, [1, 1, 1, 1, 1, 1, 1, 1, 0, 0, 0, 0, 0, 0, 0, 0]⟩ ⟨8, 3⟩
        RatioPad.sentinel).height ≤ (4 : Int) :=
  (scale_image_crop_inside (fun _ _ => [])
    ⟨4, 4, [1, 1, 1, 1, 1, 1, 1, 1, 0, 0, 0, 0, 0, 0, 0, 0]⟩ ⟨8, 3⟩
    (by decide) (by decide) (by decide) (by decide) (by decide) (by decide) (by decide)
    (by decide) (by decide)).2.2.2.2.2.2.2.1

/-- C20 as stated fails. For a 160 x 160 mask and a 600 x 450 target the float product
600 * gain is 160.00002 and pad_x = -1/131072 is negative (the crop is (0, 19, 160, 121)).
For a mask of 1 row and 640 columns and a target 1 wide and 1000000 high the scaled target
width 0.000001 is absorbed in the float subtraction, pad_x = 320 and the crop is 0 wide:
the resize of the empty crop fails. For a mask 16777219 columns wide and a 1 x 1 target the
crop width is -1. -/
theorem scale_image_crop_degenerate :
    ((scale_image_params ⟨160, 160, List.replicate 25600 0⟩ ⟨600, 450⟩ RatioPad.sentinel).pad_x
        = -1 / 131072 ∧
      clipped_rect ⟨160, 160, List.replicate 25600 0⟩ ⟨600, 450⟩ RatioPad.sentinel
        = ⟨0, 19, 160, 121⟩) ∧
    (clipped_rect ⟨1, 640, List.replicate 640 1⟩ ⟨1, 1000000⟩ RatioPad.sentinel
        = ⟨320, 0, 0, 1⟩ ∧
      scale_image (fun _ _ => []) ⟨1, 640, List.replicate 640 1⟩ ⟨1, 1000000⟩
        RatioPad.sentinel = .error .assertFailed) ∧
    clipped_rect ⟨1, 16777219, []⟩ ⟨1, 1⟩ RatioPad.sentinel = ⟨8388610, 0, -1, 1⟩ := by
  refine ⟨⟨by decide!, by decide!⟩, ⟨by decide!, by decide!⟩, by decide!⟩

end Helmsman
